import Mathlib

/-!
Rolling bounded volume grid and surface extraction of `kangaroo`

A shallow embedding of the `roo::BoundedVolumeGrid` class
(`kangaroo/RollingGridSDF/BoundedVolumeGrid.h`: toroidal cell addressing, shift
bookkeeping, cell lifecycle, world-to-cell sampling), of the marching cubes step
`vMarchCube` (`kangaroo/GridSDF/MarchingCubes.h`) and of the multi-cell driver
(`kangaroo/GridSDF/MarchingCubesGrid.cpp`: file names, grouping by window, the
meshing loop), with the properties proved of them.

Conventions of the embedding

* `unsigned int` and `size_t` members are `Nat`; an `unsigned int` result that
  the source computes by mixed signed/unsigned arithmetic is reduced modulo
  `2 ^ 32` (`toUnsigned`).
* `int` values are `Int`; signed arithmetic is exact (signed overflow is
  undefined behaviour in the source and is not given a meaning here).
* the fixed array `m_GridVolumes[MAX_SUPPORT_GRID_NUM]` is a function
  `Nat → VolumeGrid T`; only the indices below `MAX_SUPPORT_GRID_NUM` stand for
  real storage.
* a member function that mutates `*this` takes the volume and returns the new
  one; a path that ends in `exit(-1)` returns `none`.
* console output is not part of the state, except for the diagnostic of
  `operator()`, which is the only reaction of that accessor to an inactive cell,
  and the overflow messages of the addressing function (`shiftOverflowReported`).
* a `float` is an exact rational; where a routine can return the not-a-number
  sentinel the result is a `FloatValue`. A `std::string` is its list of
  characters.
* code that is not part of the sources at hand (cell interpolation, lookup
  tables, persistence layer) is a parameter of the functions that call it.
-/

namespace roo

/-! ## Data model -/

/-- Pool capacity: `const int MAX_SUPPORT_GRID_NUM = 13824;`. -/
def MAX_SUPPORT_GRID_NUM : Nat := 13824

/-- Number of values of a 32-bit `unsigned int`. -/
def UINT_RANGE : Nat := 4294967296

/-- Conversion of an exact integer to `unsigned int` (reduction modulo `2 ^ 32`). -/
def toUnsigned (i : Int) : Nat := (i % (UINT_RANGE : Int)).toNat

/-- CUDA `int3`. -/
structure int3 where
  x : Int
  y : Int
  z : Int
deriving DecidableEq, Repr

/-- CUDA `make_int3`. -/
def make_int3 (x y z : Int) : int3 := ⟨x, y, z⟩

instance : Add int3 := ⟨fun a b => ⟨a.x + b.x, a.y + b.y, a.z + b.z⟩⟩

/-- CUDA `float3`, with exact rational components. -/
structure float3 where
  x : ℚ
  y : ℚ
  z : ℚ
deriving DecidableEq

/-- Modelled from the spec: `roo::BoundingBox` (`kangaroo/BoundingBox.h`, not part
of the sources at hand), the world-space box given by its two corners. -/
structure BoundingBox where
  boxmin : float3
  boxmax : float3
deriving DecidableEq

/-- State of the device storage behind a cell's `ptr` member. -/
inductive MemState where
  | unacquired
  | acquired
  | released
deriving DecidableEq, Repr

/-- Modelled from the spec: the Dense Grid Cell `VolumeGrid<T>` (`VolumeGrid.h`, not
part of the sources at hand). The members `w`, `h`, `d` and `ptr` are the ones the
bounded volume reads and writes; `data` is the sample buffer, addressed by local
`(x, y, z)`. -/
structure VolumeGrid (T : Type) where
  w : Nat
  h : Nat
  d : Nat
  ptr : MemState
  data : Nat → Nat → Nat → T

/-- Modelled from the spec: `VolumeGrid::InitVolume(w, h, d)` (`VolumeGrid.h`), which
sets the dimensions and acquires the storage. The contents of freshly acquired
storage are unspecified; the sample function is left as it is. -/
def VolumeGrid.InitVolume {T : Type} (g : VolumeGrid T) (w h d : Nat) : VolumeGrid T :=
  { g with w := w, h := h, d := d, ptr := MemState.acquired }

/-- Modelled from the spec: `VolumeGrid::CopyFrom(src)` (`VolumeGrid.h`), a
one-directional transfer of the samples; the source is only read. -/
def VolumeGrid.CopyFrom {T : Type} (g src : VolumeGrid T) : VolumeGrid T :=
  { g with data := src.data }

/-- Effect of `cudaFree(ptr)` on a cell: the storage is released, nothing else
changes. -/
def VolumeGrid.cudaFree {T : Type} (g : VolumeGrid T) : VolumeGrid T :=
  { g with ptr := MemState.released }

/-- The members of `BoundedVolumeGrid<T, Target, Management>`. -/
structure BoundedVolumeGrid (T : Type) where
  m_w : Nat
  m_h : Nat
  m_d : Nat
  m_local_shift : int3
  m_global_shift : int3
  m_bbox : BoundingBox
  m_nVolumeGridRes : Nat
  m_nGridNum_w : Nat
  m_nGridNum_h : Nat
  m_nGridNum_d : Nat
  m_nTotalGridRes : Nat
  m_NextInitBasicSDFs : Nat → Int
  m_GridVolumes : Nat → VolumeGrid T

/-- Assignment `a[i] = g` to one element of an array. -/
def setSlot {α : Type} (a : Nat → α) (i : Nat) (g : α) : Nat → α :=
  fun j => if j = i then g else a j

/-- Counting loop `for (i = 0; i != n; i++) s = body i s`. -/
def forLoop {σ : Type} (n : Nat) (body : Nat → σ → σ) (s : σ) : σ :=
  match n with
  | 0 => s
  | k + 1 => body k (forLoop k body s)

/-- Counting loop whose body may leave the program (`exit(-1)`, here `none`). -/
def forLoopM {σ : Type} (n : Nat) (body : Nat → σ → Option σ) (s : σ) : Option σ :=
  match n with
  | 0 => some s
  | k + 1 => (forLoopM k body s).bind (body k)

/-! ## Sampling: values and collaborators -/

/-- A `float` a sampling routine returns: the not-a-number sentinel `0.0/0.0`, or
a finite value (an exact rational). -/
inductive FloatValue where
  | nan
  | finite (q : ℚ)
deriving DecidableEq

/-- Division of a returned `float` by a finite number. -/
def FloatValue.div (a : FloatValue) (s : ℚ) : FloatValue :=
  match a with
  | FloatValue.nan => FloatValue.nan
  | FloatValue.finite q => FloatValue.finite (q / s)

/-- A `float3` a sampling routine returns, channel by channel. -/
structure FloatValue3 where
  x : FloatValue
  y : FloatValue
  z : FloatValue
deriving DecidableEq

/-- CUDA `uint3`. -/
structure uint3 where
  x : Nat
  y : Nat
  z : Nat
deriving DecidableEq, Repr

/-- Modelled from the spec: `BoundingBox::Min()` (`kangaroo/BoundingBox.h`). -/
def BoundingBox.Min (b : BoundingBox) : float3 := b.boxmin

/-- Modelled from the spec: `BoundingBox::Size()` (`kangaroo/BoundingBox.h`), the
extent of the box on each axis. -/
def BoundingBox.Size (b : BoundingBox) : float3 :=
  ⟨b.boxmax.x - b.boxmin.x, b.boxmax.y - b.boxmin.y, b.boxmax.z - b.boxmin.z⟩

/-- The interpolation routines of a Dense Grid Cell (`VolumeGrid.h`, not part of
the sources at hand), which the sampling routines of the bounded volume delegate
to: `GetFractionalTrilinearClamped` and `GetFractionalBackwardDiffDxDyDz`. They
are the only way the sampling routines read a cell's samples. -/
structure CellSampler (T : Type) where
  GetFractionalTrilinearClamped : VolumeGrid T → float3 → FloatValue
  GetFractionalBackwardDiffDxDyDz : VolumeGrid T → float3 → FloatValue3

/-- C `floorf` on an exact value. -/
def floorf (q : ℚ) : Int := Int.floor q

/-- C `fmod` on exact values: the remainder of `x / y` with the quotient
truncated towards zero. -/
def fmod (x y : ℚ) : ℚ :=
  x - y * (if 0 ≤ x / y then (Int.floor (x / y) : ℚ) else (Int.ceil (x / y) : ℚ))

namespace BoundedVolumeGrid

variable {T : Type}

/-! ## Initialisation and cell lifecycle -/

/-- Source `ResetAllGridVol`: zero the dimensions of every slot of the pool. -/
def ResetAllGridVol (v : BoundedVolumeGrid T) : BoundedVolumeGrid T :=
  forLoop MAX_SUPPORT_GRID_NUM
    (fun i s =>
      let g : VolumeGrid T := { (s.m_GridVolumes i) with w := 0, h := 0, d := 0 }
      { s with m_GridVolumes := setSlot s.m_GridVolumes i g }) v

/-- Source `Init`. The extents and the resolution are `unsigned int` values; the
resolution is expected to be positive (the source divides by it). The product of
the three cell counts is an `unsigned int` product. -/
def Init (v : BoundedVolumeGrid T) (n_w n_h n_d n_res : Nat) (r_bbox : BoundingBox) :
    Option (BoundedVolumeGrid T) :=
  let gw := (n_w / n_res) % UINT_RANGE
  let gh := (n_h / n_res) % UINT_RANGE
  let gd := (n_d / n_res) % UINT_RANGE
  let total := (gw * gh * gd) % UINT_RANGE
  let v1 : BoundedVolumeGrid T :=
    { v with m_w := n_w, m_h := n_h, m_d := n_d, m_bbox := r_bbox,
             m_nVolumeGridRes := n_res,
             m_nGridNum_w := gw, m_nGridNum_h := gh, m_nGridNum_d := gd,
             m_nTotalGridRes := total }
  if total > MAX_SUPPORT_GRID_NUM then none
  else
    some { ResetAllGridVol v1 with
             m_local_shift := make_int3 0 0 0, m_global_shift := make_int3 0 0 0 }

/-- Source `GetTotalGridNum`. -/
def GetTotalGridNum (v : BoundedVolumeGrid T) : Nat := v.m_nTotalGridRes

/-- Source `CheckIfBasicSDFActive`. -/
def CheckIfBasicSDFActive (v : BoundedVolumeGrid T) (nIndex : Nat) : Bool :=
  if (v.m_GridVolumes nIndex).w = v.m_nVolumeGridRes ∧
     (v.m_GridVolumes nIndex).h = v.m_nVolumeGridRes ∧
     (v.m_GridVolumes nIndex).d = v.m_nVolumeGridRes then true else false

/-- Source `GetActiveGridVolNum`. -/
def GetActiveGridVolNum (v : BoundedVolumeGrid T) : Nat :=
  forLoop v.GetTotalGridNum
    (fun i nNum => if v.CheckIfBasicSDFActive i = true then nNum + 1 else nNum) 0

/-- Source `InitSingleBasicSDFWithIndex`: the returned flag and the new volume. -/
def InitSingleBasicSDFWithIndex (v : BoundedVolumeGrid T) (nIndex : Nat) :
    Bool × BoundedVolumeGrid T :=
  if (v.m_GridVolumes nIndex).w ≠ v.m_nVolumeGridRes ∧
     (v.m_GridVolumes nIndex).h ≠ v.m_nVolumeGridRes ∧
     (v.m_GridVolumes nIndex).d ≠ v.m_nVolumeGridRes then
    let g := (v.m_GridVolumes nIndex).InitVolume
      v.m_nVolumeGridRes v.m_nVolumeGridRes v.m_nVolumeGridRes
    (true, { v with m_GridVolumes := setSlot v.m_GridVolumes nIndex g })
  else (false, v)

/-- Source `FreeMemory`: every active slot below the total cell count gets its
dimensions zeroed and its storage released. -/
def FreeMemory (v : BoundedVolumeGrid T) : BoundedVolumeGrid T :=
  forLoop v.GetTotalGridNum
    (fun i s =>
      if (s.m_GridVolumes i).d = s.m_nVolumeGridRes ∧
         (s.m_GridVolumes i).h = s.m_nVolumeGridRes ∧
         (s.m_GridVolumes i).w = s.m_nVolumeGridRes then
        let g : VolumeGrid T := { (s.m_GridVolumes i) with d := 0, w := 0, h := 0 }
        { s with m_GridVolumes := setSlot s.m_GridVolumes i g.cudaFree }
      else s) v

/-- Source `FreeMemoryByIndex`: leaves the program when the slot is not active,
otherwise releases the slot's storage. -/
def FreeMemoryByIndex (v : BoundedVolumeGrid T) (nIndex : Nat) :
    Option (BoundedVolumeGrid T) :=
  if v.CheckIfBasicSDFActive nIndex = false then none
  else
    let g := (v.m_GridVolumes nIndex).cudaFree
    some { v with m_GridVolumes := setSlot v.m_GridVolumes nIndex g }

/-- Body of the loop of `CopyAndInitFrom` for slot `i`: a slot whose source is
active is allocated when it is not active yet (leaving the program when the
allocation reports failure or the slot is still inactive) and receives the
source samples; a slot whose source is inactive is skipped. -/
def copyAndInitSlot (rVol : BoundedVolumeGrid T) (i : Nat) (s : BoundedVolumeGrid T) :
    Option (BoundedVolumeGrid T) :=
  if rVol.CheckIfBasicSDFActive i = true then
    if s.CheckIfBasicSDFActive i = false then
      let r := s.InitSingleBasicSDFWithIndex i
      if r.1 = false then none
      else if r.2.CheckIfBasicSDFActive i = false then none
      else
        let g := (r.2.m_GridVolumes i).CopyFrom (rVol.m_GridVolumes i)
        some { r.2 with m_GridVolumes := setSlot r.2.m_GridVolumes i g }
    else
      let g := (s.m_GridVolumes i).CopyFrom (rVol.m_GridVolumes i)
      some { s with m_GridVolumes := setSlot s.m_GridVolumes i g }
  else some s

/-- Source `CopyAndInitFrom` (the overloads for a device source and for a host
source have the same body). The source volume `rVol` is only read. -/
def CopyAndInitFrom (v rVol : BoundedVolumeGrid T) : Option (BoundedVolumeGrid T) :=
  forLoopM v.GetTotalGridNum (copyAndInitSlot rVol) v

/-! ## Toroidal addressing -/

/-- Source `ConvertLocalIndexToRealIndex`. The three axis blocks are transcribed
as they stand: the `x` block admits a shift with `0 < |s| < N`, the `y` and `z`
blocks one with `0 < |s| ≤ N`; a shift outside that range leaves the coordinate
as it is (the source prints a message and goes on). -/
def ConvertLocalIndexToRealIndex (v : BoundedVolumeGrid T) (x y z : Int) : Nat :=
  let nw : Int := v.m_nGridNum_w
  let nh : Int := v.m_nGridNum_h
  let nd : Int := v.m_nGridNum_d
  let s := v.m_local_shift
  if s.x = 0 ∧ s.y = 0 ∧ s.z = 0 then
    toUnsigned (x + nw * (y + nh * z))
  else
    let x1 : Int :=
      if 0 < s.x ∧ s.x < nw then
        (if x ≤ nw - 1 - s.x then x + s.x else x - (nw - s.x))
      else if s.x < 0 ∧ s.x > -nw then
        (if x ≥ -s.x then x + s.x else x + nw + s.x)
      else x
    let y1 : Int :=
      if 0 < s.y ∧ s.y ≤ nh then
        (if y ≤ nh - 1 - s.y then y + s.y else y - (nh - s.y))
      else if s.y < 0 ∧ s.y ≥ -nh then
        (if y ≥ -s.y then y + s.y else y + nh + s.y)
      else y
    let z1 : Int :=
      if 0 < s.z ∧ s.z ≤ nd then
        (if z ≤ nd - 1 - s.z then z + s.z else z - (nd - s.z))
      else if s.z < 0 ∧ s.z ≥ -nd then
        (if z ≥ -s.z then z + s.z else z + nd + s.z)
      else z
    toUnsigned (x1 + nw * (y1 + nh * z1))

/-- One axis of `UpdateLocalAndGlobalShift`, the local component: `l` is the local
shift after the delta was added, `n` the cell count of the axis. -/
def wrapLocalAxis (n l : Int) : Int :=
  if l ≥ n then 0 else if l ≤ -n then 0 else l

/-- One axis of `UpdateLocalAndGlobalShift`, the global component `g`:
incremented when the local one reached `n`, decremented when it reached `-n`. -/
def wrapGlobalAxis (n l g : Int) : Int :=
  if l ≥ n then g + 1 else if l ≤ -n then g - 1 else g

/-- Source `UpdateLocalAndGlobalShift`: add the delta to the local shift, wrap
each axis that reached the cell count into the global shift (the three axis
blocks of the source are the same code, here `wrapLocalAxis` and
`wrapGlobalAxis`), then the two overflow checks, each of which leaves the
program. -/
def UpdateLocalAndGlobalShift (v : BoundedVolumeGrid T) (cur_shift : int3) :
    Option (BoundedVolumeGrid T) :=
  let nw : Int := v.m_nGridNum_w
  let nh : Int := v.m_nGridNum_h
  let nd : Int := v.m_nGridNum_d
  let l := v.m_local_shift + cur_shift
  let g := v.m_global_shift
  let l1 : int3 := ⟨wrapLocalAxis nw l.x, wrapLocalAxis nh l.y, wrapLocalAxis nd l.z⟩
  let g1 : int3 :=
    ⟨wrapGlobalAxis nw l.x g.x, wrapGlobalAxis nh l.y g.y, wrapGlobalAxis nd l.z g.z⟩
  if |l1.x| > nw ∨ |l1.y| > nh ∨ |l1.z| > nd then none
  else if |g1.x| > 99999 ∨ |g1.y| > 99999 ∨ |g1.z| > 99999 then none
  else some { v with m_local_shift := l1, m_global_shift := g1 }

/-- A run of `UpdateLocalAndGlobalShift` calls, one per delta, in order; `none`
as soon as one call leaves the program. -/
def runShifts (v : BoundedVolumeGrid T) : List int3 → Option (BoundedVolumeGrid T)
  | [] => some v
  | d :: ds => (v.UpdateLocalAndGlobalShift d).bind (fun v1 => runShifts v1 ds)

/-- The deltas of a run never carry the local shift beyond the window: at every
call `|local_shift.axis + delta.axis| ≤ N_axis` on each axis (checked along the
run, on the state each call starts from). -/
def stepsWithinWindow (v : BoundedVolumeGrid T) : List int3 → Bool
  | [] => true
  | d :: ds =>
    (decide (|v.m_local_shift.x + d.x| ≤ (v.m_nGridNum_w : Int)) &&
     decide (|v.m_local_shift.y + d.y| ≤ (v.m_nGridNum_h : Int)) &&
     decide (|v.m_local_shift.z + d.z| ≤ (v.m_nGridNum_d : Int))) &&
    (match v.UpdateLocalAndGlobalShift d with
     | none => true
     | some v1 => stepsWithinWindow v1 ds)

/-! ## Raw voxel access -/

/-- The storage location a returned `T&` denotes: a slot of the pool and a local
coordinate inside that slot's cell. -/
structure SampleRef where
  slot : Nat
  x : Nat
  y : Nat
  z : Nat
deriving DecidableEq, Repr

/-- Source `Get`: the cell coordinate is `floorf(x / R)` with `x / R` an unsigned
division; the test for an inactive cell has an empty body, so the reference is
returned in either case. -/
def Get (v : BoundedVolumeGrid T) (x y z : Nat) : SampleRef :=
  let nIndex := v.ConvertLocalIndexToRealIndex
    (x / v.m_nVolumeGridRes : Nat) (y / v.m_nVolumeGridRes : Nat) (z / v.m_nVolumeGridRes : Nat)
  ⟨nIndex, x % v.m_nVolumeGridRes, y % v.m_nVolumeGridRes, z % v.m_nVolumeGridRes⟩

/-- Source `operator()`: as `Get`, and a diagnostic is printed when the owning
cell is not active; the first component tells whether it was printed. -/
def operator_call (v : BoundedVolumeGrid T) (x y z : Nat) : Bool × SampleRef :=
  let nIndex := v.ConvertLocalIndexToRealIndex
    (x / v.m_nVolumeGridRes : Nat) (y / v.m_nVolumeGridRes : Nat) (z / v.m_nVolumeGridRes : Nat)
  (if v.CheckIfBasicSDFActive nIndex = false then true else false,
   ⟨nIndex, x % v.m_nVolumeGridRes, y % v.m_nVolumeGridRes, z % v.m_nVolumeGridRes⟩)

/-- Reading the sample a reference denotes (`VolumeGrid::operator()` on the
slot's cell). -/
def readSample (v : BoundedVolumeGrid T) (r : SampleRef) : T :=
  (v.m_GridVolumes r.slot).data r.x r.y r.z

/-! ## Predicates used in the statements -/

/-- A logical cell coordinate inside the window `[0,Nx) × [0,Ny) × [0,Nz)`. -/
def InWindow (v : BoundedVolumeGrid T) (x y z : Int) : Prop :=
  (0 ≤ x ∧ x < v.m_nGridNum_w) ∧ (0 ≤ y ∧ y < v.m_nGridNum_h) ∧
    (0 ≤ z ∧ z < v.m_nGridNum_d)

/-- A valid local shift: `|local_shift.axis| < N_axis` on every axis. -/
def ValidShift (v : BoundedVolumeGrid T) : Prop :=
  |v.m_local_shift.x| < v.m_nGridNum_w ∧ |v.m_local_shift.y| < v.m_nGridNum_h ∧
    |v.m_local_shift.z| < v.m_nGridNum_d

/-- The number of cells of the window, `Nx * Ny * Nz`, as an exact product. -/
def cellCount (v : BoundedVolumeGrid T) : Nat :=
  v.m_nGridNum_w * v.m_nGridNum_h * v.m_nGridNum_d

/-- The wraparound rule of one axis, for a coordinate `c` of an axis with `N` cells
and local shift `s`, in terms of the shifted coordinate `(c + s) mod N`: with
`s > 0` the indices `[0, N-1-s]` advance by `s` and the indices `[N-s, N-1]` wrap
to `[0, s-1]`; symmetrically for `s < 0`; with `s = 0` nothing moves. -/
def WrapRule (N s c : Int) : Prop :=
  (0 < s → c ≤ N - 1 - s → (c + s) % N = c + s) ∧
  (0 < s → N - s ≤ c → (c + s) % N = c + s - N ∧ 0 ≤ (c + s) % N ∧ (c + s) % N ≤ s - 1) ∧
  (s < 0 → -s ≤ c → (c + s) % N = c + s) ∧
  (s < 0 → c < -s → (c + s) % N = c + s + N ∧ N + s ≤ (c + s) % N ∧ (c + s) % N ≤ N - 1) ∧
  (s = 0 → (c + s) % N = c)

/-- The pool `a` with the dimensions of its first `n` slots set to zero. -/
def zeroedPool (a : Nat → VolumeGrid T) (n : Nat) : Nat → VolumeGrid T :=
  fun j => if j < n then { (a j) with w := 0, h := 0, d := 0 } else a j

/-- The unit bounding box used with the sample volumes. -/
def unitBox : BoundingBox := ⟨⟨0, 0, 0⟩, ⟨1, 1, 1⟩⟩

/-- A volume with `2 × 3 × 2` cells of resolution 4, local shift `(1, -2, 0)` and
no allocated cell, used to instantiate the statements. -/
def sampleVolume : BoundedVolumeGrid Int :=
  { m_w := 8, m_h := 12, m_d := 8,
    m_local_shift := ⟨1, -2, 0⟩, m_global_shift := ⟨0, 0, 0⟩,
    m_bbox := unitBox,
    m_nVolumeGridRes := 4,
    m_nGridNum_w := 2, m_nGridNum_h := 3, m_nGridNum_d := 2,
    m_nTotalGridRes := 12,
    m_NextInitBasicSDFs := fun _ => 0,
    m_GridVolumes := fun _ => ⟨0, 0, 0, MemState.unacquired, fun _ _ _ => 0⟩ }

/-- The volume `Init(8, 12, 8, 4, unitBox)` leaves behind when called on
`sampleVolume`: `2 × 3 × 2` cells, no cell allocated, both shifts zero. -/
def freshVolume : BoundedVolumeGrid Int :=
  { sampleVolume with m_local_shift := ⟨0, 0, 0⟩ }

/-- The fresh volume after one wrap forwards in `x` and one backwards in `y`. -/
def shiftedVolume : BoundedVolumeGrid Int :=
  { freshVolume with m_global_shift := ⟨1, -1, 0⟩ }

/-- The fresh volume after its global shift moved forwards by one in `x`. -/
def steppedVolume : BoundedVolumeGrid Int :=
  { freshVolume with m_global_shift := ⟨1, 0, 0⟩ }

/-- The unallocated state of a cell: dimensions `(0, 0, 0)`. -/
def Unallocated (g : VolumeGrid T) : Prop := g.w = 0 ∧ g.h = 0 ∧ g.d = 0

instance (g : VolumeGrid T) : Decidable (Unallocated g) := by
  unfold Unallocated; infer_instance

/-- The fresh volume after `InitSingleBasicSDFWithIndex(0)`: slot 0 is active. -/
def activeVolume : BoundedVolumeGrid Int :=
  (freshVolume.InitSingleBasicSDFWithIndex 0).2

/-- The volume `CopyAndInitFrom(activeVolume)` leaves behind when called on the
fresh volume (the fresh volume itself stands in for a call that does not return,
which does not happen here). -/
def copiedVolume : BoundedVolumeGrid Int :=
  (freshVolume.CopyAndInitFrom activeVolume).getD freshVolume

instance (v : BoundedVolumeGrid T) (x y z : Int) : Decidable (v.InWindow x y z) := by
  unfold InWindow; infer_instance

instance (v : BoundedVolumeGrid T) : Decidable v.ValidShift := by
  unfold ValidShift; infer_instance

/-! ## World-to-cell sampling -/

/-- The clamp both sampling routines apply to one component of the normalised
position: `if (p >= 1) p = 0.99999f; else if (p < 0) p = 0.f;`. -/
def clampUnit (p : ℚ) : ℚ :=
  if p ≥ 1 then 99999 / 100000 else if p < 0 then 0 else p

/-- Source `VoxelSizeUnits`: `m_bbox.Size() / make_float3(m_w-1, m_h-1, m_d-1)`. -/
def VoxelSizeUnits (v : BoundedVolumeGrid T) : float3 :=
  ⟨v.m_bbox.Size.x / ((v.m_w : ℚ) - 1), v.m_bbox.Size.y / ((v.m_h : ℚ) - 1),
   v.m_bbox.Size.z / ((v.m_d : ℚ) - 1)⟩

/-- The clamped normalised position `pos_v` of both sampling routines:
`(pos_w - m_bbox.Min()) / m_bbox.Size()`, each component clamped. -/
def samplePosition (v : BoundedVolumeGrid T) (pos_w : float3) : float3 :=
  ⟨clampUnit ((pos_w.x - v.m_bbox.Min.x) / v.m_bbox.Size.x),
   clampUnit ((pos_w.y - v.m_bbox.Min.y) / v.m_bbox.Size.y),
   clampUnit ((pos_w.z - v.m_bbox.Min.z) / v.m_bbox.Size.z)⟩

/-- The factor `fFactor` of both sampling routines:
`static_cast<float>(m_nVolumeGridRes) / static_cast<float>(m_w)`, the same number
for the three axes. -/
def sampleFactor (v : BoundedVolumeGrid T) : ℚ :=
  (v.m_nVolumeGridRes : ℚ) / (v.m_w : ℚ)

/-- The coarse cell coordinate `Index` of both sampling routines:
`make_uint3(floorf(pos_v.x / fFactor), floorf(pos_v.y / fFactor),
floorf(pos_v.z / fFactor))`. -/
def sampleIndex (v : BoundedVolumeGrid T) (pos_w : float3) : uint3 :=
  let pos_v := v.samplePosition pos_w
  ⟨(floorf (pos_v.x / v.sampleFactor)).toNat, (floorf (pos_v.y / v.sampleFactor)).toNat,
   (floorf (pos_v.z / v.sampleFactor)).toNat⟩

/-- The slot `nIndex` both sampling routines resolve for a world point. -/
def sampleSlot (v : BoundedVolumeGrid T) (pos_w : float3) : Nat :=
  let Index := v.sampleIndex pos_w
  v.ConvertLocalIndexToRealIndex (Index.x : Int) (Index.y : Int) (Index.z : Int)

/-- The position `pos_v_grid` inside the located cell:
`fmod(pos_v, fFactor) / fFactor` on each axis. -/
def samplePositionInCell (v : BoundedVolumeGrid T) (pos_w : float3) : float3 :=
  let pos_v := v.samplePosition pos_w
  ⟨fmod pos_v.x v.sampleFactor / v.sampleFactor, fmod pos_v.y v.sampleFactor / v.sampleFactor,
   fmod pos_v.z v.sampleFactor / v.sampleFactor⟩

/-- Source `GetUnitsTrilinearClamped`: the not-a-number sentinel when the located
slot is not active, otherwise the interpolation of the located cell. -/
def GetUnitsTrilinearClamped (cs : CellSampler T) (v : BoundedVolumeGrid T)
    (pos_w : float3) : FloatValue :=
  let nIndex := v.sampleSlot pos_w
  if v.CheckIfBasicSDFActive nIndex = false then FloatValue.nan
  else cs.GetFractionalTrilinearClamped (v.m_GridVolumes nIndex) (v.samplePositionInCell pos_w)

/-- Source `GetUnitsBackwardDiffDxDyDz`: the sentinel on the three channels when
the located slot is not active, otherwise the finite difference of the located
cell divided by `VoxelSizeUnits()`. -/
def GetUnitsBackwardDiffDxDyDz (cs : CellSampler T) (v : BoundedVolumeGrid T)
    (pos_w : float3) : FloatValue3 :=
  let nIndex := v.sampleSlot pos_w
  if v.CheckIfBasicSDFActive nIndex = false then
    ⟨FloatValue.nan, FloatValue.nan, FloatValue.nan⟩
  else
    let deriv := cs.GetFractionalBackwardDiffDxDyDz (v.m_GridVolumes nIndex)
      (v.samplePositionInCell pos_w)
    ⟨deriv.x.div v.VoxelSizeUnits.x, deriv.y.div v.VoxelSizeUnits.y,
     deriv.z.div v.VoxelSizeUnits.z⟩

/-- The messages `Shift in x/y/z OverFlow!` that `ConvertLocalIndexToRealIndex`
prints, one flag per axis: a message is printed when the function got past the
zero-shift shortcut, the shift of the axis is in neither admitted range and is
not zero. Printing is all the function does about such a shift. -/
def shiftOverflowReported (v : BoundedVolumeGrid T) : Bool × Bool × Bool :=
  let nw : Int := v.m_nGridNum_w
  let nh : Int := v.m_nGridNum_h
  let nd : Int := v.m_nGridNum_d
  let s := v.m_local_shift
  if s.x = 0 ∧ s.y = 0 ∧ s.z = 0 then (false, false, false)
  else
    (decide (¬ (0 < s.x ∧ s.x < nw) ∧ ¬ (s.x < 0 ∧ s.x > -nw) ∧ s.x ≠ 0),
     decide (¬ (0 < s.y ∧ s.y ≤ nh) ∧ ¬ (s.y < 0 ∧ s.y ≥ -nh) ∧ s.y ≠ 0),
     decide (¬ (0 < s.z ∧ s.z ≤ nd) ∧ ¬ (s.z < 0 ∧ s.z ≥ -nd) ∧ s.z ≠ 0))

/-- The fresh `2 × 3 × 2` volume with the local shift set to `(2, 3, 0)`: the
shift reaches the cell count on `x` and on `y`. -/
def overshiftVolume : BoundedVolumeGrid Int :=
  { freshVolume with m_local_shift := ⟨2, 3, 0⟩ }

/-- A volume of `8 × 4 × 4` voxels with resolution 4, that is `2 × 1 × 1` cells,
over the unit box, as `Init(8, 4, 4, 4, unitBox)` leaves it. -/
def flatVolume : BoundedVolumeGrid Int :=
  { freshVolume with m_w := 8, m_h := 4, m_d := 4,
                     m_nGridNum_w := 2, m_nGridNum_h := 1, m_nGridNum_d := 1,
                     m_nTotalGridRes := 2 }

/-- A cell sampler that returns the constant 1 on every channel. -/
def unitSampler : CellSampler Int :=
  { GetFractionalTrilinearClamped := fun _ _ => FloatValue.finite 1,
    GetFractionalBackwardDiffDxDyDz := fun _ _ =>
      ⟨FloatValue.finite 1, FloatValue.finite 1, FloatValue.finite 1⟩ }


/-! ## Allocation by voxel coordinate, operation sequences, world box of a window -/

/-- Source `InitSingleBasicSDFWithGridIndex`: the slot of the cell that holds the
voxel `(x, y, z)` is allocated unless one of its dimensions already equals the
resolution (`x / m_nVolumeGridRes` is an unsigned division). -/
def InitSingleBasicSDFWithGridIndex (v : BoundedVolumeGrid T) (x y z : Nat) :
    BoundedVolumeGrid T :=
  let nIndex := v.ConvertLocalIndexToRealIndex
    (x / v.m_nVolumeGridRes : Nat) (y / v.m_nVolumeGridRes : Nat) (z / v.m_nVolumeGridRes : Nat)
  if (v.m_GridVolumes nIndex).w ≠ v.m_nVolumeGridRes ∧
     (v.m_GridVolumes nIndex).h ≠ v.m_nVolumeGridRes ∧
     (v.m_GridVolumes nIndex).d ≠ v.m_nVolumeGridRes then
    let g := (v.m_GridVolumes nIndex).InitVolume
      v.m_nVolumeGridRes v.m_nVolumeGridRes v.m_nVolumeGridRes
    { v with m_GridVolumes := setSlot v.m_GridVolumes nIndex g }
  else v

/-- Source `InitAllBasicSDFs`: the three nested loops over the voxel extents, each
iteration calling `InitSingleBasicSDFWithGridIndex(i, j, k)`. -/
def InitAllBasicSDFs (v : BoundedVolumeGrid T) : BoundedVolumeGrid T :=
  forLoop v.m_w (fun i s =>
    forLoop s.m_h (fun j s1 =>
      forLoop s1.m_d (fun k s2 => s2.InitSingleBasicSDFWithGridIndex i j k) s1) s) v

/-- One call of a member function that touches the cells or the shifts, with its
arguments. -/
inductive VolumeOp (T : Type) where
  | resetAllGridVol
  | initSingleBasicSDFWithIndex (nIndex : Nat)
  | initSingleBasicSDFWithGridIndex (x y z : Nat)
  | initAllBasicSDFs
  | freeMemory
  | freeMemoryByIndex (nIndex : Nat)
  | copyAndInitFrom (rVol : BoundedVolumeGrid T)
  | updateLocalAndGlobalShift (cur_shift : int3)

/-- The state a call leaves behind; `none` when the call leaves the program. -/
def applyOp (v : BoundedVolumeGrid T) : VolumeOp T → Option (BoundedVolumeGrid T)
  | VolumeOp.resetAllGridVol => some v.ResetAllGridVol
  | VolumeOp.initSingleBasicSDFWithIndex nIndex => some (v.InitSingleBasicSDFWithIndex nIndex).2
  | VolumeOp.initSingleBasicSDFWithGridIndex x y z =>
    some (v.InitSingleBasicSDFWithGridIndex x y z)
  | VolumeOp.initAllBasicSDFs => some v.InitAllBasicSDFs
  | VolumeOp.freeMemory => some v.FreeMemory
  | VolumeOp.freeMemoryByIndex nIndex => v.FreeMemoryByIndex nIndex
  | VolumeOp.copyAndInitFrom rVol => v.CopyAndInitFrom rVol
  | VolumeOp.updateLocalAndGlobalShift cur_shift => v.UpdateLocalAndGlobalShift cur_shift

/-- A sequence of calls, in order; `none` as soon as one call leaves the program. -/
def runOps (v : BoundedVolumeGrid T) : List (VolumeOp T) → Option (BoundedVolumeGrid T)
  | [] => some v
  | op :: ops => (v.applyOp op).bind (fun v1 => runOps v1 ops)

/-- The dimensions of a slot are `(0, 0, 0)` or `(R, R, R)`. -/
def TriState (v : BoundedVolumeGrid T) (i : Nat) : Prop :=
  Unallocated (v.m_GridVolumes i) ∨
    ((v.m_GridVolumes i).w = v.m_nVolumeGridRes ∧ (v.m_GridVolumes i).h = v.m_nVolumeGridRes ∧
      (v.m_GridVolumes i).d = v.m_nVolumeGridRes)

/-- The condition of the first check of `UpdateLocalAndGlobalShift` (`fatal error!
local shift overflow!`), evaluated on the local shift after the three axis
blocks. -/
def localShiftOverflow (v : BoundedVolumeGrid T) (cur_shift : int3) : Prop :=
  let l := v.m_local_shift + cur_shift
  |wrapLocalAxis v.m_nGridNum_w l.x| > (v.m_nGridNum_w : Int) ∨
  |wrapLocalAxis v.m_nGridNum_h l.y| > (v.m_nGridNum_h : Int) ∨
  |wrapLocalAxis v.m_nGridNum_d l.z| > (v.m_nGridNum_d : Int)

/-- The condition of the second check of `UpdateLocalAndGlobalShift` (`fatal
error! global shift overflow!`), evaluated on the global shift after the three
axis blocks. -/
def globalShiftOverflow (v : BoundedVolumeGrid T) (cur_shift : int3) : Prop :=
  let l := v.m_local_shift + cur_shift
  let g := v.m_global_shift
  |wrapGlobalAxis v.m_nGridNum_w l.x g.x| > 99999 ∨
  |wrapGlobalAxis v.m_nGridNum_h l.y g.y| > 99999 ∨
  |wrapGlobalAxis v.m_nGridNum_d l.z g.z| > 99999

instance (v : BoundedVolumeGrid T) (d : int3) : Decidable (v.localShiftOverflow d) := by
  unfold localShiftOverflow; infer_instance

instance (v : BoundedVolumeGrid T) (d : int3) : Decidable (v.globalShiftOverflow d) := by
  unfold globalShiftOverflow; infer_instance

/-- Source `GetDesireBB`: both corners of the base box are moved, on each axis, by
`- Size * local_shift / N + Size * (GlobalIndex - global_shift)`; `Size` is the
size of the base box. The arithmetic is exact. -/
def GetDesireBB (v : BoundedVolumeGrid T) (GlobalIndex : int3) : BoundingBox :=
  let s := v.m_bbox.Size
  let l := v.m_local_shift
  let g := v.m_global_shift
  let boxmax : float3 :=
    ⟨v.m_bbox.boxmax.x - s.x * (l.x : ℚ) / (v.m_nGridNum_w : ℚ)
        + s.x * ((GlobalIndex.x - g.x : Int) : ℚ),
     v.m_bbox.boxmax.y - s.y * (l.y : ℚ) / (v.m_nGridNum_h : ℚ)
        + s.y * ((GlobalIndex.y - g.y : Int) : ℚ),
     v.m_bbox.boxmax.z - s.z * (l.z : ℚ) / (v.m_nGridNum_d : ℚ)
        + s.z * ((GlobalIndex.z - g.z : Int) : ℚ)⟩
  let boxmin : float3 :=
    ⟨v.m_bbox.boxmin.x - s.x * (l.x : ℚ) / (v.m_nGridNum_w : ℚ)
        + s.x * ((GlobalIndex.x - g.x : Int) : ℚ),
     v.m_bbox.boxmin.y - s.y * (l.y : ℚ) / (v.m_nGridNum_h : ℚ)
        + s.y * ((GlobalIndex.y - g.y : Int) : ℚ),
     v.m_bbox.boxmin.z - s.z * (l.z : ℚ) / (v.m_nGridNum_d : ℚ)
        + s.z * ((GlobalIndex.z - g.z : Int) : ℚ)⟩
  { v.m_bbox with boxmax := boxmax, boxmin := boxmin }

/-- The translation of one axis the world box of a window is specified to have:
`Size * ((G - global_shift) - local_shift / N)`. -/
def windowOffset (size : ℚ) (G g l : Int) (N : Nat) : ℚ :=
  size * (((G : ℚ) - (g : ℚ)) - (l : ℚ) / (N : ℚ))

/-- A box moved by the vector `t`. -/
def translateBox (b : BoundingBox) (t : float3) : BoundingBox :=
  ⟨⟨b.boxmin.x + t.x, b.boxmin.y + t.y, b.boxmin.z + t.z⟩,
   ⟨b.boxmax.x + t.x, b.boxmax.y + t.y, b.boxmax.z + t.z⟩⟩

/-- The fresh `2 × 3 × 2` volume over the box `[0,2] × [0,3] × [0,2]` with local
shift `(1, -2, 0)` and global shift `(1, -1, 0)`. -/
def movedVolume : BoundedVolumeGrid Int :=
  { freshVolume with m_bbox := ⟨⟨0, 0, 0⟩, ⟨2, 3, 2⟩⟩, m_local_shift := ⟨1, -2, 0⟩,
                     m_global_shift := ⟨1, -1, 0⟩ }

/-- The fresh `2 × 3 × 2` volume one step before its global shift leaves the
admitted range on `x`: local shift `(1, 0, 0)`, global shift `(99999, 0, 0)`. -/
def farVolume : BoundedVolumeGrid Int :=
  { freshVolume with m_local_shift := ⟨1, 0, 0⟩, m_global_shift := ⟨99999, 0, 0⟩ }

/-- The volume `Init(10, 12, 8, 4, unitBox)` leaves behind when called on
`sampleVolume`: 10 voxels on `x`, and `10 / 4 = 2` cells. -/
def raggedVolume : BoundedVolumeGrid Int :=
  { freshVolume with m_w := 10 }


/-- What one `UpdateLocalAndGlobalShift` call does to one axis with `N` cells:
`l`, `g` are the local and the global component before the call, `d` the delta,
`l1`, `g1` the components after it. The global component moves by `-1`, `0` or
`+1`, by `+1` only for a positive and by `-1` only for a negative delta; it moves
exactly when `|l + d| ≥ N`, and then the local component is 0, otherwise the
local component is `l + d`. -/
def AxisStep (N l d g l1 g1 : Int) : Prop :=
  (g1 = g - 1 ∨ g1 = g ∨ g1 = g + 1) ∧ (g1 = g + 1 → 0 < d) ∧ (g1 = g - 1 → d < 0) ∧
  (g1 ≠ g ↔ N ≤ |l + d|) ∧ (N ≤ |l + d| → l1 = 0) ∧ (|l + d| < N → l1 = l + d)

/-- The sample volume after the delta `(1, -1, 5)`: every axis wrapped, the local
shift is zero and the global shift `(1, -1, 1)`. -/
def wrappedVolume : BoundedVolumeGrid Int :=
  { sampleVolume with m_local_shift := ⟨0, 0, 0⟩, m_global_shift := ⟨1, -1, 1⟩ }


/-- The fresh volume after allocating slot 0 by index and the cell of voxel
`(4, 0, 0)` by coordinate, a shift by `(1, 0, 0)`, releasing slot 0 by index and
a pass of `FreeMemory` (the fresh volume itself stands in for a run that leaves
the program, which does not happen here). -/
def cycledVolume : BoundedVolumeGrid Int :=
  (freshVolume.runOps
    [VolumeOp.initSingleBasicSDFWithIndex 0, VolumeOp.initSingleBasicSDFWithGridIndex 4 0 0,
     VolumeOp.updateLocalAndGlobalShift ⟨1, 0, 0⟩, VolumeOp.freeMemoryByIndex 0,
     VolumeOp.freeMemory]).getD freshVolume


/-! ## Validity test, voxel test, unit deltas -/

/-- Source `IsValid`: `nNum` counts the slots below the total cell count none of
whose dimensions equals the resolution (an `int`, which counts at most the slots
of the pool); the result is `nNum > 0 && m_w > 0 && m_h > 0 && m_d > 0`. -/
def IsValid (v : BoundedVolumeGrid T) : Bool :=
  let nNum : Int := forLoop v.m_nTotalGridRes
    (fun i nNum =>
      if (v.m_GridVolumes i).w ≠ v.m_nVolumeGridRes ∧
         (v.m_GridVolumes i).h ≠ v.m_nVolumeGridRes ∧
         (v.m_GridVolumes i).d ≠ v.m_nVolumeGridRes then nNum + 1 else nNum) 0
  decide (nNum > 0 ∧ v.m_w > 0 ∧ v.m_h > 0 ∧ v.m_d > 0)

/-- Source `CheckIfVoxelExist`, for a voxel with non-negative coordinates:
whether the cell that holds the voxel is active. -/
def CheckIfVoxelExist (v : BoundedVolumeGrid T) (x y z : Nat) : Bool :=
  let nIndex := v.ConvertLocalIndexToRealIndex
    (x / v.m_nVolumeGridRes : Nat) (y / v.m_nVolumeGridRes : Nat) (z / v.m_nVolumeGridRes : Nat)
  v.CheckIfBasicSDFActive nIndex

/-- A shift delta whose components are all in `{-1, 0, 1}`. -/
def UnitDelta (d : int3) : Prop := |d.x| ≤ 1 ∧ |d.y| ≤ 1 ∧ |d.z| ≤ 1

instance (d : int3) : Decidable (UnitDelta d) := by
  unfold UnitDelta; infer_instance

/-- The fresh `2 × 3 × 2` volume after the deltas `(1,0,0)`, `(1,-1,0)`,
`(0,-1,1)`: local shift `(0, -2, 1)`, global shift `(1, 0, 0)`. -/
def trackedVolume : BoundedVolumeGrid Int :=
  { freshVolume with m_local_shift := ⟨0, -2, 1⟩, m_global_shift := ⟨1, 0, 0⟩ }

/-- The `2 × 3 × 2` volume of resolution 4 with every slot active. -/
def fullVolume : BoundedVolumeGrid Int :=
  { freshVolume with
    m_GridVolumes := fun _ => ⟨4, 4, 4, MemState.acquired, fun _ _ _ => 0⟩ }

end BoundedVolumeGrid

/-! ## Surface extraction (`kangaroo/GridSDF/MarchingCubes.h`) -/

/-- Source `fGetOffset`: the fraction of the way from the first endpoint of an
edge to the second at which the target value is reached; `0.5` when the
difference of the endpoint values is zero. The values are exact rationals. -/
def fGetOffset (fValue1 fValue2 fValueDesired : ℚ) : ℚ :=
  let fDelta := fValue2 - fValue1
  if fDelta = 0 then 1 / 2 else (fValueDesired - fValue1) / fDelta

/-- The lookup tables of `Kangaroo/MarchingCubesTables.h` (not part of the
sources at hand) that `vMarchCube` reads: the offsets of the 8 corners, the two
corners of each of the 12 edges, the direction of each edge, the 256 edge masks
and the 256 rows of the triangle table (16 edge indices each, negative from the
end of the row on). -/
structure MarchingCubesTables where
  a2fVertexOffset : Nat → float3
  a2iEdgeConnection : Nat → Nat × Nat
  a2fEdgeDirection : Nat → float3
  aiCubeEdgeFlags : Nat → Nat
  a2iTriangleConnectionTable : Nat → Nat → Int

/-- Modelled from the spec: what the spec states about the edge table and the
triangle table of `Kangaroo/MarchingCubesTables.h` (not part of the sources at
hand). The edge set of the masks 0 and 0xFF is empty ("a fully-inside or
fully-outside cube (mask 0 or 0xFF, empty edge set)"), and a mask with exactly
one corner on the opposite side of the others has a non-empty edge set and
exactly one triangle ("yields exactly 1 triangle"): its row holds an edge index
at entry 0 and the end marker at entry 3. -/
structure TablesAsSpecified (t : MarchingCubesTables) : Prop where
  empty_outside : t.aiCubeEdgeFlags 0 = 0
  empty_inside : t.aiCubeEdgeFlags 255 = 0
  single_corner : ∀ i, i < 8 → ∀ m, (m = 1 <<< i ∨ m = 255 - 1 <<< i) →
    t.aiCubeEdgeFlags m ≠ 0 ∧ 0 ≤ t.a2iTriangleConnectionTable m 0 ∧
      t.a2iTriangleConnectionTable m 3 < 0

/-- Modelled from the spec: the host volume `BoundedVolume<T, TargetHost>`
(`Kangaroo/BoundedVolume.h`, not part of the sources at hand), by the operations
`vMarchCube` calls: the sample at a voxel (`nan` stands for every value that is
not finite; the coordinate is the `float` sum the caller passes), the world
position of a voxel, the voxel size and the gradient query. -/
structure BoundedVolume where
  Get : ℚ → ℚ → ℚ → FloatValue
  VoxelPositionInUnits : Int → Int → Int → float3
  VoxelSizeUnits : float3
  GetUnitsBackwardDiffDxDyDz : float3 → FloatValue3

/-- Modelled from the spec: the colour volume `BoundedVolume<TColor, TargetHost>`
by the operations `vMarchCube` calls: `IsValid()` and the trilinear sample,
already converted to a `float3` by `ConvertPixel`. -/
structure ColorVolume where
  IsValid : Bool
  GetUnitsTrilinearClamped : float3 → float3

/-- Assimp `aiFace`: the vertex indices of one face. -/
structure aiFace where
  mIndices : List Nat
deriving DecidableEq, Repr

/-- Assimp `aiColor4D`. -/
structure aiColor4D where
  r : ℚ
  g : ℚ
  b : ℚ
  a : ℚ
deriving DecidableEq

/-- The four output vectors `verts`, `norms`, `faces`, `colors` of `vMarchCube`. -/
structure MeshBuffers where
  verts : List float3
  norms : List float3
  faces : List aiFace
  colors : List aiColor4D
deriving DecidableEq

/-- The finite value of a sample (0 for the value that is not finite, which
`vMarchCube` never uses). -/
def FloatValue.toRat (a : FloatValue) : ℚ :=
  match a with
  | FloatValue.nan => 0
  | FloatValue.finite q => q

/-- The samples `vol.Get(x + off[i][0], y + off[i][1], z + off[i][2])` at the 8
corners of the cube at `(x, y, z)`. -/
def cubeValues (t : MarchingCubesTables) (vol : BoundedVolume) (x y z : Int) :
    Nat → FloatValue :=
  fun iVertex => vol.Get ((x : ℚ) + (t.a2fVertexOffset iVertex).x)
    ((y : ℚ) + (t.a2fVertexOffset iVertex).y) ((z : ℚ) + (t.a2fVertexOffset iVertex).z)

/-- The mask `iFlagIndex`: bit `i` is or-ed in when corner `i` is `≤` the target
value. -/
def cubeFlagIndex (afCubeValue : Nat → ℚ) (fTargetValue : ℚ) : Nat :=
  forLoop 8 (fun iVertexTest iFlagIndex =>
    if afCubeValue iVertexTest ≤ fTargetValue then iFlagIndex ||| (1 <<< iVertexTest)
    else iFlagIndex) 0

/-- The intersection point `asEdgeVertex[iEdge]` of a crossed edge. -/
def edgeVertex (t : MarchingCubesTables) (vol : BoundedVolume) (x y z : Int)
    (afCubeValue : Nat → ℚ) (fTargetValue : ℚ) (iEdge : Nat) : float3 :=
  let c0 := (t.a2iEdgeConnection iEdge).1
  let c1 := (t.a2iEdgeConnection iEdge).2
  let fOffset := fGetOffset (afCubeValue c0) (afCubeValue c1) fTargetValue
  let p := vol.VoxelPositionInUnits x y z
  let fScale := vol.VoxelSizeUnits
  ⟨p.x + ((t.a2fVertexOffset c0).x + fOffset * (t.a2fEdgeDirection iEdge).x) * fScale.x,
   p.y + ((t.a2fVertexOffset c0).y + fOffset * (t.a2fEdgeDirection iEdge).y) * fScale.y,
   p.z + ((t.a2fVertexOffset c0).z + fOffset * (t.a2fEdgeDirection iEdge).z) * fScale.z⟩

/-- The normal `asEdgeNorm[iEdge]` at an intersection point: the gradient divided
by its length, replaced by `(0,0,0)` when a channel is not finite. The length
(a square root) is the parameter `length`. -/
def edgeNormal (length : float3 → FloatValue) (vol : BoundedVolume) (pos : float3) :
    float3 :=
  match vol.GetUnitsBackwardDiffDxDyDz pos with
  | ⟨FloatValue.finite dx, FloatValue.finite dy, FloatValue.finite dz⟩ =>
    match length ⟨dx, dy, dz⟩ with
    | FloatValue.finite l => if l = 0 then ⟨0, 0, 0⟩ else ⟨dx / l, dy / l, dz / l⟩
    | FloatValue.nan => ⟨0, 0, 0⟩
  | _ => ⟨0, 0, 0⟩

/-- The array `asEdgeVertex`: filled for the edges whose bit is set in
`iEdgeFlags`; the other entries are not initialised by the source (here zero). -/
def asEdgeVertex (t : MarchingCubesTables) (vol : BoundedVolume) (x y z : Int)
    (afCubeValue : Nat → ℚ) (fTargetValue : ℚ) (iEdgeFlags : Nat) : Nat → float3 :=
  fun iEdge =>
    if iEdgeFlags &&& (1 <<< iEdge) ≠ 0 then
      edgeVertex t vol x y z afCubeValue fTargetValue iEdge
    else ⟨0, 0, 0⟩

/-- The array `asEdgeNorm`: filled, like `asEdgeVertex`, for the edges whose bit
is set in `iEdgeFlags`, with the normal at the intersection point. -/
def asEdgeNorm (t : MarchingCubesTables) (length : float3 → FloatValue)
    (vol : BoundedVolume) (x y z : Int) (afCubeValue : Nat → ℚ) (fTargetValue : ℚ)
    (iEdgeFlags : Nat) : Nat → float3 :=
  fun iEdge =>
    if iEdgeFlags &&& (1 <<< iEdge) ≠ 0 then
      edgeNormal length vol (edgeVertex t vol x y z afCubeValue fTargetValue iEdge)
    else ⟨0, 0, 0⟩

/-- One corner of a triangle: the index `verts.size()` goes into the face, the
position and the normal are pushed, and so is a colour, sampled at the position,
when the colour volume is valid. -/
def emitCorner (volColor : ColorVolume) (vert norm : float3) (fb : aiFace × MeshBuffers) :
    aiFace × MeshBuffers :=
  let face : aiFace := ⟨fb.1.mIndices ++ [fb.2.verts.length]⟩
  let c := volColor.GetUnitsTrilinearClamped vert
  let colors := if volColor.IsValid = true then fb.2.colors ++ [⟨c.x, c.y, c.z, 1⟩]
    else fb.2.colors
  (face, ⟨fb.2.verts ++ [vert], fb.2.norms ++ [norm], fb.2.faces, colors⟩)

/-- One triangle of the loop over `iTriangle`: its three corners, then the face. -/
def emitTriangle (t : MarchingCubesTables) (volColor : ColorVolume)
    (edgeVerts edgeNorms : Nat → float3) (iFlagIndex iTriangle : Nat) (buf : MeshBuffers) :
    MeshBuffers :=
  let fb := forLoop 3 (fun iCorner fb =>
    let iVertex := t.a2iTriangleConnectionTable iFlagIndex (3 * iTriangle + iCorner)
    emitCorner volColor (edgeVerts iVertex.toNat) (edgeNorms iVertex.toNat) fb) (⟨[]⟩, buf)
  ⟨fb.2.verts, fb.2.norms, fb.2.faces ++ [fb.1], fb.2.colors⟩

/-- The loop `for (iTriangle = 0; iTriangle < 5; iTriangle++)` from `iTriangle`
on, with `n` iterations left; it breaks at the first row entry
`a2iTriangleConnectionTable[iFlagIndex][3*iTriangle]` that is negative. -/
def emitTriangles (t : MarchingCubesTables) (volColor : ColorVolume)
    (edgeVerts edgeNorms : Nat → float3) (iFlagIndex : Nat) :
    Nat → Nat → MeshBuffers → MeshBuffers
  | 0, _, buf => buf
  | n + 1, iTriangle, buf =>
    if t.a2iTriangleConnectionTable iFlagIndex (3 * iTriangle) < 0 then buf
    else emitTriangles t volColor edgeVerts edgeNorms iFlagIndex n (iTriangle + 1)
      (emitTriangle t volColor edgeVerts edgeNorms iFlagIndex iTriangle buf)

/-- Source `vMarchCube`: nothing is emitted when a corner sample is not finite or
when the edge mask of the cube is zero; otherwise the triangles of the row of the
mask are appended to the buffers. -/
def vMarchCube (t : MarchingCubesTables) (length : float3 → FloatValue)
    (vol : BoundedVolume) (volColor : ColorVolume) (x y z : Int) (buf : MeshBuffers)
    (fTargetValue : ℚ) : MeshBuffers :=
  let vals := cubeValues t vol x y z
  if (List.range 8).any (fun iVertex => decide (vals iVertex = FloatValue.nan)) = true then buf
  else
    let afCubeValue : Nat → ℚ := fun i => (vals i).toRat
    let iFlagIndex := cubeFlagIndex afCubeValue fTargetValue
    let iEdgeFlags := t.aiCubeEdgeFlags iFlagIndex
    if iEdgeFlags = 0 then buf
    else
      emitTriangles t volColor
        (asEdgeVertex t vol x y z afCubeValue fTargetValue iEdgeFlags)
        (asEdgeNorm t length vol x y z afCubeValue fTargetValue iEdgeFlags) iFlagIndex 5 0 buf

/-! ### Sample data for the surface extraction -/

/-- Tables in the layout of the marching cubes example program the source header
names: corner offsets, edge connections and edge directions of the unit cube, the
edge mask of every corner mask (an edge is crossed when its two corners lie on
different sides), and the rows of the triangle table for the masks with a single
corner inside or a single corner outside (the triangle of the three edges at that
corner); the rows of the other masks are left empty here. -/
def sampleTables : MarchingCubesTables :=
  { a2fVertexOffset := fun i =>
      match i with
      | 0 => ⟨0, 0, 0⟩ | 1 => ⟨1, 0, 0⟩ | 2 => ⟨1, 1, 0⟩ | 3 => ⟨0, 1, 0⟩
      | 4 => ⟨0, 0, 1⟩ | 5 => ⟨1, 0, 1⟩ | 6 => ⟨1, 1, 1⟩ | _ => ⟨0, 1, 1⟩,
    a2iEdgeConnection := fun e =>
      match e with
      | 0 => (0, 1) | 1 => (1, 2) | 2 => (2, 3) | 3 => (3, 0)
      | 4 => (4, 5) | 5 => (5, 6) | 6 => (6, 7) | 7 => (7, 4)
      | 8 => (0, 4) | 9 => (1, 5) | 10 => (2, 6) | _ => (3, 7),
    a2fEdgeDirection := fun e =>
      match e with
      | 0 => ⟨1, 0, 0⟩ | 1 => ⟨0, 1, 0⟩ | 2 => ⟨-1, 0, 0⟩ | 3 => ⟨0, -1, 0⟩
      | 4 => ⟨1, 0, 0⟩ | 5 => ⟨0, 1, 0⟩ | 6 => ⟨-1, 0, 0⟩ | 7 => ⟨0, -1, 0⟩
      | _ => ⟨0, 0, 1⟩,
    aiCubeEdgeFlags := fun m =>
      let conn : Nat → Nat × Nat := fun e =>
        match e with
        | 0 => (0, 1) | 1 => (1, 2) | 2 => (2, 3) | 3 => (3, 0)
        | 4 => (4, 5) | 5 => (5, 6) | 6 => (6, 7) | 7 => (7, 4)
        | 8 => (0, 4) | 9 => (1, 5) | 10 => (2, 6) | _ => (3, 7)
      forLoop 12 (fun e f =>
        if m.testBit (conn e).1 ≠ m.testBit (conn e).2 then f ||| (1 <<< e) else f) 0,
    a2iTriangleConnectionTable := fun m k =>
      let row : List Int :=
        match m with
        | 1 => [0, 8, 3] | 2 => [0, 1, 9] | 4 => [1, 2, 10] | 8 => [3, 11, 2]
        | 16 => [4, 7, 8] | 32 => [9, 5, 4] | 64 => [10, 6, 5] | 128 => [7, 6, 11]
        | 254 => [0, 3, 8] | 253 => [0, 9, 1] | 251 => [1, 10, 2] | 247 => [2, 3, 11]
        | 239 => [4, 8, 7] | 223 => [9, 4, 5] | 191 => [10, 5, 6] | 127 => [7, 11, 6]
        | _ => []
      row.getD k (-1) }

/-- A volume whose sample at `(x, y, z)` is `x + y + z - 1/2`, with unit voxels
placed at their integer coordinates and the constant gradient `(1, 1, 1)`. -/
def sampleField : BoundedVolume :=
  { Get := fun x y z => FloatValue.finite (x + y + z - 1 / 2),
    VoxelPositionInUnits := fun x y z => ⟨x, y, z⟩,
    VoxelSizeUnits := ⟨1, 1, 1⟩,
    GetUnitsBackwardDiffDxDyDz := fun _ =>
      ⟨FloatValue.finite 1, FloatValue.finite 1, FloatValue.finite 1⟩ }

/-- A colour volume that is not valid. -/
def noColor : ColorVolume :=
  { IsValid := false, GetUnitsTrilinearClamped := fun _ => ⟨0, 0, 0⟩ }

/-- A stand-in for the length of a vector that reports a value that is not
finite, so that every normal is replaced by `(0, 0, 0)`. -/
def noLength : float3 → FloatValue := fun _ => FloatValue.nan

/-- Empty output buffers. -/
def emptyBuffers : MeshBuffers := ⟨[], [], [], []⟩

/-! ## Multi-cell driver (`kangaroo/GridSDF/MarchingCubesGrid.cpp`) -/

/-- `std::string::substr(pos, len)` on a string given as its list of characters
(`pos` within the string). -/
def substr (s : List Char) (pos len : Nat) : List Char := (s.drop pos).take len

/-- The loop of `GetIndexFromFileName` that collects in `vIndex` the positions
`i` with `sTempStr.substr(i, 1) == "#"`, from position `i` on. -/
def hashPositionsFrom (i : Nat) : List Char → List Nat
  | [] => []
  | c :: cs =>
    if c = '#' then i :: hashPositionsFrom (i + 1) cs else hashPositionsFrom (i + 1) cs

/-- C `isspace` in the default locale: blank, tab, line feed, vertical tab, form
feed, carriage return. -/
def isspace (c : Char) : Bool := c.toNat = 32 || (9 ≤ c.toNat && c.toNat ≤ 13)

/-- The value `std::stoi` accumulates over a run of digit characters, from the
value `a` read so far. -/
def digitsValue (a : Nat) (ds : List Char) : Nat :=
  ds.foldl (fun a c => 10 * a + (c.toNat - 48)) a

/-- `std::stoi(str)` (base 10): leading white space is skipped, an optional sign
is read, then the longest run of decimal digits; `none` stands for the exception
it throws, `std::invalid_argument` when there is no digit and `std::out_of_range`
when the value is not an `int`. Characters after the digits are ignored. -/
def stoi (str : List Char) : Option Int :=
  let s1 := str.dropWhile isspace
  let neg : Bool := decide (s1.head? = some '-')
  let s2 : List Char :=
    match s1 with
    | c :: r => if c = '-' ∨ c = '+' then r else s1
    | [] => []
  let ds := s2.takeWhile Char.isDigit
  if ds = [] then none
  else
    let n : Nat := digitsValue 0 ds
    let val : Int := if neg = true then -(n : Int) else (n : Int)
    if val < -2147483648 ∨ 2147483647 < val then none else some val

/-- The decimal digits of a natural number, most significant first: the digit of
`n % 10` is put in front of `ds` and the loop goes on with `n / 10` until that is
zero (`fuel` bounds the number of rounds). -/
def decimalDigitsLoop : Nat → Nat → List Char → List Char
  | 0, _, ds => ds
  | fuel + 1, n, ds =>
    if n / 10 = 0 then Nat.digitChar (n % 10) :: ds
    else decimalDigitsLoop fuel (n / 10) (Nat.digitChar (n % 10) :: ds)

/-- The decimal form of a natural number. -/
def decimalDigits (n : Nat) : List Char := decimalDigitsLoop (n + 1) n []

/-- `std::to_string(int)`: the decimal digits, after a minus sign for a negative
number. -/
def to_string (i : Int) : List Char :=
  if i < 0 then '-' :: decimalDigits i.natAbs else decimalDigits i.toNat

/-- What a call of `GetIndexFromFileName` ends in: an exception of `std::stoi`
that leaves the function, the return value `false`, or the return value `true`
with the two indices written. -/
inductive ParseOutcome where
  | threw
  | returnedFalse
  | returnedTrue (GlobalIndex LocalIndex : int3)
deriving DecidableEq

/-- The six fields `GetIndexFromFileName` cuts out of a name with six `#`: field
`k` runs from behind the `k`-th `#` to the next one, the last to the end. -/
def nameField (sFileName : List Char) (vIndex : List Nat) (k : Nat) : List Char :=
  if k < 5 then
    substr sFileName (vIndex.getD k 0 + 1) (vIndex.getD (k + 1) 0 - vIndex.getD k 0 - 1)
  else
    substr sFileName (vIndex.getD 5 0 + 1) (sFileName.length - vIndex.getD 5 0 - 1)

/-- The six `std::stoi` conversions of `GetIndexFromFileName`, in order; `none`
when one of them throws. -/
def convertFields (sFileName : List Char) (vIndex : List Nat) : Option (int3 × int3) := do
  let gx ← stoi (nameField sFileName vIndex 0)
  let gy ← stoi (nameField sFileName vIndex 1)
  let gz ← stoi (nameField sFileName vIndex 2)
  let lx ← stoi (nameField sFileName vIndex 3)
  let ly ← stoi (nameField sFileName vIndex 4)
  let lz ← stoi (nameField sFileName vIndex 5)
  pure (⟨gx, gy, gz⟩, ⟨lx, ly, lz⟩)

/-- Source `GetIndexFromFileName`: `false` when the name does not hold exactly six
`#`; otherwise the six fields are converted by `std::stoi` and `true` is
returned. -/
def GetIndexFromFileName (sFileName : List Char) : ParseOutcome :=
  let vIndex := hashPositionsFrom 0 sFileName
  if vIndex.length ≠ 6 then ParseOutcome.returnedFalse
  else
    match convertFields sFileName vIndex with
    | some (g, l) => ParseOutcome.returnedTrue g l
    | none => ParseOutcome.threw

/-- The file-naming convention: a prefix, then `#` and the decimal form of each of
the six numbers `globalX, globalY, globalZ, localX, localY, localZ`, written the
way the source writes the bounding-box names (`std::to_string` and `"#"`). -/
def cellFileName (pre : List Char) (g l : int3) : List Char :=
  pre ++ '#' :: (to_string g.x ++ '#' :: (to_string g.y ++ '#' :: (to_string g.z ++
    '#' :: (to_string l.x ++ '#' :: (to_string l.y ++ '#' :: to_string l.z)))))

/-- A value of type `int`. -/
def IsInt32 (i : Int) : Prop := -2147483648 ≤ i ∧ i ≤ 2147483647

instance (i : Int) : Decidable (IsInt32 i) := by
  unfold IsInt32; infer_instance

/-- The number of `#` characters of a name. -/
def hashCount (sFileName : List Char) : Nat := sFileName.count '#'

/-- Modelled from the spec: `SingleVolume` (`kangaroo/GridSDF/MarchingCubesGrid.h`,
not part of the sources at hand), one window group of the driver: the global
index of the window, and in parallel the local indices and the file names of its
cells. -/
structure SingleVolume where
  GlobalIndex : int3
  vLocalIndex : List int3
  vFileName : List (List Char)
deriving DecidableEq

/-- The test of the inner loop of `GetFilesNeedSaving`: the three components of
the group's global index equal those of the file. -/
def sameGlobalIndex (sv : SingleVolume) (GlobalIndex : int3) : Bool :=
  decide (sv.GlobalIndex.x = GlobalIndex.x ∧ sv.GlobalIndex.y = GlobalIndex.y ∧
    sv.GlobalIndex.z = GlobalIndex.z)

/-- The body of the outer loop of `GetFilesNeedSaving` for a file that parsed:
every group with the file's global index gets the local index and the name pushed
back (the inner loop does not stop at the first one), and when there was none
(`bFlag == false`) a new group is pushed back. -/
def addFile (vVolumes : List SingleVolume) (sFileName : List Char)
    (GlobalIndex LocalIndex : int3) : List SingleVolume :=
  let updated := vVolumes.map (fun sv =>
    if sameGlobalIndex sv GlobalIndex = true then
      (⟨sv.GlobalIndex, sv.vLocalIndex ++ [LocalIndex], sv.vFileName ++ [sFileName]⟩ :
        SingleVolume)
    else sv)
  let bFlag := vVolumes.any (fun sv => sameGlobalIndex sv GlobalIndex)
  if bFlag = false then updated ++ [⟨GlobalIndex, [LocalIndex], [sFileName]⟩] else updated

/-- The outer loop of `GetFilesNeedSaving` over the remaining names; `none` when
the program ends before the function returns: by `exit(-1)` after a name for which
`GetIndexFromFileName` returned `false`, or by the exception `std::stoi` threw,
which nothing catches. -/
def filesLoop : List (List Char) → List SingleVolume → Option (List SingleVolume)
  | [], vVolumes => some vVolumes
  | sFileName :: rest, vVolumes =>
    match GetIndexFromFileName sFileName with
    | ParseOutcome.returnedTrue GlobalIndex LocalIndex =>
      filesLoop rest (addFile vVolumes sFileName GlobalIndex LocalIndex)
    | _ => none

/-- Source `GetFilesNeedSaving`. -/
def GetFilesNeedSaving (vfilename : List (List Char)) : Option (List SingleVolume) :=
  filesLoop vfilename []

/-- The global index `GetIndexFromFileName` writes for a name it returns `true`
for (zero for the other names). -/
def parsedGlobal (sFileName : List Char) : int3 :=
  match GetIndexFromFileName sFileName with
  | ParseOutcome.returnedTrue g _ => g
  | _ => ⟨0, 0, 0⟩

/-- The local index `GetIndexFromFileName` writes for a name it returns `true`
for (zero for the other names). -/
def parsedLocal (sFileName : List Char) : int3 :=
  match GetIndexFromFileName sFileName with
  | ParseOutcome.returnedTrue _ l => l
  | _ => ⟨0, 0, 0⟩

/-- A name `GetIndexFromFileName` returns `true` for. -/
def Parses (sFileName : List Char) : Prop :=
  GetIndexFromFileName sFileName =
    ParseOutcome.returnedTrue (parsedGlobal sFileName) (parsedLocal sFileName)

instance (sFileName : List Char) : Decidable (Parses sFileName) := by
  unfold Parses; infer_instance

/-- The groups `vs` partition the names `names` by global index: the groups
stand in the order in which their global index first occurs among the names
(hence the indices are pairwise distinct), every group's index occurs and every
name's index has a group, the file names of a group are the names with the
group's index, in input order, and the local indices of a group are the parsed
local indices of its file names, one by one. -/
structure GroupedBy (names : List (List Char)) (vs : List SingleVolume) : Prop where
  order : List.Pairwise (fun a b => a < b)
    (vs.map (fun sv => List.indexOf sv.GlobalIndex (names.map parsedGlobal)))
  present : ∀ sv ∈ vs, sv.GlobalIndex ∈ names.map parsedGlobal
  covers : ∀ n ∈ names, ∃ sv ∈ vs, sv.GlobalIndex = parsedGlobal n
  files : ∀ sv ∈ vs,
    sv.vFileName = names.filter (fun n => decide (parsedGlobal n = sv.GlobalIndex))
  locals : ∀ sv ∈ vs, sv.vLocalIndex = sv.vFileName.map parsedLocal

/-- Modelled from the spec: the collaborators of the multi-cell driver, which
are not part of the sources at hand (`SavePPMGrid.h`, `MarchingCubesGrid.h`,
`cu_sdf_reset`): whether a bounding-box file exists, the bounding box it holds,
the load of one cell file into a cell (`none` when `LoadPXMSingleGrid` returns
`false`), the surface extractor run on one logical cell of the volume, the reset
of the samples, and the mesh writer. -/
structure DriverEnv (T : Type) where
  CheckIfBBfileExist : List Char → Bool
  LoadPXMBoundingBox : List Char → BoundingBox
  LoadPXMSingleGrid : List Char → VolumeGrid T → Option (VolumeGrid T)
  GenMeshSingleGrid : BoundedVolumeGrid T → BoundedVolumeGrid ℚ → int3 → MeshBuffers →
    MeshBuffers
  SdfReset : BoundedVolumeGrid T → BoundedVolumeGrid T
  SaveMeshGridToFile : List Char → MeshBuffers → Bool

/-- The variables of `SaveMeshFromPXMs` that its loops update: the host volume,
the colour volume, the running mesh `ObjMesh` and the counter
`nTotalSaveGridNum`. -/
structure DriverState (T : Type) where
  hvol : BoundedVolumeGrid T
  hvolcolor : BoundedVolumeGrid ℚ
  ObjMesh : MeshBuffers
  nTotalSaveGridNum : Nat

/-- What `SaveMeshFromPXMs` returns, with the final value of the counter it
prints (`Finish marching cube for … Grids`) and the mesh it hands to the writer. -/
structure DriverResult where
  returned : Bool
  nTotalSaveGridNum : Nat
  ObjMesh : MeshBuffers

/-- The name of the bounding-box file of a window: `sDirName + sBBFileHead +
to_string(G.x) + "#" + to_string(G.y) + "#" + to_string(G.z)`. -/
def bbFileName (sDirName sBBFileHead : List Char) (G : int3) : List Char :=
  sDirName ++ sBBFileHead ++ to_string G.x ++ ['#'] ++ to_string G.y ++ ['#'] ++
    to_string G.z

/-- Body of the inner loop of `SaveMeshFromPXMs` for cell `j` of a group: the
cell file is loaded into the slot `x + Nx * (y + Ny * z)` of its local index and
the surface extractor is run on that logical cell; a failed load ends the
program. -/
def meshCell (env : DriverEnv T) (sDirName : List Char) (sv : SingleVolume) (j : Nat)
    (s : DriverState T) : Option (DriverState T) :=
  let CurLocalIndex := sv.vLocalIndex.getD j ⟨0, 0, 0⟩
  let nRealIndex := toUnsigned (CurLocalIndex.x + (s.hvol.m_nGridNum_w : Int) *
    (CurLocalIndex.y + (s.hvol.m_nGridNum_h : Int) * CurLocalIndex.z))
  let sPXMFile := sDirName ++ sv.vFileName.getD j []
  match env.LoadPXMSingleGrid sPXMFile (s.hvol.m_GridVolumes nRealIndex) with
  | some g =>
    let pool := setSlot s.hvol.m_GridVolumes nRealIndex g
    let hvol : BoundedVolumeGrid T := { s.hvol with m_GridVolumes := pool }
    some ⟨hvol, s.hvolcolor, env.GenMeshSingleGrid hvol s.hvolcolor CurLocalIndex s.ObjMesh,
      s.nTotalSaveGridNum + 1⟩
  | none => none

/-- Body of the outer loop of `SaveMeshFromPXMs` for group `i`: the bounding box
of the window is loaded (a missing file ends the program), the cells of the group
are loaded and meshed, then the volume is reset. -/
def meshWindow (env : DriverEnv T) (sDirName sBBFileHead : List Char)
    (vVolumes : List SingleVolume) (i : Nat) (s : DriverState T) : Option (DriverState T) :=
  let sv := vVolumes.getD i ⟨⟨0, 0, 0⟩, [], []⟩
  let sBBFile := bbFileName sDirName sBBFileHead sv.GlobalIndex
  if env.CheckIfBBfileExist sBBFile = true then
    let bbox := env.LoadPXMBoundingBox sBBFile
    let hvol : BoundedVolumeGrid T := { s.hvol with m_bbox := bbox }
    let hvolcolor : BoundedVolumeGrid ℚ := { s.hvolcolor with m_bbox := bbox }
    match forLoopM sv.vLocalIndex.length (meshCell env sDirName sv)
        ⟨hvol, hvolcolor, s.ObjMesh, s.nTotalSaveGridNum⟩ with
    | some s1 =>
      some ⟨(env.SdfReset s1.hvol).ResetAllGridVol, s1.hvolcolor, s1.ObjMesh,
        s1.nTotalSaveGridNum⟩
    | none => none
  else none

/-- Source `SaveMeshFromPXMs`; `hvol0` and `hvolcolor0` are the two volume objects
before their `Init`, `BBox` the default bounding box. The function returns `false`
when no group was found; the loop over the groups is
`for (unsigned int i = 0; i != 1; i++)`. The pass `GetMaxMinGlobalIndex`, which
only prints, is left out. `none` when the program ends before the function
returns. -/
def SaveMeshFromPXMs (env : DriverEnv T) (hvol0 : BoundedVolumeGrid T)
    (hvolcolor0 : BoundedVolumeGrid ℚ) (BBox : BoundingBox)
    (sDirName sBBFileHead : List Char) (nVolRes : int3) (nGridRes : Int)
    (vfilename : List (List Char)) (sMeshFileName : List Char) : Option DriverResult :=
  match GetFilesNeedSaving vfilename with
  | none => none
  | some vVolumes =>
    if vVolumes.length ≤ 0 then some ⟨false, 0, ⟨[], [], [], []⟩⟩
    else
      match hvol0.Init (toUnsigned nVolRes.x) (toUnsigned nVolRes.y) (toUnsigned nVolRes.z)
          (toUnsigned nGridRes) BBox with
      | none => none
      | some hvol =>
        match hvolcolor0.Init 1 1 1 (toUnsigned nGridRes) BBox with
        | none => none
        | some hvolcolor =>
          match forLoopM 1 (meshWindow env sDirName sBBFileHead vVolumes)
              ⟨hvol, hvolcolor, ⟨[], [], [], []⟩, 0⟩ with
          | none => none
          | some s =>
            some ⟨env.SaveMeshGridToFile sMeshFileName s.ObjMesh, s.nTotalSaveGridNum,
              s.ObjMesh⟩

/-- Collaborators for which every bounding-box file exists and every load
succeeds (the cell is left as it is), with an extractor that emits nothing. -/
def sampleEnv : DriverEnv Int :=
  { CheckIfBBfileExist := fun _ => true,
    LoadPXMBoundingBox := fun _ => BoundedVolumeGrid.unitBox,
    LoadPXMSingleGrid := fun _ g => some g,
    GenMeshSingleGrid := fun _ _ _ m => m,
    SdfReset := fun v => v,
    SaveMeshGridToFile := fun _ _ => true }

/-- A colour volume object before its `Init`. -/
def sampleColorVolume : BoundedVolumeGrid ℚ :=
  { m_w := 0, m_h := 0, m_d := 0,
    m_local_shift := ⟨0, 0, 0⟩, m_global_shift := ⟨0, 0, 0⟩,
    m_bbox := BoundedVolumeGrid.unitBox,
    m_nVolumeGridRes := 0,
    m_nGridNum_w := 0, m_nGridNum_h := 0, m_nGridNum_d := 0,
    m_nTotalGridRes := 0,
    m_NextInitBasicSDFs := fun _ => 0,
    m_GridVolumes := fun _ => ⟨0, 0, 0, MemState.unacquired, fun _ _ _ => 0⟩ }


/-! ## Mesh assembly and runs of `vMarchCube` -/

/-- Assimp `aiMesh`, by the members `MeshFromLists` writes. A pointer member is
`none` when it is null; `mColors` is its first colour set, `mColors[0]`. -/
structure aiMesh where
  mPrimitiveTypes : Nat
  mNumVertices : Nat
  mVertices : Option (List float3)
  mNormals : Option (List float3)
  mNumFaces : Nat
  mFaces : Option (List aiFace)
  mColors : Option (List aiColor4D)
deriving DecidableEq

/-- The mesh `new aiMesh()` creates (the constructor of the Assimp library): no
primitive type, counts zero and every pointer null. -/
def aiMesh.new : aiMesh := ⟨0, 0, none, none, 0, none, none⟩

/-- Assimp `aiPrimitiveType_TRIANGLE`. -/
def aiPrimitiveType_TRIANGLE : Nat := 4

/-- The loop `for (i = 0; i < xs.size(); ++i) out[i] = xs[i]` into a new array of
`xs.size()` elements. -/
def copyArray {α : Type} (xs : List α) : List α :=
  forLoop xs.length (fun i out => match xs.get? i with
    | some a => out ++ [a]
    | none => out) []

/-- Source `MeshFromLists`. -/
def MeshFromLists (verts norms : List float3) (faces : List aiFace) (colors : List aiColor4D) :
    aiMesh :=
  let m0 : aiMesh := { aiMesh.new with mPrimitiveTypes := aiPrimitiveType_TRIANGLE }
  let m1 : aiMesh := { m0 with mNumVertices := verts.length, mVertices := some (copyArray verts) }
  let m2 : aiMesh :=
    if norms.length = verts.length then { m1 with mNormals := some (copyArray norms) }
    else { m1 with mNormals := none }
  let m3 : aiMesh := { m2 with mNumFaces := faces.length, mFaces := some (copyArray faces) }
  if colors.length = verts.length then { m3 with mColors := some (copyArray colors) }
  else m3

/-- The arguments of one `vMarchCube` call other than the buffers. -/
structure CubeCall where
  vol : BoundedVolume
  volColor : ColorVolume
  x : Int
  y : Int
  z : Int
  fTargetValue : ℚ

/-- One `vMarchCube` call on the buffers. -/
def marchCall (t : MarchingCubesTables) (length : float3 → FloatValue) (c : CubeCall)
    (buf : MeshBuffers) : MeshBuffers :=
  vMarchCube t length c.vol c.volColor c.x c.y c.z buf c.fTargetValue

/-- A sequence of `vMarchCube` calls on the same buffers, in order. -/
def marchCalls (t : MarchingCubesTables) (length : float3 → FloatValue) :
    List CubeCall → MeshBuffers → MeshBuffers
  | [], buf => buf
  | c :: cs, buf => marchCalls t length cs (marchCall t length c buf)

/-- A face read as the positions of its corners (a position of zero stands for an
index outside the vertex list). -/
def facePositions (buf : MeshBuffers) (f : aiFace) : List float3 :=
  f.mIndices.map (fun i => buf.verts.getD i ⟨0, 0, 0⟩)

/-- A face read as the normals of its corners. -/
def faceNormals (buf : MeshBuffers) (f : aiFace) : List float3 :=
  f.mIndices.map (fun i => buf.norms.getD i ⟨0, 0, 0⟩)

/-- The faces a run appended to buffers that held `n` faces, read as position
triples. -/
def emittedTriangles (n : Nat) (buf : MeshBuffers) : List (List float3) :=
  (buf.faces.drop n).map (facePositions buf)

/-- The faces a run appended to buffers that held `n` faces, read as triples of
normals. -/
def emittedNormals (n : Nat) (buf : MeshBuffers) : List (List float3) :=
  (buf.faces.drop n).map (faceNormals buf)

/-- The face whose indices are `n`, `n + 1`, `n + 2`. -/
def faceAt (n : Nat) : aiFace := ⟨[n, n + 1, n + 2]⟩

/-- A face with each index raised by `n`. -/
def aiFace.shift (n : Nat) (f : aiFace) : aiFace := ⟨f.mIndices.map (fun i => n + i)⟩

/-- The buffers `a` followed by what a call emitted into empty buffers, `b`, the
face indices of `b` raised by the number of vertices of `a`. -/
def MeshBuffers.extend (a b : MeshBuffers) : MeshBuffers :=
  ⟨a.verts ++ b.verts, a.norms ++ b.norms, a.faces ++ b.faces.map (aiFace.shift a.verts.length),
   a.colors ++ b.colors⟩

/-- The cube at `(0, 0, 0)` of the sample field with the target value 0: corner 0
alone is below the target. -/
def cubeA : CubeCall := ⟨sampleField, noColor, 0, 0, 0, 0⟩

/-- The cube at `(0, 0, 0)` of the sample field with the target value 2: corner 6
alone is above the target. -/
def cubeB : CubeCall := ⟨sampleField, noColor, 0, 0, 0, 2⟩


/-! ## The edge table as the spec describes it -/

/-- Modelled from the spec: what the spec states about the edge table of
`Kangaroo/MarchingCubesTables.h` (not part of the sources at hand): the entry of a
mask is "the set of the 12 cube edges crossed by the iso-surface", so an edge
whose bit is set in the entry of a mask joins two of the 8 corners that the mask
puts on different sides. -/
structure EdgesAsSpecified (t : MarchingCubesTables) : Prop where
  corners : ∀ e, e < 12 → (t.a2iEdgeConnection e).1 < 8 ∧ (t.a2iEdgeConnection e).2 < 8
  crossed : ∀ m e, e < 12 → t.aiCubeEdgeFlags m &&& (1 <<< e) ≠ 0 →
    m.testBit (t.a2iEdgeConnection e).1 ≠ m.testBit (t.a2iEdgeConnection e).2

open BoundedVolumeGrid

variable {T : Type}

/-! ## Arithmetic of one axis -/

/-- A number written as `r + N * k` with `0 ≤ r < N` has remainder `r`. -/
theorem emod_of_decomp {a N r : Int} (k : Int) (h : a = r + N * k) (h0 : 0 ≤ r)
    (h1 : r < N) : a % N = r := by
  subst h
  rw [Int.add_mul_emod_self_left]
  exact Int.emod_eq_of_lt h0 h1

/-- The `x` block of the addressing function is addition modulo the cell count. -/
theorem axis_block_strict (N s c : Int) (hc0 : 0 ≤ c) (hcN : c < N) (hs : |s| < N) :
    (if 0 < s ∧ s < N then (if c ≤ N - 1 - s then c + s else c - (N - s))
     else if s < 0 ∧ s > -N then (if c ≥ -s then c + s else c + N + s)
     else c) = (c + s) % N := by
  have hs1 := abs_lt.mp hs
  obtain ⟨hlo, hhi⟩ := hs1
  symm
  split_ifs with h1 h2 h3 h4
  · exact emod_of_decomp 0 (by ring) (by omega) (by omega)
  · exact emod_of_decomp 1 (by ring) (by omega) (by omega)
  · exact emod_of_decomp 0 (by ring) (by omega) (by omega)
  · exact emod_of_decomp (-1) (by ring) (by omega) (by omega)
  · have : s = 0 := by omega
    subst this
    exact emod_of_decomp 0 (by ring) (by omega) (by omega)

/-- The `y` and `z` blocks, which also admit `|s| = N`, agree with addition modulo
the cell count on every valid shift. -/
theorem axis_block_weak (N s c : Int) (hc0 : 0 ≤ c) (hcN : c < N) (hs : |s| < N) :
    (if 0 < s ∧ s ≤ N then (if c ≤ N - 1 - s then c + s else c - (N - s))
     else if s < 0 ∧ s ≥ -N then (if c ≥ -s then c + s else c + N + s)
     else c) = (c + s) % N := by
  have hs1 := abs_lt.mp hs
  obtain ⟨hlo, hhi⟩ := hs1
  symm
  split_ifs with h1 h2 h3 h4
  · exact emod_of_decomp 0 (by ring) (by omega) (by omega)
  · exact emod_of_decomp 1 (by ring) (by omega) (by omega)
  · exact emod_of_decomp 0 (by ring) (by omega) (by omega)
  · exact emod_of_decomp (-1) (by ring) (by omega) (by omega)
  · have : s = 0 := by omega
    subst this
    exact emod_of_decomp 0 (by ring) (by omega) (by omega)

/-- Bounds of a remainder by a positive cell count. -/
theorem emod_window (a N : Int) (hN : 0 < N) : 0 ≤ a % N ∧ a % N < N :=
  ⟨Int.emod_nonneg a (by omega), Int.emod_lt_of_pos a hN⟩

/-- Adding a shift modulo `N` is injective on `[0, N)`. -/
theorem shift_emod_inj (N s c c1 : Int) (hc0 : 0 ≤ c) (hcN : c < N) (hd0 : 0 ≤ c1)
    (hdN : c1 < N) (h : (c + s) % N = (c1 + s) % N) : c = c1 := by
  have h1 : (c + s - (c1 + s)) % N = 0 :=
    (Int.emod_eq_emod_iff_emod_sub_eq_zero).mp h
  have h2 : N ∣ c - c1 := by
    have : c + s - (c1 + s) = c - c1 := by ring
    rw [this] at h1
    exact Int.dvd_of_emod_eq_zero h1
  have h3 : |c - c1| < N := by
    rw [abs_lt]; constructor <;> omega
  have := Int.eq_zero_of_abs_lt_dvd h2 h3
  omega

/-- Every residue in `[0, N)` is reached by adding the shift modulo `N`. -/
theorem shift_emod_surj (N s r : Int) (hN : 0 < N) (hr0 : 0 ≤ r) (hrN : r < N) :
    (0 ≤ (r - s) % N ∧ (r - s) % N < N) ∧ ((r - s) % N + s) % N = r := by
  refine ⟨emod_window _ _ hN, ?_⟩
  rw [Int.emod_add_emod]
  exact emod_of_decomp 0 (by ring) hr0 hrN

/-! ## Row-major flattening -/

/-- The row-major index of an in-range triple is below the number of cells. -/
theorem flat_bounds (Nx Ny Nz x y z : Int) (hx0 : 0 ≤ x) (hx : x < Nx) (hy0 : 0 ≤ y)
    (hy : y < Ny) (hz0 : 0 ≤ z) (hz : z < Nz) :
    0 ≤ x + Nx * (y + Ny * z) ∧ x + Nx * (y + Ny * z) < Nx * Ny * Nz := by
  have hNx : 0 < Nx := by omega
  have hNy : 0 < Ny := by omega
  have h1 : 0 ≤ Ny * z := mul_nonneg (by omega) hz0
  have h2 : Ny * z ≤ Ny * (Nz - 1) := mul_le_mul_of_nonneg_left (by omega) (by omega)
  have h3 : 0 ≤ Nx * (y + Ny * z) := mul_nonneg (by omega) (by omega)
  have h4 : Nx * (y + Ny * z) ≤ Nx * (Ny * Nz - 1) := by
    apply mul_le_mul_of_nonneg_left _ (by omega)
    have : Ny * (Nz - 1) = Ny * Nz - Ny := by ring
    omega
  have h5 : Nx * (Ny * Nz - 1) = Nx * Ny * Nz - Nx := by ring
  constructor <;> omega

/-- Row-major flattening is injective on in-range triples. -/
theorem flat_inj (Nx Ny x y z x1 y1 z1 : Int) (hx0 : 0 ≤ x) (hx : x < Nx) (hy0 : 0 ≤ y)
    (hy : y < Ny) (hx10 : 0 ≤ x1) (hx1 : x1 < Nx) (hy10 : 0 ≤ y1) (hy1 : y1 < Ny)
    (h : x + Nx * (y + Ny * z) = x1 + Nx * (y1 + Ny * z1)) :
    x = x1 ∧ y = y1 ∧ z = z1 := by
  have hNx : 0 < Nx := by omega
  have hNy : 0 < Ny := by omega
  have ex : x = x1 := by
    have a := emod_of_decomp (y + Ny * z) (rfl : x + Nx * (y + Ny * z) = _) hx0 hx
    have b := emod_of_decomp (y1 + Ny * z1) (rfl : x1 + Nx * (y1 + Ny * z1) = _) hx10 hx1
    rw [h] at a
    omega
  subst ex
  have h2 : y + Ny * z = y1 + Ny * z1 := by
    have : Nx * (y + Ny * z) = Nx * (y1 + Ny * z1) := by omega
    exact mul_left_cancel₀ (by omega) this
  have ey : y = y1 := by
    have a := emod_of_decomp z (rfl : y + Ny * z = _) hy0 hy
    have b := emod_of_decomp z1 (rfl : y1 + Ny * z1 = _) hy10 hy1
    rw [h2] at a
    omega
  subst ey
  have h3 : Ny * z = Ny * z1 := by omega
  exact ⟨rfl, rfl, mul_left_cancel₀ (by omega) h3⟩

/-- Every index below the number of cells is the row-major index of an in-range
triple. -/
theorem flat_surj (Nx Ny Nz k : Int) (hNx : 0 < Nx) (hNy : 0 < Ny) (hk0 : 0 ≤ k)
    (hk : k < Nx * Ny * Nz) :
    ∃ x y z : Int, (0 ≤ x ∧ x < Nx) ∧ (0 ≤ y ∧ y < Ny) ∧ (0 ≤ z ∧ z < Nz) ∧
      x + Nx * (y + Ny * z) = k := by
  refine ⟨k % Nx, (k / Nx) % Ny, (k / Nx) / Ny, emod_window _ _ hNx,
    emod_window _ _ hNy, ⟨?_, ?_⟩, ?_⟩
  · exact Int.ediv_nonneg (Int.ediv_nonneg hk0 (by omega)) (by omega)
  · apply Int.ediv_lt_of_lt_mul hNy
    apply Int.ediv_lt_of_lt_mul hNx
    have : Nz * Ny * Nx = Nx * Ny * Nz := by ring
    omega
  · rw [Int.emod_add_ediv, Int.emod_add_ediv]

/-- An integer in the `unsigned int` range is not changed by the conversion. -/
theorem toUnsigned_cast (i : Int) (h0 : 0 ≤ i) (h1 : i < (UINT_RANGE : Int)) :
    ((toUnsigned i : Nat) : Int) = i := by
  unfold toUnsigned
  rw [Int.emod_eq_of_lt h0 h1]
  exact Int.toNat_of_nonneg h0

/-! ## The addressing function -/

/-- The wraparound rule holds on every axis with a valid shift. -/
theorem wrapRule_holds (N s c : Int) (hc0 : 0 ≤ c) (hcN : c < N) (hs : |s| < N) :
    WrapRule N s c := by
  obtain ⟨hlo, hhi⟩ := abs_lt.mp hs
  refine ⟨fun h1 h2 => ?_, fun h1 h2 => ?_, fun h1 h2 => ?_, fun h1 h2 => ?_, fun h1 => ?_⟩
  · exact emod_of_decomp 0 (by ring) (by omega) (by omega)
  · have e : (c + s) % N = c + s - N :=
      emod_of_decomp 1 (by ring) (by omega) (by omega)
    rw [e]
    exact ⟨rfl, by omega, by omega⟩
  · exact emod_of_decomp 0 (by ring) (by omega) (by omega)
  · have e : (c + s) % N = c + s + N :=
      emod_of_decomp (-1) (by ring) (by omega) (by omega)
    rw [e]
    exact ⟨rfl, by omega, by omega⟩
  · subst h1
    exact emod_of_decomp 0 (by ring) (by omega) (by omega)

/-- Closed form of the addressing function on the window, for a valid shift and a
cell count that fits the `unsigned int` result. -/
theorem convert_closed_form (v : BoundedVolumeGrid T)
    (hfit : v.cellCount ≤ UINT_RANGE) (hs : v.ValidShift) (x y z : Int)
    (hin : v.InWindow x y z) :
    ((v.ConvertLocalIndexToRealIndex x y z : Nat) : Int) =
      (x + v.m_local_shift.x) % v.m_nGridNum_w + v.m_nGridNum_w *
        ((y + v.m_local_shift.y) % v.m_nGridNum_h + v.m_nGridNum_h *
          ((z + v.m_local_shift.z) % v.m_nGridNum_d)) := by
  obtain ⟨⟨hx0, hx⟩, ⟨hy0, hy⟩, ⟨hz0, hz⟩⟩ := hin
  obtain ⟨sx, sy, sz⟩ := hs
  have hNx : (0 : Int) < v.m_nGridNum_w := by omega
  have hNy : (0 : Int) < v.m_nGridNum_h := by omega
  have hNz : (0 : Int) < v.m_nGridNum_d := by omega
  have wx := emod_window (x + v.m_local_shift.x) _ hNx
  have wy := emod_window (y + v.m_local_shift.y) _ hNy
  have wz := emod_window (z + v.m_local_shift.z) _ hNz
  have hb := flat_bounds _ _ _ _ _ _ wx.1 wx.2 wy.1 wy.2 wz.1 wz.2
  have hfit1 : ((v.m_nGridNum_w : Int) * v.m_nGridNum_h * v.m_nGridNum_d) ≤ (UINT_RANGE : Int) := by
    unfold cellCount at hfit
    exact_mod_cast hfit
  have key := toUnsigned_cast _ hb.1 (lt_of_lt_of_le hb.2 hfit1)
  unfold ConvertLocalIndexToRealIndex
  simp only []
  by_cases h0 : v.m_local_shift.x = 0 ∧ v.m_local_shift.y = 0 ∧ v.m_local_shift.z = 0
  · rw [if_pos h0]
    obtain ⟨e1, e2, e3⟩ := h0
    rw [e1, e2, e3] at key ⊢
    rw [← key]
    have ax : (x + 0) % (v.m_nGridNum_w : Int) = x :=
      emod_of_decomp 0 (by ring) hx0 hx
    have ay : (y + 0) % (v.m_nGridNum_h : Int) = y :=
      emod_of_decomp 0 (by ring) hy0 hy
    have az : (z + 0) % (v.m_nGridNum_d : Int) = z :=
      emod_of_decomp 0 (by ring) hz0 hz
    rw [ax, ay, az]
  · rw [if_neg h0, axis_block_strict _ _ _ hx0 hx sx, axis_block_weak _ _ _ hy0 hy sy,
      axis_block_weak _ _ _ hz0 hz sz]
    exact key

/-- C1: for cell counts `Nx, Ny, Nz ≥ 1` (whose product fits the `unsigned int`
result of the function) and a local shift with `|shift.axis| < N_axis` on every
axis, `ConvertLocalIndexToRealIndex` restricted to the logical coordinates in
`[0,Nx) × [0,Ny) × [0,Nz)` is a bijection onto `[0, Nx*Ny*Nz)`: every result is
below the total cell count, two different coordinates never give the same slot,
and every slot is hit. -/
theorem ConvertLocalIndexToRealIndex_bijection (v : BoundedVolumeGrid T)
    (hw : 1 ≤ v.m_nGridNum_w) (hh : 1 ≤ v.m_nGridNum_h) (hd : 1 ≤ v.m_nGridNum_d)
    (hfit : v.cellCount ≤ UINT_RANGE) (hs : v.ValidShift) :
    (∀ x y z : Int, v.InWindow x y z →
        v.ConvertLocalIndexToRealIndex x y z < v.cellCount) ∧
    (∀ x y z x1 y1 z1 : Int, v.InWindow x y z → v.InWindow x1 y1 z1 →
        v.ConvertLocalIndexToRealIndex x y z = v.ConvertLocalIndexToRealIndex x1 y1 z1 →
        x = x1 ∧ y = y1 ∧ z = z1) ∧
    (∀ k : Nat, k < v.cellCount →
        ∃ x y z : Int, v.InWindow x y z ∧ v.ConvertLocalIndexToRealIndex x y z = k) := by
  have hNx : (0 : Int) < v.m_nGridNum_w := by omega
  have hNy : (0 : Int) < v.m_nGridNum_h := by omega
  have hNz : (0 : Int) < v.m_nGridNum_d := by omega
  have hcc : ((v.cellCount : Nat) : Int) =
      (v.m_nGridNum_w : Int) * v.m_nGridNum_h * v.m_nGridNum_d := by
    unfold cellCount; push_cast; ring
  refine ⟨?_, ?_, ?_⟩
  · intro x y z hin
    have e := convert_closed_form v hfit hs x y z hin
    have wx := emod_window (x + v.m_local_shift.x) _ hNx
    have wy := emod_window (y + v.m_local_shift.y) _ hNy
    have wz := emod_window (z + v.m_local_shift.z) _ hNz
    have hb := flat_bounds _ _ _ _ _ _ wx.1 wx.2 wy.1 wy.2 wz.1 wz.2
    have : ((v.ConvertLocalIndexToRealIndex x y z : Nat) : Int) < (v.cellCount : Int) := by
      rw [e, hcc]; exact hb.2
    exact_mod_cast this
  · intro x y z x1 y1 z1 hin hin1 heq
    have e := convert_closed_form v hfit hs x y z hin
    have e1 := convert_closed_form v hfit hs x1 y1 z1 hin1
    rw [heq, e1] at e
    have wx := emod_window (x + v.m_local_shift.x) _ hNx
    have wy := emod_window (y + v.m_local_shift.y) _ hNy
    have wx1 := emod_window (x1 + v.m_local_shift.x) _ hNx
    have wy1 := emod_window (y1 + v.m_local_shift.y) _ hNy
    obtain ⟨a, b, c⟩ := flat_inj _ _ _ _ _ _ _ _ wx1.1 wx1.2 wy1.1 wy1.2 wx.1 wx.2
      wy.1 wy.2 e
    obtain ⟨⟨hx0, hx⟩, ⟨hy0, hy⟩, ⟨hz0, hz⟩⟩ := hin
    obtain ⟨⟨hx10, hx1⟩, ⟨hy10, hy1⟩, ⟨hz10, hz1⟩⟩ := hin1
    exact ⟨(shift_emod_inj _ _ _ _ hx10 hx1 hx0 hx a).symm,
      (shift_emod_inj _ _ _ _ hy10 hy1 hy0 hy b).symm,
      (shift_emod_inj _ _ _ _ hz10 hz1 hz0 hz c).symm⟩
  · intro k hk
    have hk1 : (k : Int) < (v.m_nGridNum_w : Int) * v.m_nGridNum_h * v.m_nGridNum_d := by
      rw [← hcc]; exact_mod_cast hk
    obtain ⟨x, y, z, hx, hy, hz, hflat⟩ :=
      flat_surj _ _ _ (k : Int) hNx hNy (by omega) hk1
    obtain ⟨wx, ex⟩ := shift_emod_surj _ v.m_local_shift.x x hNx hx.1 hx.2
    obtain ⟨wy, ey⟩ := shift_emod_surj _ v.m_local_shift.y y hNy hy.1 hy.2
    obtain ⟨wz, ez⟩ := shift_emod_surj _ v.m_local_shift.z z hNz hz.1 hz.2
    refine ⟨_, _, _, ⟨wx, wy, wz⟩, ?_⟩
    have e := convert_closed_form v hfit hs _ _ _ ⟨wx, wy, wz⟩
    rw [ex, ey, ez, hflat] at e
    exact_mod_cast e

/-- C1 on the sample volume (`2 × 3 × 2` cells, shift `(1, -2, 0)`): the
coordinate `(1, 2, 1)` gets a slot below 12. -/
theorem ConvertLocalIndexToRealIndex_bijection_witness :
    (1 ≤ sampleVolume.m_nGridNum_w ∧ 1 ≤ sampleVolume.m_nGridNum_h ∧
      1 ≤ sampleVolume.m_nGridNum_d) ∧ sampleVolume.cellCount ≤ UINT_RANGE ∧
    sampleVolume.ValidShift ∧ sampleVolume.InWindow 1 2 1 ∧
    sampleVolume.ConvertLocalIndexToRealIndex 1 2 1 < sampleVolume.cellCount :=
  ⟨by decide, by decide, by decide, by decide,
    (ConvertLocalIndexToRealIndex_bijection sampleVolume (by decide) (by decide)
      (by decide) (by decide) (by decide)).1 1 2 1 (by decide)⟩

/-- C2: for a local shift with `|s_axis| < N_axis` on every axis (positive,
negative or zero, the all-zero case included) and a logical coordinate
`(cx,cy,cz)` in range, `ConvertLocalIndexToRealIndex` returns the row-major
flatten `x' + Nx*(y' + Ny*z')` with `x' = (cx+sx) mod Nx`, `y' = (cy+sy) mod Ny`,
`z' = (cz+sz) mod Nz` (non-negative mod); with zero shift this is the plain
row-major index of `(cx,cy,cz)`, and on each axis the shifted coordinate follows
the wraparound rule (`WrapRule`). The cell count is taken to fit the
`unsigned int` result. -/
theorem ConvertLocalIndexToRealIndex_row_major (v : BoundedVolumeGrid T)
    (hfit : v.cellCount ≤ UINT_RANGE) (hs : v.ValidShift) (cx cy cz : Int)
    (hin : v.InWindow cx cy cz) :
    ((v.ConvertLocalIndexToRealIndex cx cy cz : Nat) : Int) =
      (cx + v.m_local_shift.x) % v.m_nGridNum_w + v.m_nGridNum_w *
        ((cy + v.m_local_shift.y) % v.m_nGridNum_h + v.m_nGridNum_h *
          ((cz + v.m_local_shift.z) % v.m_nGridNum_d)) ∧
    (v.m_local_shift = make_int3 0 0 0 →
      ((v.ConvertLocalIndexToRealIndex cx cy cz : Nat) : Int) =
        cx + v.m_nGridNum_w * (cy + v.m_nGridNum_h * cz)) ∧
    WrapRule v.m_nGridNum_w v.m_local_shift.x cx ∧
    WrapRule v.m_nGridNum_h v.m_local_shift.y cy ∧
    WrapRule v.m_nGridNum_d v.m_local_shift.z cz := by
  have e := convert_closed_form v hfit hs cx cy cz hin
  obtain ⟨⟨hx0, hx⟩, ⟨hy0, hy⟩, ⟨hz0, hz⟩⟩ := hin
  have rx := wrapRule_holds _ _ _ hx0 hx hs.1
  have ry := wrapRule_holds _ _ _ hy0 hy hs.2.1
  have rz := wrapRule_holds _ _ _ hz0 hz hs.2.2
  refine ⟨e, fun h0 => ?_, rx, ry, rz⟩
  have ax := rx.2.2.2.2 (by rw [h0]; rfl)
  have ay := ry.2.2.2.2 (by rw [h0]; rfl)
  have az := rz.2.2.2.2 (by rw [h0]; rfl)
  rw [e, ax, ay, az]

/-- C2 on the sample volume: with shift `(1, -2, 0)` over `2 × 3 × 2` cells the
coordinate `(1, 2, 1)` is stored in slot `0 + 2 * (0 + 3 * 1) = 6`. -/
theorem ConvertLocalIndexToRealIndex_row_major_witness :
    sampleVolume.cellCount ≤ UINT_RANGE ∧ sampleVolume.ValidShift ∧
    sampleVolume.InWindow 1 2 1 ∧
    ((sampleVolume.ConvertLocalIndexToRealIndex 1 2 1 : Nat) : Int) = 6 :=
  ⟨by decide, by decide, by decide,
    (ConvertLocalIndexToRealIndex_row_major sampleVolume (by decide) (by decide) 1 2 1
      (by decide)).1.trans (by decide)⟩

/-! ## Loops over the pool -/

/-- Closed form of `ResetAllGridVol`: the slots of the pool get zero dimensions,
nothing else changes. -/
theorem ResetAllGridVol_eq (v : BoundedVolumeGrid T) :
    v.ResetAllGridVol =
      { v with m_GridVolumes := zeroedPool v.m_GridVolumes MAX_SUPPORT_GRID_NUM } := by
  unfold ResetAllGridVol
  generalize MAX_SUPPORT_GRID_NUM = n
  induction n with
  | zero =>
    have : zeroedPool v.m_GridVolumes 0 = v.m_GridVolumes := by
      funext j; simp [zeroedPool]
    rw [this]; rfl
  | succ k ih =>
    rw [forLoop, ih]
    simp only []
    congr 1
    funext j
    unfold setSlot zeroedPool
    by_cases hj : j = k
    · subst hj; simp
    · by_cases hlt : j < k
      · have : j < k + 1 := by omega
        simp [hj, hlt, this]
      · have : ¬ j < k + 1 := by omega
        simp [hj, hlt, this]

/-- What `Init` returns when it returns. -/
theorem Init_eq_some (v v0 : BoundedVolumeGrid T) (n_w n_h n_d n_res : Nat)
    (r_bbox : BoundingBox) (h : v.Init n_w n_h n_d n_res r_bbox = some v0) :
    (n_w / n_res % UINT_RANGE) * (n_h / n_res % UINT_RANGE) * (n_d / n_res % UINT_RANGE)
        % UINT_RANGE ≤ MAX_SUPPORT_GRID_NUM ∧
    v0 = { m_w := n_w, m_h := n_h, m_d := n_d,
           m_local_shift := make_int3 0 0 0, m_global_shift := make_int3 0 0 0,
           m_bbox := r_bbox, m_nVolumeGridRes := n_res,
           m_nGridNum_w := n_w / n_res % UINT_RANGE,
           m_nGridNum_h := n_h / n_res % UINT_RANGE,
           m_nGridNum_d := n_d / n_res % UINT_RANGE,
           m_nTotalGridRes := (n_w / n_res % UINT_RANGE) * (n_h / n_res % UINT_RANGE) *
             (n_d / n_res % UINT_RANGE) % UINT_RANGE,
           m_NextInitBasicSDFs := v.m_NextInitBasicSDFs,
           m_GridVolumes := zeroedPool v.m_GridVolumes MAX_SUPPORT_GRID_NUM } := by
  unfold Init at h
  simp only [] at h
  split_ifs at h with hgt
  rw [ResetAllGridVol_eq] at h
  refine ⟨by omega, ?_⟩
  injection h with h
  rw [← h]

/-! ## Shift bookkeeping -/

/-- After the wrap the local component is smaller than the cell count. -/
theorem wrapLocalAxis_abs_lt (n l : Int) (hn : 1 ≤ n) : |wrapLocalAxis n l| < n := by
  unfold wrapLocalAxis
  rw [abs_lt]
  split_ifs <;> constructor <;> omega

/-- When the shifted local component stays within `[-n, n]`, the wrap keeps
`global * n + local`. -/
theorem wrap_keeps_position (n l g : Int) (hl : |l| ≤ n) :
    wrapGlobalAxis n l g * n + wrapLocalAxis n l = g * n + l := by
  obtain ⟨h1, h2⟩ := abs_le.mp hl
  unfold wrapGlobalAxis wrapLocalAxis
  split_ifs with a b
  · have : l = n := by omega
    subst this; ring
  · have : l = -n := by omega
    subst this; ring
  · rfl

/-- What `UpdateLocalAndGlobalShift` returns when it returns. -/
theorem UpdateLocalAndGlobalShift_eq_some (v v1 : BoundedVolumeGrid T) (d : int3)
    (h : v.UpdateLocalAndGlobalShift d = some v1) :
    v1 = { v with
      m_local_shift :=
        ⟨wrapLocalAxis v.m_nGridNum_w (v.m_local_shift.x + d.x),
         wrapLocalAxis v.m_nGridNum_h (v.m_local_shift.y + d.y),
         wrapLocalAxis v.m_nGridNum_d (v.m_local_shift.z + d.z)⟩,
      m_global_shift :=
        ⟨wrapGlobalAxis v.m_nGridNum_w (v.m_local_shift.x + d.x) v.m_global_shift.x,
         wrapGlobalAxis v.m_nGridNum_h (v.m_local_shift.y + d.y) v.m_global_shift.y,
         wrapGlobalAxis v.m_nGridNum_d (v.m_local_shift.z + d.z) v.m_global_shift.z⟩ } := by
  unfold UpdateLocalAndGlobalShift at h
  simp only [] at h
  split_ifs at h
  injection h with h
  rw [← h]
  rfl

/-- One returning call leaves a valid local shift, whatever the state before. -/
theorem update_validShift (v v1 : BoundedVolumeGrid T) (d : int3)
    (h : v.UpdateLocalAndGlobalShift d = some v1)
    (hw : 1 ≤ v.m_nGridNum_w) (hh : 1 ≤ v.m_nGridNum_h) (hd : 1 ≤ v.m_nGridNum_d) :
    v1.ValidShift ∧ v1.m_nGridNum_w = v.m_nGridNum_w ∧ v1.m_nGridNum_h = v.m_nGridNum_h ∧
      v1.m_nGridNum_d = v.m_nGridNum_d := by
  have e := UpdateLocalAndGlobalShift_eq_some v v1 d h
  subst e
  refine ⟨⟨?_, ?_, ?_⟩, rfl, rfl, rfl⟩
  · exact wrapLocalAxis_abs_lt _ _ (by exact_mod_cast hw)
  · exact wrapLocalAxis_abs_lt _ _ (by exact_mod_cast hh)
  · exact wrapLocalAxis_abs_lt _ _ (by exact_mod_cast hd)

/-- A run of returning calls from a state with a valid local shift ends in a
state with a valid local shift and the same cell counts. -/
theorem runShifts_validShift (ds : List int3) :
    ∀ (v v1 : BoundedVolumeGrid T), v.runShifts ds = some v1 →
      1 ≤ v.m_nGridNum_w → 1 ≤ v.m_nGridNum_h → 1 ≤ v.m_nGridNum_d → v.ValidShift →
      v1.ValidShift ∧ v1.m_nGridNum_w = v.m_nGridNum_w ∧
        v1.m_nGridNum_h = v.m_nGridNum_h ∧ v1.m_nGridNum_d = v.m_nGridNum_d := by
  induction ds with
  | nil =>
    intro v v1 h _ _ _ hv
    simp only [runShifts, Option.some.injEq] at h
    subst h
    exact ⟨hv, rfl, rfl, rfl⟩
  | cons d ds ih =>
    intro v v1 h hw hh hd _
    unfold runShifts at h
    cases hu : v.UpdateLocalAndGlobalShift d with
    | none => rw [hu] at h; simp at h
    | some v2 =>
      rw [hu] at h
      simp only [Option.bind] at h
      obtain ⟨hv2, ew, eh, ed⟩ := update_validShift v v2 d hu hw hh hd
      obtain ⟨r, fw, fh, fd⟩ := ih v2 v1 h (by omega) (by omega) (by omega) hv2
      exact ⟨r, by omega, by omega, by omega⟩

/-- `Init(8, 12, 8, 4, unitBox)` on the sample volume returns `freshVolume`. -/
theorem Init_sampleVolume : sampleVolume.Init 8 12 8 4 unitBox = some freshVolume := by
  unfold Init
  simp only []
  rw [if_neg (by decide), ResetAllGridVol_eq]
  have hp : zeroedPool sampleVolume.m_GridVolumes MAX_SUPPORT_GRID_NUM =
      sampleVolume.m_GridVolumes := by
    funext j
    unfold zeroedPool
    split_ifs <;> rfl
  simp only [hp]
  rfl

/-- The position `global * N + local` of every axis moves by the sum of the deltas
of a run whose steps stay within the window. -/
theorem runShifts_position (ds : List int3) :
    ∀ (v v1 : BoundedVolumeGrid T), v.runShifts ds = some v1 →
      v.stepsWithinWindow ds = true →
      (v1.m_nGridNum_w = v.m_nGridNum_w ∧ v1.m_nGridNum_h = v.m_nGridNum_h ∧
        v1.m_nGridNum_d = v.m_nGridNum_d) ∧
      v1.m_global_shift.x * v.m_nGridNum_w + v1.m_local_shift.x =
        v.m_global_shift.x * v.m_nGridNum_w + v.m_local_shift.x + (ds.map int3.x).sum ∧
      v1.m_global_shift.y * v.m_nGridNum_h + v1.m_local_shift.y =
        v.m_global_shift.y * v.m_nGridNum_h + v.m_local_shift.y + (ds.map int3.y).sum ∧
      v1.m_global_shift.z * v.m_nGridNum_d + v1.m_local_shift.z =
        v.m_global_shift.z * v.m_nGridNum_d + v.m_local_shift.z + (ds.map int3.z).sum := by
  induction ds with
  | nil =>
    intro v v1 h _
    simp only [runShifts, Option.some.injEq] at h
    subst h
    simp
  | cons d ds ih =>
    intro v v1 h hs
    unfold runShifts at h
    unfold stepsWithinWindow at hs
    cases hu : v.UpdateLocalAndGlobalShift d with
    | none => rw [hu] at h; simp at h
    | some v2 =>
      rw [hu] at h hs
      simp only [Option.bind] at h
      simp only [Bool.and_eq_true, decide_eq_true_eq] at hs
      obtain ⟨⟨⟨bx, bY⟩, bz⟩, hrest⟩ := hs
      obtain ⟨⟨ew, eh, ed⟩, px, py, pz⟩ := ih v2 v1 h hrest
      have e := UpdateLocalAndGlobalShift_eq_some v v2 d hu
      have kx := wrap_keeps_position _ _ v.m_global_shift.x bx
      have ky := wrap_keeps_position _ _ v.m_global_shift.y bY
      have kz := wrap_keeps_position _ _ v.m_global_shift.z bz
      subst e
      simp only [List.map_cons, List.sum_cons] at *
      refine ⟨⟨ew, eh, ed⟩, ?_, ?_, ?_⟩
      · rw [px, kx]; ring
      · rw [py, ky]; ring
      · rw [pz, kz]; ring

/-- C3: starting from a freshly initialised volume with `Nx, Ny, Nz ≥ 1`, for
every finite sequence of shift deltas (any signed integers), after each
`UpdateLocalAndGlobalShift` call that returns (the state reached by any run of
returning calls), `|local_shift.axis| < N_axis` holds on every axis. -/
theorem UpdateLocalAndGlobalShift_local_bound (prev v0 : BoundedVolumeGrid T)
    (n_w n_h n_d n_res : Nat) (r_bbox : BoundingBox)
    (hinit : prev.Init n_w n_h n_d n_res r_bbox = some v0)
    (hw : 1 ≤ v0.m_nGridNum_w) (hh : 1 ≤ v0.m_nGridNum_h) (hd : 1 ≤ v0.m_nGridNum_d)
    (ds : List int3) (v : BoundedVolumeGrid T) (hrun : v0.runShifts ds = some v) :
    |v.m_local_shift.x| < v.m_nGridNum_w ∧ |v.m_local_shift.y| < v.m_nGridNum_h ∧
      |v.m_local_shift.z| < v.m_nGridNum_d := by
  have hv0 : v0.ValidShift := by
    obtain ⟨_, e⟩ := Init_eq_some prev v0 n_w n_h n_d n_res r_bbox hinit
    rw [e] at hw hh hd ⊢
    simp only [ValidShift, make_int3, abs_zero]
    exact ⟨by exact_mod_cast hw, by exact_mod_cast hh, by exact_mod_cast hd⟩
  exact (runShifts_validShift ds v0 v hrun hw hh hd hv0).1

/-- C3 on the sample: after the deltas `(1,0,0)` and `(1,-5,0)` on the fresh
`2 × 3 × 2` volume the local shift is `(0,0,0)`. -/
theorem UpdateLocalAndGlobalShift_local_bound_witness :
    (sampleVolume.Init 8 12 8 4 unitBox = some freshVolume ∧
      (1 ≤ freshVolume.m_nGridNum_w ∧ 1 ≤ freshVolume.m_nGridNum_h ∧
        1 ≤ freshVolume.m_nGridNum_d) ∧
      freshVolume.runShifts [⟨1, 0, 0⟩, ⟨1, -5, 0⟩] = some shiftedVolume) ∧
    (|shiftedVolume.m_local_shift.x| < shiftedVolume.m_nGridNum_w ∧
      |shiftedVolume.m_local_shift.y| < shiftedVolume.m_nGridNum_h ∧
      |shiftedVolume.m_local_shift.z| < shiftedVolume.m_nGridNum_d) :=
  ⟨⟨Init_sampleVolume, by decide, by rfl⟩,
    UpdateLocalAndGlobalShift_local_bound sampleVolume freshVolume 8 12 8 4 unitBox
      Init_sampleVolume (by decide) (by decide) (by decide) [⟨1, 0, 0⟩, ⟨1, -5, 0⟩]
      shiftedVolume (by rfl)⟩

/-- C4, as stated, fails: on the fresh `2 × 3 × 2` volume the single delta
`(3,0,0)` leaves `global_shift.x * Nx + local_shift.x = 1 * 2 + 0 = 2`, while the
sum of the deltas applied on `x` is 3. -/
theorem shift_pair_loses_displacement :
    sampleVolume.Init 8 12 8 4 unitBox = some freshVolume ∧
    freshVolume.runShifts [⟨3, 0, 0⟩] = some steppedVolume ∧
    steppedVolume.m_global_shift.x * steppedVolume.m_nGridNum_w +
      steppedVolume.m_local_shift.x = 2 ∧
    (([⟨3, 0, 0⟩] : List int3).map int3.x).sum = 3 ∧
    steppedVolume.m_global_shift.x * steppedVolume.m_nGridNum_w +
      steppedVolume.m_local_shift.x ≠ (([⟨3, 0, 0⟩] : List int3).map int3.x).sum :=
  ⟨Init_sampleVolume, by rfl, by decide, by decide, by decide⟩

/-- C4, amended: starting from a freshly initialised volume, for every sequence of
shift deltas that never carries the local shift beyond the window
(`|local_shift + delta| ≤ N` on every axis at every call), after each
`UpdateLocalAndGlobalShift` that returns, on every axis
`global_shift.axis * N_axis + local_shift.axis` equals the sum of the deltas
applied so far on that axis. -/
theorem shift_pair_reproduces_displacement (prev v0 : BoundedVolumeGrid T)
    (n_w n_h n_d n_res : Nat) (r_bbox : BoundingBox)
    (hinit : prev.Init n_w n_h n_d n_res r_bbox = some v0)
    (ds : List int3) (hsteps : v0.stepsWithinWindow ds = true)
    (v : BoundedVolumeGrid T) (hrun : v0.runShifts ds = some v) :
    v.m_global_shift.x * v.m_nGridNum_w + v.m_local_shift.x = (ds.map int3.x).sum ∧
    v.m_global_shift.y * v.m_nGridNum_h + v.m_local_shift.y = (ds.map int3.y).sum ∧
    v.m_global_shift.z * v.m_nGridNum_d + v.m_local_shift.z = (ds.map int3.z).sum := by
  obtain ⟨⟨ew, eh, ed⟩, px, py, pz⟩ := runShifts_position ds v0 v hrun hsteps
  obtain ⟨_, e⟩ := Init_eq_some prev v0 n_w n_h n_d n_res r_bbox hinit
  have l0 : v0.m_local_shift = make_int3 0 0 0 := by rw [e]
  have g0 : v0.m_global_shift = make_int3 0 0 0 := by rw [e]
  rw [l0, g0] at px py pz
  simp only [make_int3, zero_mul, zero_add, add_zero] at px py pz
  rw [ew, eh, ed]
  exact ⟨px, py, pz⟩

/-- C4 amended, on the sample: the deltas `(1,0,0)` and `(1,-3,0)` stay within the
`2 × 3 × 2` window and leave `global = (1,-1,0)`, `local = (0,0,0)`, that is the
positions `(2, -3, 0)`, the sums of the deltas. -/
theorem shift_pair_reproduces_displacement_witness :
    (sampleVolume.Init 8 12 8 4 unitBox = some freshVolume ∧
      freshVolume.stepsWithinWindow [⟨1, 0, 0⟩, ⟨1, -3, 0⟩] = true ∧
      freshVolume.runShifts [⟨1, 0, 0⟩, ⟨1, -3, 0⟩] = some shiftedVolume) ∧
    (shiftedVolume.m_global_shift.x * shiftedVolume.m_nGridNum_w +
        shiftedVolume.m_local_shift.x = (([⟨1, 0, 0⟩, ⟨1, -3, 0⟩] : List int3).map int3.x).sum ∧
      shiftedVolume.m_global_shift.y * shiftedVolume.m_nGridNum_h +
        shiftedVolume.m_local_shift.y = (([⟨1, 0, 0⟩, ⟨1, -3, 0⟩] : List int3).map int3.y).sum ∧
      shiftedVolume.m_global_shift.z * shiftedVolume.m_nGridNum_d +
        shiftedVolume.m_local_shift.z = (([⟨1, 0, 0⟩, ⟨1, -3, 0⟩] : List int3).map int3.z).sum) :=
  ⟨⟨Init_sampleVolume, by decide, by rfl⟩,
    shift_pair_reproduces_displacement sampleVolume freshVolume 8 12 8 4 unitBox
      Init_sampleVolume [⟨1, 0, 0⟩, ⟨1, -3, 0⟩] (by decide) shiftedVolume (by rfl)⟩

/-! ## Initialisation -/

/-- C5, at the failing input `Init(65536, 65536, 1, 1, bbox)`: the cell counts are
`65536 × 65536 × 1`, so `Nx*Ny*Nz = 2^32 > MAX_SUPPORT_GRID_NUM`, but the
`unsigned int` product stored as total cell count is 0, the capacity check
passes and `Init` returns normally. -/
theorem Init_capacity_check_wraps (prev : BoundedVolumeGrid T) (r_bbox : BoundingBox) :
    (prev.Init 65536 65536 1 1 r_bbox).isSome = true ∧
    (prev.Init 65536 65536 1 1 r_bbox).map
      (fun v0 => (v0.m_nGridNum_w, v0.m_nGridNum_h, v0.m_nGridNum_d)) =
        some (65536, 65536, 1) ∧
    (prev.Init 65536 65536 1 1 r_bbox).map (fun v0 => v0.m_nTotalGridRes) = some 0 ∧
    MAX_SUPPORT_GRID_NUM < 65536 * 65536 * 1 := by
  have e : prev.Init 65536 65536 1 1 r_bbox = some
      { (ResetAllGridVol { prev with
          m_w := 65536, m_h := 65536, m_d := 1, m_bbox := r_bbox, m_nVolumeGridRes := 1,
          m_nGridNum_w := 65536, m_nGridNum_h := 65536, m_nGridNum_d := 1,
          m_nTotalGridRes := 0 }) with
        m_local_shift := make_int3 0 0 0, m_global_shift := make_int3 0 0 0 } := by
    unfold Init
    simp only []
    rw [if_neg (by decide)]
    rfl
  rw [e, ResetAllGridVol_eq]
  exact ⟨rfl, rfl, rfl, by decide⟩

/-- When the exact product of the cell counts fits an `unsigned int`, the
capacity check of `Init` is exact: it leaves the program when the product exceeds
the pool, and otherwise stores the product. -/
theorem Init_capacity_check_exact (prev : BoundedVolumeGrid T) (n_w n_h n_d n_res : Nat)
    (r_bbox : BoundingBox) (hw : n_w < UINT_RANGE) (hh : n_h < UINT_RANGE)
    (hd : n_d < UINT_RANGE)
    (hfit : (n_w / n_res) * (n_h / n_res) * (n_d / n_res) < UINT_RANGE) :
    (MAX_SUPPORT_GRID_NUM < (n_w / n_res) * (n_h / n_res) * (n_d / n_res) →
      prev.Init n_w n_h n_d n_res r_bbox = none) ∧
    (∀ v0, prev.Init n_w n_h n_d n_res r_bbox = some v0 →
      v0.m_nTotalGridRes = (n_w / n_res) * (n_h / n_res) * (n_d / n_res) ∧
      v0.m_nTotalGridRes ≤ MAX_SUPPORT_GRID_NUM) := by
  have ew : n_w / n_res % UINT_RANGE = n_w / n_res :=
    Nat.mod_eq_of_lt (lt_of_le_of_lt (Nat.div_le_self _ _) hw)
  have eh : n_h / n_res % UINT_RANGE = n_h / n_res :=
    Nat.mod_eq_of_lt (lt_of_le_of_lt (Nat.div_le_self _ _) hh)
  have ed : n_d / n_res % UINT_RANGE = n_d / n_res :=
    Nat.mod_eq_of_lt (lt_of_le_of_lt (Nat.div_le_self _ _) hd)
  constructor
  · intro hgt
    unfold Init
    simp only []
    rw [ew, eh, ed, Nat.mod_eq_of_lt hfit, if_pos hgt]
  · intro v0 h
    obtain ⟨hle, e⟩ := Init_eq_some prev v0 n_w n_h n_d n_res r_bbox h
    rw [ew, eh, ed, Nat.mod_eq_of_lt hfit] at hle
    subst e
    simp only []
    rw [ew, eh, ed, Nat.mod_eq_of_lt hfit]
    exact ⟨rfl, hle⟩

/-- A count over slots none of which is active is zero. -/
theorem count_inactive (v : BoundedVolumeGrid T) (n : Nat)
    (h : ∀ i, i < n → v.CheckIfBasicSDFActive i = false) :
    forLoop n (fun i nNum => if v.CheckIfBasicSDFActive i = true then nNum + 1 else nNum) 0
      = 0 := by
  induction n with
  | zero => rfl
  | succ k ih =>
    rw [forLoop, ih (fun i hi => h i (by omega)), h k (by omega)]
    simp

/-- C6: after every `Init` that returns normally with `R ≥ 1`, whatever the
previous state of the volume, every one of the `MAX_SUPPORT_GRID_NUM` slots has
dimensions `(0,0,0)`, no slot is active (`GetActiveGridVolNum() = 0`), and both
`local_shift` and `global_shift` are `(0,0,0)`. -/
theorem Init_resets_slots_and_shifts (prev v0 : BoundedVolumeGrid T)
    (n_w n_h n_d n_res : Nat) (r_bbox : BoundingBox)
    (hinit : prev.Init n_w n_h n_d n_res r_bbox = some v0) (hR : 1 ≤ n_res) :
    (∀ i, i < MAX_SUPPORT_GRID_NUM →
      (v0.m_GridVolumes i).w = 0 ∧ (v0.m_GridVolumes i).h = 0 ∧ (v0.m_GridVolumes i).d = 0) ∧
    (∀ i, i < MAX_SUPPORT_GRID_NUM → v0.CheckIfBasicSDFActive i = false) ∧
    v0.GetActiveGridVolNum = 0 ∧
    v0.m_local_shift = make_int3 0 0 0 ∧ v0.m_global_shift = make_int3 0 0 0 := by
  obtain ⟨hle, e⟩ := Init_eq_some prev v0 n_w n_h n_d n_res r_bbox hinit
  have hdims : ∀ i, i < MAX_SUPPORT_GRID_NUM →
      (v0.m_GridVolumes i).w = 0 ∧ (v0.m_GridVolumes i).h = 0 ∧
        (v0.m_GridVolumes i).d = 0 := by
    intro i hi
    rw [e]
    simp [zeroedPool, hi]
  have hR0 : v0.m_nVolumeGridRes = n_res := by rw [e]
  have hinact : ∀ i, i < MAX_SUPPORT_GRID_NUM → v0.CheckIfBasicSDFActive i = false := by
    intro i hi
    unfold CheckIfBasicSDFActive
    rw [(hdims i hi).1, hR0]
    have : ¬ (0 = n_res) := by omega
    simp [this]
  have htot : v0.GetTotalGridNum ≤ MAX_SUPPORT_GRID_NUM := by
    unfold GetTotalGridNum
    rw [e]
    exact hle
  refine ⟨hdims, hinact, ?_, by rw [e], by rw [e]⟩
  unfold GetActiveGridVolNum
  exact count_inactive v0 _ (fun i hi => hinact i (by omega))

/-- C6 on the sample: `Init(8, 12, 8, 4, unitBox)` called on a volume whose local
shift was `(1,-2,0)` leaves no active slot and zero shifts. -/
theorem Init_resets_slots_and_shifts_witness :
    (sampleVolume.Init 8 12 8 4 unitBox = some freshVolume ∧ 1 ≤ 4) ∧
    (freshVolume.GetActiveGridVolNum = 0 ∧
      freshVolume.m_local_shift = make_int3 0 0 0 ∧
      freshVolume.m_global_shift = make_int3 0 0 0) :=
  ⟨⟨Init_sampleVolume, by decide⟩,
    (Init_resets_slots_and_shifts sampleVolume freshVolume 8 12 8 4 unitBox
      Init_sampleVolume (by decide)).2.2⟩

/-! ## Cell lifecycle -/

/-- `CheckIfBasicSDFActive` holds exactly when the three dimensions of the slot
equal the cell resolution. -/
theorem check_true_iff (v : BoundedVolumeGrid T) (i : Nat) :
    v.CheckIfBasicSDFActive i = true ↔
      ((v.m_GridVolumes i).w = v.m_nVolumeGridRes ∧
       (v.m_GridVolumes i).h = v.m_nVolumeGridRes ∧
       (v.m_GridVolumes i).d = v.m_nVolumeGridRes) := by
  unfold CheckIfBasicSDFActive
  split_ifs with h <;> simp [h]

/-- Activity of a slot depends on the slot's dimensions and the resolution only. -/
theorem check_congr (v v1 : BoundedVolumeGrid T) (i : Nat)
    (hR : v1.m_nVolumeGridRes = v.m_nVolumeGridRes)
    (hw : (v1.m_GridVolumes i).w = (v.m_GridVolumes i).w)
    (hh : (v1.m_GridVolumes i).h = (v.m_GridVolumes i).h)
    (hd : (v1.m_GridVolumes i).d = (v.m_GridVolumes i).d) :
    v1.CheckIfBasicSDFActive i = v.CheckIfBasicSDFActive i := by
  unfold CheckIfBasicSDFActive
  rw [hR, hw, hh, hd]

/-- On an active slot `InitSingleBasicSDFWithIndex` does nothing and returns
`false`. -/
theorem initSingle_of_active (v : BoundedVolumeGrid T) (i : Nat)
    (h : v.CheckIfBasicSDFActive i = true) :
    v.InitSingleBasicSDFWithIndex i = (false, v) := by
  obtain ⟨a, _, _⟩ := (check_true_iff v i).mp h
  unfold InitSingleBasicSDFWithIndex
  rw [if_neg (fun hc => hc.1 a)]

/-- On an unallocated, inactive slot `InitSingleBasicSDFWithIndex` allocates the
cell and returns `true`. -/
theorem initSingle_of_unallocated (v : BoundedVolumeGrid T) (i : Nat)
    (hu : Unallocated (v.m_GridVolumes i)) (h : v.CheckIfBasicSDFActive i = false) :
    v.InitSingleBasicSDFWithIndex i =
      (true, { v with m_GridVolumes := (setSlot v.m_GridVolumes i
        ((v.m_GridVolumes i).InitVolume v.m_nVolumeGridRes v.m_nVolumeGridRes
          v.m_nVolumeGridRes)) }) := by
  obtain ⟨a, b, c⟩ := hu
  have hR : v.m_nVolumeGridRes ≠ 0 := by
    intro hR
    have : v.CheckIfBasicSDFActive i = true :=
      (check_true_iff v i).mpr ⟨by rw [a, hR], by rw [b, hR], by rw [c, hR]⟩
    rw [h] at this
    exact Bool.false_ne_true this
  unfold InitSingleBasicSDFWithIndex
  rw [if_pos ⟨by rw [a]; exact fun e => hR e.symm, by rw [b]; exact fun e => hR e.symm,
    by rw [c]; exact fun e => hR e.symm⟩]

/-- `InitSingleBasicSDFWithIndex` touches no member but slot `i` of the pool. -/
theorem initSingle_frame (v : BoundedVolumeGrid T) (i : Nat) :
    (v.InitSingleBasicSDFWithIndex i).2.m_nVolumeGridRes = v.m_nVolumeGridRes ∧
    (v.InitSingleBasicSDFWithIndex i).2.GetTotalGridNum = v.GetTotalGridNum ∧
    (∀ j, j ≠ i →
      (v.InitSingleBasicSDFWithIndex i).2.m_GridVolumes j = v.m_GridVolumes j) := by
  unfold InitSingleBasicSDFWithIndex
  split_ifs with h
  · refine ⟨rfl, rfl, fun j hj => ?_⟩
    simp [setSlot, hj]
  · exact ⟨rfl, rfl, fun _ _ => rfl⟩

/-- C7: for a slot index below the total cell count whose slot is either
unallocated `(0,0,0)` or active `(R,R,R)`, `InitSingleBasicSDFWithIndex` returns
`true` if and only if the slot was not active before the call, the slot is active
after the call, and every other slot is unchanged; a second call on the same
index returns `false` and changes nothing. -/
theorem InitSingleBasicSDFWithIndex_allocates_once (v : BoundedVolumeGrid T)
    (nIndex : Nat) (_hidx : nIndex < v.GetTotalGridNum)
    (htri : Unallocated (v.m_GridVolumes nIndex) ∨ v.CheckIfBasicSDFActive nIndex = true) :
    ((v.InitSingleBasicSDFWithIndex nIndex).1 = true ↔
      v.CheckIfBasicSDFActive nIndex = false) ∧
    (v.InitSingleBasicSDFWithIndex nIndex).2.CheckIfBasicSDFActive nIndex = true ∧
    (∀ j, j ≠ nIndex →
      (v.InitSingleBasicSDFWithIndex nIndex).2.m_GridVolumes j = v.m_GridVolumes j) ∧
    (v.InitSingleBasicSDFWithIndex nIndex).2.InitSingleBasicSDFWithIndex nIndex =
      (false, (v.InitSingleBasicSDFWithIndex nIndex).2) := by
  have hafter : (v.InitSingleBasicSDFWithIndex nIndex).2.CheckIfBasicSDFActive nIndex
      = true := by
    cases hact : v.CheckIfBasicSDFActive nIndex with
    | true => rw [initSingle_of_active v nIndex hact]; exact hact
    | false =>
      have hu : Unallocated (v.m_GridVolumes nIndex) := by
        rcases htri with hu | ha
        · exact hu
        · rw [hact] at ha; exact absurd ha Bool.false_ne_true
      rw [initSingle_of_unallocated v nIndex hu hact, check_true_iff]
      simp [setSlot, VolumeGrid.InitVolume]
  refine ⟨?_, hafter, (initSingle_frame v nIndex).2.2, initSingle_of_active _ _ hafter⟩
  cases hact : v.CheckIfBasicSDFActive nIndex with
  | true => rw [initSingle_of_active v nIndex hact]; simp
  | false =>
    have hu : Unallocated (v.m_GridVolumes nIndex) := by
      rcases htri with hu | ha
      · exact hu
      · rw [hact] at ha; exact absurd ha Bool.false_ne_true
    rw [initSingle_of_unallocated v nIndex hu hact]
    simp

/-- C7 on the sample: slot 0 of the fresh volume is unallocated; the first call
returns `true` and activates it, the second returns `false`. -/
theorem InitSingleBasicSDFWithIndex_allocates_once_witness :
    (0 < freshVolume.GetTotalGridNum ∧
      (Unallocated (freshVolume.m_GridVolumes 0) ∨
        freshVolume.CheckIfBasicSDFActive 0 = true)) ∧
    ((freshVolume.InitSingleBasicSDFWithIndex 0).1 = true ↔
      freshVolume.CheckIfBasicSDFActive 0 = false) ∧
    (freshVolume.InitSingleBasicSDFWithIndex 0).2.CheckIfBasicSDFActive 0 = true ∧
    ((freshVolume.InitSingleBasicSDFWithIndex 0).2.InitSingleBasicSDFWithIndex 0).1
      = false :=
  have h := InitSingleBasicSDFWithIndex_allocates_once freshVolume 0 (by decide)
    (Or.inl (by decide))
  ⟨⟨by decide, Or.inl (by decide)⟩, h.1, h.2.1, congrArg Prod.fst h.2.2.2⟩

/-- C8, at the failing input: after `Init(8,12,8,4)` and
`InitSingleBasicSDFWithIndex(0)`, `FreeMemoryByIndex(0)` returns with the storage
of slot 0 released but its dimensions still `(4,4,4)`: `CheckIfBasicSDFActive(0)`
is still true and `InitSingleBasicSDFWithIndex(0)` returns `false`, so the cell is
not allocated again. The sibling `FreeMemory` zeroes the dimensions of the same
slot. -/
theorem FreeMemoryByIndex_leaves_slot_active :
    activeVolume.CheckIfBasicSDFActive 0 = true ∧
    (activeVolume.FreeMemoryByIndex 0).isSome = true ∧
    (activeVolume.FreeMemoryByIndex 0).map
      (fun v => ((v.m_GridVolumes 0).w, (v.m_GridVolumes 0).h, (v.m_GridVolumes 0).d)) =
        some (4, 4, 4) ∧
    (activeVolume.FreeMemoryByIndex 0).map (fun v => (v.m_GridVolumes 0).ptr) =
      some MemState.released ∧
    (activeVolume.FreeMemoryByIndex 0).map (fun v => v.CheckIfBasicSDFActive 0) =
      some true ∧
    (activeVolume.FreeMemoryByIndex 0).map
      (fun v => (v.InitSingleBasicSDFWithIndex 0).1) = some false ∧
    activeVolume.FreeMemory.CheckIfBasicSDFActive 0 = false ∧
    Unallocated (activeVolume.FreeMemory.m_GridVolumes 0) := by
  refine ⟨by decide, by decide, by decide, by decide, by decide, by decide, by decide,
    by decide⟩

/-! ## Sparse copy -/

/-- What one iteration of the copy loop does when it returns. -/
theorem copyAndInitSlot_some (src s s1 : BoundedVolumeGrid T) (i : Nat)
    (h : copyAndInitSlot src i s = some s1) :
    s1.m_nVolumeGridRes = s.m_nVolumeGridRes ∧
    s1.GetTotalGridNum = s.GetTotalGridNum ∧
    (∀ j, j ≠ i → s1.m_GridVolumes j = s.m_GridVolumes j) ∧
    (src.CheckIfBasicSDFActive i = true → s1.CheckIfBasicSDFActive i = true) ∧
    (src.CheckIfBasicSDFActive i = false → s1 = s) := by
  unfold copyAndInitSlot at h
  by_cases hsrc : src.CheckIfBasicSDFActive i = true
  · rw [if_pos hsrc] at h
    have hsf : ¬ (src.CheckIfBasicSDFActive i = false) := by rw [hsrc]; simp
    by_cases hdst : s.CheckIfBasicSDFActive i = false
    · rw [if_pos hdst] at h
      simp only [] at h
      split_ifs at h with h1 h2
      injection h with h
      obtain ⟨fR, fT, fG⟩ := initSingle_frame s i
      have hact : (s.InitSingleBasicSDFWithIndex i).2.CheckIfBasicSDFActive i = true := by
        cases hc : (s.InitSingleBasicSDFWithIndex i).2.CheckIfBasicSDFActive i with
        | true => rfl
        | false => exact absurd hc h2
      obtain ⟨a, b, c⟩ := (check_true_iff _ i).mp hact
      subst h
      refine ⟨fR, fT, fun j hj => ?_, fun _ => ?_, fun hc => absurd hc hsf⟩
      · simp only [setSlot, if_neg hj]
        exact fG j hj
      · rw [check_true_iff]
        simp only [setSlot, if_pos, VolumeGrid.CopyFrom]
        exact ⟨a, b, c⟩
    · rw [if_neg hdst] at h
      simp only [] at h
      injection h with h
      have hact : s.CheckIfBasicSDFActive i = true := by
        cases hc : s.CheckIfBasicSDFActive i with
        | true => rfl
        | false => exact absurd hc hdst
      obtain ⟨a, b, c⟩ := (check_true_iff _ i).mp hact
      subst h
      refine ⟨rfl, rfl, fun j hj => ?_, fun _ => ?_, fun hc => absurd hc hsf⟩
      · simp only [setSlot, if_neg hj]
      · rw [check_true_iff]
        simp only [setSlot, if_pos, VolumeGrid.CopyFrom]
        exact ⟨a, b, c⟩
  · rw [if_neg hsrc] at h
    injection h with h
    subst h
    exact ⟨rfl, rfl, fun _ _ => rfl, fun hc => absurd hc hsrc, fun _ => rfl⟩

/-- One iteration of the copy loop returns on a slot that is unallocated or
active. -/
theorem copyAndInitSlot_returns (src s : BoundedVolumeGrid T) (i : Nat)
    (htri : Unallocated (s.m_GridVolumes i) ∨ s.CheckIfBasicSDFActive i = true) :
    ∃ s1, copyAndInitSlot src i s = some s1 := by
  unfold copyAndInitSlot
  by_cases hsrc : src.CheckIfBasicSDFActive i = true
  · rw [if_pos hsrc]
    by_cases hdst : s.CheckIfBasicSDFActive i = false
    · rw [if_pos hdst]
      have hu : Unallocated (s.m_GridVolumes i) := by
        rcases htri with hu | ha
        · exact hu
        · rw [hdst] at ha; exact absurd ha Bool.false_ne_true
      have e := initSingle_of_unallocated s i hu hdst
      have hact : (s.InitSingleBasicSDFWithIndex i).2.CheckIfBasicSDFActive i = true := by
        rw [e, check_true_iff]
        simp [setSlot, VolumeGrid.InitVolume]
      have h1 : (s.InitSingleBasicSDFWithIndex i).1 = true := by rw [e]
      simp only []
      rw [if_neg (by rw [h1]; simp), if_neg (by rw [hact]; simp)]
      exact ⟨_, rfl⟩
    · rw [if_neg hdst]
      exact ⟨_, rfl⟩
  · rw [if_neg hsrc]
    exact ⟨_, rfl⟩

/-- Invariant of the copy loop after `n` iterations. -/
theorem copyLoop_invariant (src dst : BoundedVolumeGrid T) (n : Nat) :
    ∀ s, forLoopM n (copyAndInitSlot src) dst = some s →
      s.m_nVolumeGridRes = dst.m_nVolumeGridRes ∧
      s.GetTotalGridNum = dst.GetTotalGridNum ∧
      (∀ j, n ≤ j → s.m_GridVolumes j = dst.m_GridVolumes j) ∧
      (∀ i, i < n →
        (s.CheckIfBasicSDFActive i = true ↔
          dst.CheckIfBasicSDFActive i = true ∨ src.CheckIfBasicSDFActive i = true) ∧
        (src.CheckIfBasicSDFActive i = false → s.m_GridVolumes i = dst.m_GridVolumes i)) := by
  induction n with
  | zero =>
    intro s h
    simp only [forLoopM, Option.some.injEq] at h
    subst h
    exact ⟨rfl, rfl, fun _ _ => rfl, fun i hi => absurd hi (Nat.not_lt_zero i)⟩
  | succ k ih =>
    intro s h
    rw [forLoopM] at h
    cases h0 : forLoopM k (copyAndInitSlot src) dst with
    | none => rw [h0] at h; simp at h
    | some s0 =>
      rw [h0] at h
      simp only [Option.bind] at h
      obtain ⟨iR, iT, iG, iA⟩ := ih s0 h0
      obtain ⟨bR, bT, bG, bA, bS⟩ := copyAndInitSlot_some src s0 s k h
      refine ⟨bR.trans iR, bT.trans iT, fun j hj => ?_, fun i hi => ?_⟩
      · rw [bG j (by omega), iG j (by omega)]
      · by_cases hik : i = k
        · subst hik
          have e0 : s0.CheckIfBasicSDFActive i = dst.CheckIfBasicSDFActive i := by
            have := iG i (le_refl i)
            exact check_congr dst s0 i iR (by rw [this]) (by rw [this]) (by rw [this])
          cases hsrc : src.CheckIfBasicSDFActive i with
          | true => exact ⟨⟨fun _ => Or.inr rfl, fun _ => bA hsrc⟩, fun hc => by simp at hc⟩
          | false =>
            have es := bS hsrc
            subst es
            rw [e0]
            exact ⟨⟨fun hc => Or.inl hc, fun hc => hc.elim id (fun hf => by simp at hf)⟩,
              fun _ => iG i (le_refl i)⟩
        · have hlt : i < k := by omega
          have eg := bG i hik
          have ec : s.CheckIfBasicSDFActive i = s0.CheckIfBasicSDFActive i :=
            check_congr s0 s i bR (by rw [eg]) (by rw [eg]) (by rw [eg])
          rw [ec, eg]
          exact iA i hlt

/-- The copy loop returns when the destination slots it visits are unallocated or
active. -/
theorem copyLoop_returns (src dst : BoundedVolumeGrid T) (n : Nat)
    (htri : ∀ i, i < n →
      Unallocated (dst.m_GridVolumes i) ∨ dst.CheckIfBasicSDFActive i = true) :
    ∃ s, forLoopM n (copyAndInitSlot src) dst = some s := by
  induction n with
  | zero => exact ⟨dst, rfl⟩
  | succ k ih =>
    obtain ⟨s0, h0⟩ := ih (fun i hi => htri i (by omega))
    obtain ⟨iR, _, iG, _⟩ := copyLoop_invariant src dst k s0 h0
    have eg := iG k (le_refl k)
    have hk : Unallocated (s0.m_GridVolumes k) ∨ s0.CheckIfBasicSDFActive k = true := by
      rcases htri k (by omega) with hu | ha
      · left; rw [eg]; exact hu
      · right
        rw [check_congr dst s0 k iR (by rw [eg]) (by rw [eg]) (by rw [eg])]
        exact ha
    obtain ⟨s1, h1⟩ := copyAndInitSlot_returns src s0 k hk
    refine ⟨s1, ?_⟩
    rw [forLoopM, h0]
    exact h1

/-- C9: for every source and destination volume, after `CopyAndInitFrom(source)`
a destination slot `i` below the total cell count is active if and only if it was
active before or source slot `i` is active, and destination slots whose source
slot is inactive are left unchanged (the whole cell, hence activity and
dimensions); the source is only read. The call returns whenever every
destination slot below the total cell count is unallocated or active. -/
theorem CopyAndInitFrom_sparse (dst src : BoundedVolumeGrid T) :
    (∀ dst1, dst.CopyAndInitFrom src = some dst1 →
      ∀ i, i < dst.GetTotalGridNum →
        (dst1.CheckIfBasicSDFActive i = true ↔
          dst.CheckIfBasicSDFActive i = true ∨ src.CheckIfBasicSDFActive i = true) ∧
        (src.CheckIfBasicSDFActive i = false →
          dst1.m_GridVolumes i = dst.m_GridVolumes i)) ∧
    ((∀ i, i < dst.GetTotalGridNum →
        Unallocated (dst.m_GridVolumes i) ∨ dst.CheckIfBasicSDFActive i = true) →
      ∃ dst1, dst.CopyAndInitFrom src = some dst1) := by
  constructor
  · intro dst1 h i hi
    exact (copyLoop_invariant src dst _ dst1 h).2.2.2 i hi
  · intro htri
    exact copyLoop_returns src dst _ htri

/-- C9 on the sample: copying the volume whose slot 0 is active into the fresh
volume activates slot 0 of the destination and leaves slot 1, whose source slot
is inactive, as it was. -/
theorem CopyAndInitFrom_sparse_witness :
    (freshVolume.CopyAndInitFrom activeVolume = some copiedVolume ∧
      0 < freshVolume.GetTotalGridNum ∧ 1 < freshVolume.GetTotalGridNum ∧
      activeVolume.CheckIfBasicSDFActive 0 = true ∧
      activeVolume.CheckIfBasicSDFActive 1 = false) ∧
    copiedVolume.CheckIfBasicSDFActive 0 = true ∧
    copiedVolume.m_GridVolumes 1 = freshVolume.m_GridVolumes 1 :=
  have h := (CopyAndInitFrom_sparse freshVolume activeVolume).1 copiedVolume (by rfl)
  ⟨⟨by rfl, by decide, by decide, by decide, by decide⟩,
    ((h 0 (by decide)).1).mpr (Or.inr (by decide)),
    (h 1 (by decide)).2 (by decide)⟩

/-! ## Raw voxel access -/

/-- The raw accessors have no failing path: `Get` and `operator()` return the
reference into the slot the addressing function gives, at the local coordinate
`(x mod R, y mod R, z mod R)`, whether that slot is active or not; `operator()`
prints its diagnostic exactly when the slot is inactive. -/
theorem raw_access_returns_reference (v : BoundedVolumeGrid T) (x y z : Nat) :
    v.Get x y z =
      ⟨v.ConvertLocalIndexToRealIndex (x / v.m_nVolumeGridRes : Nat)
          (y / v.m_nVolumeGridRes : Nat) (z / v.m_nVolumeGridRes : Nat),
        x % v.m_nVolumeGridRes, y % v.m_nVolumeGridRes, z % v.m_nVolumeGridRes⟩ ∧
    (v.operator_call x y z).2 = v.Get x y z ∧
    ((v.operator_call x y z).1 = true ↔
      v.CheckIfBasicSDFActive (v.Get x y z).slot = false) := by
  refine ⟨rfl, rfl, ?_⟩
  unfold operator_call Get
  simp

/-- C10, at the failing input: on the fresh `2 × 3 × 2` volume of resolution 4 no
cell is active; the voxel `(5, 9, 2)` belongs to cell `(1, 2, 0)`, slot 5, which is
inactive, and still `Get(5,9,2)` returns the reference to the sample `(1,1,2)` of
slot 5, and `operator()(5,9,2)` prints its diagnostic and returns the same
reference: neither fails with an access error. -/
theorem raw_access_to_inactive_cell :
    freshVolume.CheckIfBasicSDFActive 5 = false ∧
    (freshVolume.m_GridVolumes 5).ptr = MemState.unacquired ∧
    freshVolume.Get 5 9 2 = ⟨5, 1, 1, 2⟩ ∧
    freshVolume.operator_call 5 9 2 = (true, ⟨5, 1, 1, 2⟩) := by
  decide

/-! ## World-to-cell sampling -/

/-- No slot of the fresh sample volume is active. -/
theorem freshVolume_inactive (i : Nat) : freshVolume.CheckIfBasicSDFActive i = false := by
  rfl

/-- C11: for every world point whose owning cell, as located by the sampling
routine, is inactive, `GetUnitsTrilinearClamped` returns the not-a-number sentinel
and `GetUnitsBackwardDiffDxDyDz` returns the sentinel on all three channels; the
result is the same whatever the cell interpolation routines `cs` are, so no cell's
samples are read. -/
theorem sampling_of_inactive_cell (cs : CellSampler T) (v : BoundedVolumeGrid T)
    (pos_w : float3) (h : v.CheckIfBasicSDFActive (v.sampleSlot pos_w) = false) :
    v.GetUnitsTrilinearClamped cs pos_w = FloatValue.nan ∧
    v.GetUnitsBackwardDiffDxDyDz cs pos_w =
      ⟨FloatValue.nan, FloatValue.nan, FloatValue.nan⟩ := by
  unfold GetUnitsTrilinearClamped GetUnitsBackwardDiffDxDyDz
  simp only []
  rw [if_pos h, if_pos h]
  exact ⟨rfl, rfl⟩

/-- C11 on the sample: the centre of the unit box, sampled in the fresh volume
(no active cell), gives the sentinel. -/
theorem sampling_of_inactive_cell_witness :
    freshVolume.CheckIfBasicSDFActive
      (freshVolume.sampleSlot ⟨1 / 2, 1 / 2, 1 / 2⟩) = false ∧
    freshVolume.GetUnitsTrilinearClamped unitSampler ⟨1 / 2, 1 / 2, 1 / 2⟩ =
      FloatValue.nan ∧
    freshVolume.GetUnitsBackwardDiffDxDyDz unitSampler ⟨1 / 2, 1 / 2, 1 / 2⟩ =
      ⟨FloatValue.nan, FloatValue.nan, FloatValue.nan⟩ :=
  ⟨freshVolume_inactive _,
    sampling_of_inactive_cell unitSampler freshVolume ⟨1 / 2, 1 / 2, 1 / 2⟩
      (freshVolume_inactive _)⟩

/-- C12, at the failing input: with `2 × 3 × 2` cells and local shift `(2, 3, 0)`
the shift reaches the cell count on `x` and on `y`, and still
`ConvertLocalIndexToRealIndex(1, 2, 1)` returns a slot, `1 + 2 * (2 + 3 * 1) = 11`;
the `x` block only prints its message and the `y` block, whose test admits
`|shift| = N`, prints nothing. -/
theorem ConvertLocalIndexToRealIndex_ignores_overflow :
    |overshiftVolume.m_local_shift.x| ≥ (overshiftVolume.m_nGridNum_w : Int) ∧
    |overshiftVolume.m_local_shift.y| ≥ (overshiftVolume.m_nGridNum_h : Int) ∧
    overshiftVolume.ConvertLocalIndexToRealIndex 1 2 1 = 11 ∧
    overshiftVolume.shiftOverflowReported = (true, false, false) := by
  decide

/-- `Init(8, 4, 4, 4, unitBox)` on the sample volume returns `flatVolume`. -/
theorem Init_flatVolume : sampleVolume.Init 8 4 4 4 unitBox = some flatVolume := by
  unfold Init
  simp only []
  rw [if_neg (by decide), ResetAllGridVol_eq]
  have hp : zeroedPool sampleVolume.m_GridVolumes MAX_SUPPORT_GRID_NUM =
      sampleVolume.m_GridVolumes := by
    funext j
    unfold zeroedPool
    split_ifs <;> rfl
  simp only [hp]
  rfl

/-- The clamped component lies in `[0, 1)`. -/
theorem clampUnit_bounds (p : ℚ) : 0 ≤ clampUnit p ∧ clampUnit p < 1 := by
  unfold clampUnit
  split_ifs with h1 h2
  · constructor <;> norm_num
  · constructor <;> norm_num
  · exact ⟨le_of_not_lt h2, lt_of_not_ge h1⟩

/-- With `W = Nx * R` the coarse coordinate of a clamped component is below `Nx`. -/
theorem coarse_coordinate_lt (p : ℚ) (R Nx : Nat) (hR : 1 ≤ R) (hN : 1 ≤ Nx)
    (h0 : 0 ≤ p) (h1 : p < 1) :
    (floorf (p / ((R : ℚ) / ((Nx * R : Nat) : ℚ)))).toNat < Nx := by
  have hRq : (0 : ℚ) < R := by exact_mod_cast hR
  have hNq : (0 : ℚ) < Nx := by exact_mod_cast hN
  have e : p / ((R : ℚ) / ((Nx * R : Nat) : ℚ)) = p * Nx := by
    push_cast
    field_simp
    ring
  unfold floorf
  rw [e]
  have hlt : p * Nx < Nx := by nlinarith
  have hf : Int.floor (p * (Nx : ℚ)) < (Nx : Int) := by
    rw [Int.floor_lt]
    exact_mod_cast hlt
  have hn : 0 ≤ Int.floor (p * (Nx : ℚ)) := Int.floor_nonneg.mpr (by positivity)
  omega

/-- On the window, with a valid shift and a cell count that fits the `unsigned
int` result, the addressing function returns a slot below the cell count. -/
theorem convert_slot_lt (v : BoundedVolumeGrid T) (hfit : v.cellCount ≤ UINT_RANGE)
    (hs : v.ValidShift) (x y z : Int) (hin : v.InWindow x y z) :
    v.ConvertLocalIndexToRealIndex x y z < v.cellCount := by
  have e := convert_closed_form v hfit hs x y z hin
  obtain ⟨⟨hx0, hx⟩, ⟨hy0, hy⟩, ⟨hz0, hz⟩⟩ := hin
  have wx := emod_window (x + v.m_local_shift.x) _ (show (0 : Int) < v.m_nGridNum_w by omega)
  have wy := emod_window (y + v.m_local_shift.y) _ (show (0 : Int) < v.m_nGridNum_h by omega)
  have wz := emod_window (z + v.m_local_shift.z) _ (show (0 : Int) < v.m_nGridNum_d by omega)
  have hb := flat_bounds _ _ _ _ _ _ wx.1 wx.2 wy.1 wy.2 wz.1 wz.2
  have hcc : ((v.cellCount : Nat) : Int) =
      (v.m_nGridNum_w : Int) * v.m_nGridNum_h * v.m_nGridNum_d := by
    unfold cellCount; push_cast; ring
  have : ((v.ConvertLocalIndexToRealIndex x y z : Nat) : Int) < (v.cellCount : Int) := by
    rw [e, hcc]; exact hb.2
  exact_mod_cast this

/-- C13, as stated, fails on a volume that is not cubic: in the volume of
`8 × 4 × 4` voxels with resolution 4 (`2 × 1 × 1` cells, extents multiples of 4)
the point `(0, 3/5, 0)` of the unit box gets the coarse coordinate `(0, 1, 0)`,
outside `[0,2) × [0,1) × [0,1)`, and the slot 2, not below the 2 cells. -/
theorem sampleIndex_leaves_window :
    sampleVolume.Init 8 4 4 4 unitBox = some flatVolume ∧
    flatVolume.sampleIndex ⟨0, 3 / 5, 0⟩ = ⟨0, 1, 0⟩ ∧
    ¬ flatVolume.InWindow 0 1 0 ∧
    flatVolume.sampleSlot ⟨0, 3 / 5, 0⟩ = 2 ∧
    ¬ (flatVolume.sampleSlot ⟨0, 3 / 5, 0⟩ < flatVolume.cellCount) := by
  have hx : clampUnit ((0 - 0) / (1 - 0)) = 0 := by unfold clampUnit; norm_num
  have hy : clampUnit ((3 / 5 - 0) / (1 - 0)) = 3 / 5 := by unfold clampUnit; norm_num
  have f0 : floorf (0 / (((4 : Nat) : ℚ) / ((8 : Nat) : ℚ))) = 0 := by
    unfold floorf; rw [Int.floor_eq_iff]; norm_num
  have f1 : floorf (3 / 5 / (((4 : Nat) : ℚ) / ((8 : Nat) : ℚ))) = 1 := by
    unfold floorf; rw [Int.floor_eq_iff]; norm_num
  have hi : flatVolume.sampleIndex ⟨0, 3 / 5, 0⟩ = ⟨0, 1, 0⟩ := by
    simp only [sampleIndex, samplePosition, sampleFactor, flatVolume, freshVolume,
      sampleVolume, unitBox, BoundingBox.Min, BoundingBox.Size, hx, hy, f0, f1]
    rfl
  have hslot : flatVolume.sampleSlot ⟨0, 3 / 5, 0⟩ = 2 := by
    unfold sampleSlot
    simp only [hi]
    decide
  refine ⟨Init_flatVolume, hi, by decide, hslot, ?_⟩
  rw [hslot]
  decide

/-- C13, amended: for every world point and every volume whose extents are
multiples of `R` (`R ≥ 1`, at least one cell in width) and whose cell count in
width does not exceed those in height and depth (every cubic volume in
particular), the coarse cell coordinate that `GetUnitsTrilinearClamped` and
`GetUnitsBackwardDiffDxDyDz` compute after clamping the normalised position to
`[0,1)` lies in `[0,Nx)` on each axis, hence in `[0,Nx) × [0,Ny) × [0,Nz)`, and
with a valid local shift the slot they resolve is below the total cell count
(arithmetic taken exactly). -/
theorem sampleIndex_in_window (v : BoundedVolumeGrid T) (pos_w : float3)
    (hR : 1 ≤ v.m_nVolumeGridRes)
    (hW : v.m_w = v.m_nGridNum_w * v.m_nVolumeGridRes)
    (_hH : v.m_h = v.m_nGridNum_h * v.m_nVolumeGridRes)
    (_hD : v.m_d = v.m_nGridNum_d * v.m_nVolumeGridRes)
    (hNx : 1 ≤ v.m_nGridNum_w) (hNy : v.m_nGridNum_w ≤ v.m_nGridNum_h)
    (hNz : v.m_nGridNum_w ≤ v.m_nGridNum_d)
    (hs : v.ValidShift) (hfit : v.cellCount ≤ UINT_RANGE) :
    ((v.sampleIndex pos_w).x < v.m_nGridNum_w ∧ (v.sampleIndex pos_w).y < v.m_nGridNum_w ∧
      (v.sampleIndex pos_w).z < v.m_nGridNum_w) ∧
    v.InWindow (v.sampleIndex pos_w).x (v.sampleIndex pos_w).y (v.sampleIndex pos_w).z ∧
    v.sampleSlot pos_w < v.cellCount := by
  have bx := clampUnit_bounds ((pos_w.x - v.m_bbox.Min.x) / v.m_bbox.Size.x)
  have bY := clampUnit_bounds ((pos_w.y - v.m_bbox.Min.y) / v.m_bbox.Size.y)
  have bz := clampUnit_bounds ((pos_w.z - v.m_bbox.Min.z) / v.m_bbox.Size.z)
  have cx := coarse_coordinate_lt _ _ _ hR hNx bx.1 bx.2
  have cy := coarse_coordinate_lt _ _ _ hR hNx bY.1 bY.2
  have cz := coarse_coordinate_lt _ _ _ hR hNx bz.1 bz.2
  have ix : (v.sampleIndex pos_w).x < v.m_nGridNum_w := by
    simp only [sampleIndex, samplePosition, sampleFactor, hW]; exact cx
  have iy : (v.sampleIndex pos_w).y < v.m_nGridNum_w := by
    simp only [sampleIndex, samplePosition, sampleFactor, hW]; exact cy
  have iz : (v.sampleIndex pos_w).z < v.m_nGridNum_w := by
    simp only [sampleIndex, samplePosition, sampleFactor, hW]; exact cz
  have hin : v.InWindow (v.sampleIndex pos_w).x (v.sampleIndex pos_w).y
      (v.sampleIndex pos_w).z := by
    refine ⟨⟨by omega, by omega⟩, ⟨by omega, by omega⟩, ⟨by omega, by omega⟩⟩
  exact ⟨⟨ix, iy, iz⟩, hin, convert_slot_lt v hfit hs _ _ _ hin⟩

/-- C13 amended, on the sample: in the fresh `2 × 3 × 2` volume of `8 × 12 × 8`
voxels the centre of the unit box is located in a cell of the window and in a
slot below 12. -/
theorem sampleIndex_in_window_witness :
    (1 ≤ freshVolume.m_nVolumeGridRes ∧
      freshVolume.m_w = freshVolume.m_nGridNum_w * freshVolume.m_nVolumeGridRes ∧
      freshVolume.m_h = freshVolume.m_nGridNum_h * freshVolume.m_nVolumeGridRes ∧
      freshVolume.m_d = freshVolume.m_nGridNum_d * freshVolume.m_nVolumeGridRes ∧
      1 ≤ freshVolume.m_nGridNum_w ∧ freshVolume.m_nGridNum_w ≤ freshVolume.m_nGridNum_h ∧
      freshVolume.m_nGridNum_w ≤ freshVolume.m_nGridNum_d ∧
      freshVolume.ValidShift ∧ freshVolume.cellCount ≤ UINT_RANGE) ∧
    freshVolume.sampleSlot ⟨1 / 2, 1 / 2, 1 / 2⟩ < freshVolume.cellCount :=
  ⟨by decide,
    (sampleIndex_in_window freshVolume ⟨1 / 2, 1 / 2, 1 / 2⟩ (by decide) (by decide)
      (by decide) (by decide) (by decide) (by decide) (by decide) (by decide)
      (by decide)).2.2⟩

/-! ## Surface extraction -/

/-- C16: for all endpoint values `v1`, `v2` and every target value (exact
values), `fGetOffset(v1, v2, target)` is `0.5` when `v1 = v2`, the branch that
divides is not taken then, and otherwise the divisor `v2 - v1` is not zero and the
result is `(target - v1) / (v2 - v1)`. -/
theorem fGetOffset_spec (v1 v2 target : ℚ) :
    (v1 = v2 → fGetOffset v1 v2 target = 1 / 2) ∧
    (v1 ≠ v2 → v2 - v1 ≠ 0 ∧ fGetOffset v1 v2 target = (target - v1) / (v2 - v1)) := by
  unfold fGetOffset
  constructor
  · intro h
    subst h
    simp
  · intro h
    have hne : v2 - v1 ≠ 0 := sub_ne_zero.mpr (Ne.symm h)
    exact ⟨hne, by simp only []; rw [if_neg hne]⟩

/-- C16 on samples: equal endpoints 3 and 3 give `1/2`; endpoints `-1` and `3`
with target 0 give `1/4`. -/
theorem fGetOffset_spec_witness :
    fGetOffset 3 3 0 = 1 / 2 ∧ fGetOffset (-1) 3 0 = (0 - (-1)) / (3 - (-1)) :=
  ⟨(fGetOffset_spec 3 3 0).1 rfl, ((fGetOffset_spec (-1) 3 0).2 (by norm_num)).2⟩

/-- Bit `i` of the mask after the first `n` corners were tested. -/
theorem flagLoop_testBit (a : Nat → ℚ) (iso : ℚ) (n i : Nat) :
    (forLoop n (fun iVertexTest iFlagIndex =>
      if a iVertexTest ≤ iso then iFlagIndex ||| (1 <<< iVertexTest)
      else iFlagIndex) 0).testBit i = decide (i < n ∧ a i ≤ iso) := by
  induction n with
  | zero => simp [forLoop]
  | succ k ih =>
    rw [forLoop]
    by_cases hk : a k ≤ iso
    · rw [if_pos hk, Nat.testBit_or, ih, Nat.one_shiftLeft, Nat.testBit_two_pow]
      by_cases hik : k = i
      · subst hik; simp [hk]
      · have : i < k + 1 ↔ i < k := by omega
        simp [hik, this]
    · rw [if_neg hk, ih]
      by_cases hik : i = k
      · subst hik; simp [hk]
      · have : i < k + 1 ↔ i < k := by omega
        simp [this]

/-- Bit `i` of `iFlagIndex` is set exactly when corner `i` is `≤` the target. -/
theorem cubeFlagIndex_testBit (a : Nat → ℚ) (iso : ℚ) (i : Nat) :
    (cubeFlagIndex a iso).testBit i = decide (i < 8 ∧ a i ≤ iso) :=
  flagLoop_testBit a iso 8 i

/-- The mask of a cube with every corner above the target is 0. -/
theorem cubeFlagIndex_all_above (a : Nat → ℚ) (iso : ℚ) (h : ∀ i, i < 8 → iso < a i) :
    cubeFlagIndex a iso = 0 := by
  apply Nat.eq_of_testBit_eq
  intro i
  rw [cubeFlagIndex_testBit, Nat.zero_testBit]
  by_cases hi : i < 8
  · have := h i hi
    simp [not_le.mpr this]
  · simp [hi]

/-- The mask of a cube with every corner at or below the target is 0xFF. -/
theorem cubeFlagIndex_all_below (a : Nat → ℚ) (iso : ℚ) (h : ∀ i, i < 8 → a i ≤ iso) :
    cubeFlagIndex a iso = 255 := by
  apply Nat.eq_of_testBit_eq
  intro i
  rw [cubeFlagIndex_testBit, show (255 : Nat) = 2 ^ 8 - 1 by norm_num,
    Nat.testBit_two_pow_sub_one]
  by_cases hi : i < 8
  · simp [hi, h i hi]
  · simp [hi]

/-- The mask of a cube whose only corner at or below the target is corner `i`. -/
theorem cubeFlagIndex_single_below (a : Nat → ℚ) (iso : ℚ) (i : Nat) (hi : i < 8)
    (h1 : a i ≤ iso) (h0 : ∀ j, j < 8 → j ≠ i → iso < a j) :
    cubeFlagIndex a iso = 1 <<< i := by
  apply Nat.eq_of_testBit_eq
  intro j
  rw [cubeFlagIndex_testBit, Nat.one_shiftLeft, Nat.testBit_two_pow]
  by_cases hji : i = j
  · subst hji; simp [hi, h1]
  · by_cases hj : j < 8
    · have := h0 j hj (fun e => hji e.symm)
      simp [hji, not_le.mpr this]
    · simp [hji, hj]

/-- The mask of a cube whose only corner above the target is corner `i`. -/
theorem cubeFlagIndex_single_above (a : Nat → ℚ) (iso : ℚ) (i : Nat) (hi : i < 8)
    (h1 : iso < a i) (h0 : ∀ j, j < 8 → j ≠ i → a j ≤ iso) :
    cubeFlagIndex a iso = 255 - 1 <<< i := by
  have hb : ∀ j, (cubeFlagIndex a iso).testBit j = decide (j < 8 ∧ j ≠ i) := by
    intro j
    rw [cubeFlagIndex_testBit]
    by_cases hj : j < 8
    · by_cases hji : j = i
      · subst hji; simp [not_le.mpr h1]
      · simp [hj, hji, h0 j hj hji]
    · simp [hj]
  apply Nat.eq_of_testBit_eq
  intro j
  rw [hb]
  interval_cases i <;>
    · by_cases hj : j < 8
      · interval_cases j <;> decide
      · have h8 : 8 ≤ j := by omega
        have hlt : ∀ m : Nat, m < 2 ^ 8 → m.testBit j = false := fun m hm =>
          Nat.testBit_lt_two_pow (lt_of_lt_of_le hm (Nat.pow_le_pow_right (by norm_num) h8))
        rw [hlt _ (by decide)]
        simp [hj]

/-- When the 8 corner samples are finite the first exit of `vMarchCube` is not
taken. -/
theorem no_corner_nan (vals : Nat → FloatValue)
    (hfin : ∀ i, i < 8 → vals i ≠ FloatValue.nan) :
    ¬ ((List.range 8).any (fun iVertex => decide (vals iVertex = FloatValue.nan)) = true) := by
  rw [List.any_eq_true]
  rintro ⟨i, hi, h⟩
  exact hfin i (List.mem_range.mp hi) (of_decide_eq_true h)

/-- One triangle adds three positions, three normals and one face, and three
colours or none. -/
theorem emitTriangle_sizes (t : MarchingCubesTables) (volColor : ColorVolume)
    (ev en : Nat → float3) (m k : Nat) (buf : MeshBuffers) :
    (emitTriangle t volColor ev en m k buf).verts.length = buf.verts.length + 3 ∧
    (emitTriangle t volColor ev en m k buf).norms.length = buf.norms.length + 3 ∧
    (emitTriangle t volColor ev en m k buf).faces.length = buf.faces.length + 1 ∧
    (emitTriangle t volColor ev en m k buf).colors.length =
      buf.colors.length + (if volColor.IsValid = true then 3 else 0) := by
  unfold emitTriangle
  simp only [forLoop, emitCorner, List.length_append, List.length_singleton]
  refine ⟨trivial, trivial, trivial, ?_⟩
  split_ifs <;> simp

/-- C14: for every unit cube whose 8 corner samples are all finite and either all
`> iso` or all `≤ iso`, `vMarchCube` builds the mask 0 or 0xFF respectively (bit
`i` is set iff corner `i ≤ iso`), finds an empty edge set (the tables being as the
spec states them) and emits nothing: the vertex, normal, face and colour buffers
are unchanged. -/
theorem vMarchCube_uniform_cube (t : MarchingCubesTables) (ht : TablesAsSpecified t)
    (length : float3 → FloatValue) (vol : BoundedVolume) (volColor : ColorVolume)
    (x y z : Int) (buf : MeshBuffers) (iso : ℚ)
    (hfin : ∀ i, i < 8 → cubeValues t vol x y z i ≠ FloatValue.nan)
    (hside : (∀ i, i < 8 → iso < (cubeValues t vol x y z i).toRat) ∨
      (∀ i, i < 8 → (cubeValues t vol x y z i).toRat ≤ iso)) :
    ((∀ i, i < 8 → iso < (cubeValues t vol x y z i).toRat) →
      cubeFlagIndex (fun i => (cubeValues t vol x y z i).toRat) iso = 0) ∧
    ((∀ i, i < 8 → (cubeValues t vol x y z i).toRat ≤ iso) →
      cubeFlagIndex (fun i => (cubeValues t vol x y z i).toRat) iso = 255) ∧
    (∀ i, i < 8 →
      ((cubeFlagIndex (fun i => (cubeValues t vol x y z i).toRat) iso).testBit i = true ↔
        (cubeValues t vol x y z i).toRat ≤ iso)) ∧
    t.aiCubeEdgeFlags (cubeFlagIndex (fun i => (cubeValues t vol x y z i).toRat) iso) = 0 ∧
    vMarchCube t length vol volColor x y z buf iso = buf := by
  have hbit : ∀ i, i < 8 →
      ((cubeFlagIndex (fun i => (cubeValues t vol x y z i).toRat) iso).testBit i = true ↔
        (cubeValues t vol x y z i).toRat ≤ iso) := by
    intro i hi
    rw [cubeFlagIndex_testBit]
    simp [hi]
  have hedge : t.aiCubeEdgeFlags
      (cubeFlagIndex (fun i => (cubeValues t vol x y z i).toRat) iso) = 0 := by
    rcases hside with h | h
    · rw [cubeFlagIndex_all_above _ _ h]; exact ht.empty_outside
    · rw [cubeFlagIndex_all_below _ _ h]; exact ht.empty_inside
  refine ⟨cubeFlagIndex_all_above _ _, cubeFlagIndex_all_below _ _, hbit, hedge, ?_⟩
  unfold vMarchCube
  simp only []
  rw [if_neg (no_corner_nan _ hfin), if_pos hedge]

/-- The sample tables are as the spec states them. -/
theorem sampleTables_asSpecified : TablesAsSpecified sampleTables := by
  refine ⟨by decide, by decide, ?_⟩
  intro i hi m hm
  interval_cases i <;> rcases hm with h | h <;> subst h <;> decide

/-- The corner samples of the cube at the origin of the sample field. -/
theorem sampleField_corners (i : Nat) (hi : i < 8) :
    cubeValues sampleTables sampleField 0 0 0 i ≠ FloatValue.nan ∧
    (i = 0 → (cubeValues sampleTables sampleField 0 0 0 i).toRat = -1 / 2) ∧
    (i ≠ 0 → 1 / 2 ≤ (cubeValues sampleTables sampleField 0 0 0 i).toRat) ∧
    (cubeValues sampleTables sampleField 0 0 0 i).toRat ≤ 5 / 2 := by
  interval_cases i <;>
    simp [cubeValues, sampleField, sampleTables, FloatValue.toRat] <;> norm_num

/-- C14 on the sample: the cube at the origin of the sample field has its corner
samples between `-1/2` and `5/2`, all above the target `-1`; nothing is emitted. -/
theorem vMarchCube_uniform_cube_witness :
    (TablesAsSpecified sampleTables ∧
      (∀ i, i < 8 → cubeValues sampleTables sampleField 0 0 0 i ≠ FloatValue.nan) ∧
      (∀ i, i < 8 → (-1 : ℚ) < (cubeValues sampleTables sampleField 0 0 0 i).toRat)) ∧
    vMarchCube sampleTables noLength sampleField noColor 0 0 0 emptyBuffers (-1) =
      emptyBuffers :=
  have hfin : ∀ i, i < 8 → cubeValues sampleTables sampleField 0 0 0 i ≠ FloatValue.nan :=
    fun i hi => (sampleField_corners i hi).1
  have habove : ∀ i, i < 8 →
      (-1 : ℚ) < (cubeValues sampleTables sampleField 0 0 0 i).toRat := by
    intro i hi
    obtain ⟨_, h0, h1, _⟩ := sampleField_corners i hi
    by_cases e : i = 0
    · rw [h0 e]; norm_num
    · exact lt_of_lt_of_le (by norm_num) (h1 e)
  ⟨⟨sampleTables_asSpecified, hfin, habove⟩,
    (vMarchCube_uniform_cube sampleTables sampleTables_asSpecified noLength sampleField
      noColor 0 0 0 emptyBuffers (-1) hfin (Or.inl habove)).2.2.2.2⟩

/-- The triangle loop on a row that holds one triangle (an edge index at entry 0,
the end marker at entry 3) emits that triangle and stops. -/
theorem emitTriangles_single_row (t : MarchingCubesTables) (volColor : ColorVolume)
    (ev en : Nat → float3) (m : Nat) (buf : MeshBuffers)
    (h0 : 0 ≤ t.a2iTriangleConnectionTable m 0) (h3 : t.a2iTriangleConnectionTable m 3 < 0) :
    emitTriangles t volColor ev en m 5 0 buf = emitTriangle t volColor ev en m 0 buf := by
  rw [emitTriangles, if_neg (by simpa using h0), emitTriangles, if_pos (by simpa using h3)]

/-- C15: for every unit cube with all-finite corners in which exactly one of the 8
corners lies on the opposite side of `iso` from the other seven (one corner
`≤ iso` and seven `> iso`, or one `> iso` and seven `≤ iso`), `vMarchCube` emits
exactly 1 triangle, the tables being as the spec states them: `faces` grows by 1
and `verts` (with `norms`) by 3. -/
theorem vMarchCube_single_corner (t : MarchingCubesTables) (ht : TablesAsSpecified t)
    (length : float3 → FloatValue) (vol : BoundedVolume) (volColor : ColorVolume)
    (x y z : Int) (buf : MeshBuffers) (iso : ℚ)
    (hfin : ∀ i, i < 8 → cubeValues t vol x y z i ≠ FloatValue.nan)
    (i : Nat) (hi : i < 8)
    (hone : ((cubeValues t vol x y z i).toRat ≤ iso ∧
        ∀ j, j < 8 → j ≠ i → iso < (cubeValues t vol x y z j).toRat) ∨
      (iso < (cubeValues t vol x y z i).toRat ∧
        ∀ j, j < 8 → j ≠ i → (cubeValues t vol x y z j).toRat ≤ iso)) :
    (vMarchCube t length vol volColor x y z buf iso).faces.length = buf.faces.length + 1 ∧
    (vMarchCube t length vol volColor x y z buf iso).verts.length = buf.verts.length + 3 ∧
    (vMarchCube t length vol volColor x y z buf iso).norms.length = buf.norms.length + 3 := by
  have hm : cubeFlagIndex (fun i => (cubeValues t vol x y z i).toRat) iso = 1 <<< i ∨
      cubeFlagIndex (fun i => (cubeValues t vol x y z i).toRat) iso = 255 - 1 <<< i := by
    rcases hone with ⟨h1, h0⟩ | ⟨h1, h0⟩
    · exact Or.inl (cubeFlagIndex_single_below _ _ i hi h1 h0)
    · exact Or.inr (cubeFlagIndex_single_above _ _ i hi h1 h0)
  obtain ⟨hedge, r0, r3⟩ := ht.single_corner i hi _ hm
  unfold vMarchCube
  simp only []
  rw [if_neg (no_corner_nan _ hfin), if_neg hedge, emitTriangles_single_row _ _ _ _ _ _ r0 r3]
  obtain ⟨a, b, c, _⟩ := emitTriangle_sizes t volColor
    (asEdgeVertex t vol x y z (fun i => (cubeValues t vol x y z i).toRat) iso
      (t.aiCubeEdgeFlags (cubeFlagIndex (fun i => (cubeValues t vol x y z i).toRat) iso)))
    (asEdgeNorm t length vol x y z (fun i => (cubeValues t vol x y z i).toRat) iso
      (t.aiCubeEdgeFlags (cubeFlagIndex (fun i => (cubeValues t vol x y z i).toRat) iso)))
    (cubeFlagIndex (fun i => (cubeValues t vol x y z i).toRat) iso) 0 buf
  exact ⟨c, a, b⟩

/-- C15 on the sample: with target 0 the cube at the origin of the sample field
has corner 0 at `-1/2` and the seven others at `1/2` or more; one face and three
vertices are emitted into the empty buffers. -/
theorem vMarchCube_single_corner_witness :
    (TablesAsSpecified sampleTables ∧
      (∀ i, i < 8 → cubeValues sampleTables sampleField 0 0 0 i ≠ FloatValue.nan) ∧
      (cubeValues sampleTables sampleField 0 0 0 0).toRat ≤ 0 ∧
      (∀ j, j < 8 → j ≠ 0 → (0 : ℚ) < (cubeValues sampleTables sampleField 0 0 0 j).toRat)) ∧
    (vMarchCube sampleTables noLength sampleField noColor 0 0 0 emptyBuffers 0).faces.length
      = emptyBuffers.faces.length + 1 ∧
    (vMarchCube sampleTables noLength sampleField noColor 0 0 0 emptyBuffers 0).verts.length
      = emptyBuffers.verts.length + 3 :=
  have hfin : ∀ i, i < 8 → cubeValues sampleTables sampleField 0 0 0 i ≠ FloatValue.nan :=
    fun i hi => (sampleField_corners i hi).1
  have h1 : (cubeValues sampleTables sampleField 0 0 0 0).toRat ≤ 0 := by
    rw [(sampleField_corners 0 (by decide)).2.1 rfl]; norm_num
  have h0 : ∀ j, j < 8 → j ≠ 0 →
      (0 : ℚ) < (cubeValues sampleTables sampleField 0 0 0 j).toRat :=
    fun j hj hne => lt_of_lt_of_le (by norm_num) ((sampleField_corners j hj).2.2.1 hne)
  have h := vMarchCube_single_corner sampleTables sampleTables_asSpecified noLength
    sampleField noColor 0 0 0 emptyBuffers 0 hfin 0 (by decide) (Or.inl ⟨h1, h0⟩)
  ⟨⟨sampleTables_asSpecified, hfin, h1, h0⟩, h.1, h.2.1⟩

/-! ## File names -/

/-- The characters `std::to_string` writes for the digits `0 … 9`. -/
theorem digitChar_facts (k : Nat) (hk : k < 10) :
    (Nat.digitChar k).isDigit = true ∧ (Nat.digitChar k).toNat - 48 = k ∧
    Nat.digitChar k ≠ '#' ∧ isspace (Nat.digitChar k) = false ∧
    Nat.digitChar k ≠ '-' ∧ Nat.digitChar k ≠ '+' := by
  interval_cases k <;> decide

/-- Reading back the digits the loop wrote in front of `ds` gives `n`. -/
theorem decimalDigitsLoop_value (fuel : Nat) :
    ∀ (n : Nat) (ds : List Char), n < fuel →
      digitsValue 0 (decimalDigitsLoop fuel n ds) = digitsValue n ds := by
  induction fuel with
  | zero => intro n ds h; omega
  | succ f ih =>
    intro n ds h
    have hd := (digitChar_facts (n % 10) (Nat.mod_lt _ (by norm_num))).2.1
    rw [decimalDigitsLoop]
    split_ifs with h0
    · have hn : n % 10 = n := by omega
      simp only [digitsValue, List.foldl_cons, hd, Nat.mul_zero, Nat.zero_add]
      rw [hn]
    · rw [ih (n / 10) _ (by omega)]
      simp only [digitsValue, List.foldl_cons, hd]
      have : 10 * (n / 10) + n % 10 = n := by omega
      rw [this]

/-- A property of the digit characters holds for all characters the loop writes. -/
theorem decimalDigitsLoop_all (P : Char → Prop) (hP : ∀ k, k < 10 → P (Nat.digitChar k))
    (fuel : Nat) :
    ∀ (n : Nat) (ds : List Char), (∀ c ∈ ds, P c) →
      ∀ c ∈ decimalDigitsLoop fuel n ds, P c := by
  induction fuel with
  | zero => intro n ds h; simpa [decimalDigitsLoop] using h
  | succ f ih =>
    intro n ds h
    have hd := hP (n % 10) (Nat.mod_lt _ (by norm_num))
    have hcons : ∀ c ∈ Nat.digitChar (n % 10) :: ds, P c := by
      intro c hc
      rcases List.mem_cons.mp hc with e | e
      · rw [e]; exact hd
      · exact h c e
    rw [decimalDigitsLoop]
    split_ifs with h0
    · exact hcons
    · exact ih _ _ hcons

/-- The loop writes at least one character when it has fuel or starts from a
list that is not empty. -/
theorem decimalDigitsLoop_ne_nil (fuel : Nat) :
    ∀ (n : Nat) (ds : List Char), 0 < fuel ∨ ds ≠ [] → decimalDigitsLoop fuel n ds ≠ [] := by
  induction fuel with
  | zero =>
    intro n ds h
    rcases h with h | h
    · omega
    · simpa [decimalDigitsLoop] using h
  | succ f ih =>
    intro n ds _
    rw [decimalDigitsLoop]
    split_ifs with h0
    · exact List.cons_ne_nil _ _
    · exact ih _ _ (Or.inr (List.cons_ne_nil _ _))

/-- The decimal form of a natural number: not empty, made of digits, and read
back as the number. -/
theorem decimalDigits_facts (n : Nat) :
    decimalDigits n ≠ [] ∧ (∀ c ∈ decimalDigits n, c.isDigit = true) ∧
    (∀ c ∈ decimalDigits n, c ≠ '#') ∧
    (∀ c ∈ decimalDigits n, isspace c = false ∧ c ≠ '-' ∧ c ≠ '+') ∧
    digitsValue 0 (decimalDigits n) = n := by
  unfold decimalDigits
  refine ⟨decimalDigitsLoop_ne_nil _ _ _ (Or.inl (by omega)), ?_, ?_, ?_, ?_⟩
  · exact decimalDigitsLoop_all _ (fun k hk => (digitChar_facts k hk).1) _ _ _
      (fun c hc => by simp at hc)
  · exact decimalDigitsLoop_all _ (fun k hk => (digitChar_facts k hk).2.2.1) _ _ _
      (fun c hc => by simp at hc)
  · exact decimalDigitsLoop_all _
      (fun k hk => ⟨(digitChar_facts k hk).2.2.2.1, (digitChar_facts k hk).2.2.2.2.1,
        (digitChar_facts k hk).2.2.2.2.2⟩) _ _ _ (fun c hc => by simp at hc)
  · rw [decimalDigitsLoop_value _ _ _ (by omega)]
    rfl

/-- `std::stoi` of a run of digits after an optional minus sign. -/
theorem stoi_of_digits (ds : List Char) (hne : ds ≠ [])
    (hdig : ∀ c ∈ ds, c.isDigit = true)
    (hplain : ∀ c ∈ ds, isspace c = false ∧ c ≠ '-' ∧ c ≠ '+') :
    (digitsValue 0 ds ≤ 2147483647 → stoi ds = some (digitsValue 0 ds : Int)) ∧
    (digitsValue 0 ds ≤ 2147483648 → stoi ('-' :: ds) = some (-(digitsValue 0 ds : Int))) := by
  obtain ⟨c, r, rfl⟩ := List.exists_cons_of_ne_nil hne
  obtain ⟨hs, hm, hp⟩ := hplain c (List.mem_cons_self _ _)
  have htake : List.takeWhile Char.isDigit (c :: r) = c :: r :=
    List.takeWhile_eq_self_iff.mpr hdig
  constructor
  · intro hle
    unfold stoi
    simp only [List.dropWhile_cons, hs, Bool.false_eq_true, if_false, List.head?_cons,
      Option.some.injEq, hm, decide_False, hp, or_self, htake]
    rw [if_neg (List.cons_ne_nil _ _)]
    simp only [digitsValue] at hle ⊢
    rw [if_neg (by omega)]
  · intro hle
    unfold stoi
    have hsm : isspace '-' = false := by decide
    simp only [List.dropWhile_cons, hsm, Bool.false_eq_true, if_false, List.head?_cons,
      decide_True, true_or, if_true, htake]
    rw [if_neg (List.cons_ne_nil _ _)]
    simp only [digitsValue] at hle ⊢
    rw [if_neg (by omega)]

/-- Round trip of one number: `std::stoi(std::to_string(i)) = i` for every `int`. -/
theorem stoi_to_string (i : Int) (hlo : -2147483648 ≤ i) (hhi : i ≤ 2147483647) :
    stoi (to_string i) = some i := by
  unfold to_string
  split_ifs with hneg
  · obtain ⟨hne, hdig, _, hplain, hval⟩ := decimalDigits_facts i.natAbs
    have h := (stoi_of_digits _ hne hdig hplain).2 (by rw [hval]; omega)
    rw [h, hval]
    congr 1
    omega
  · obtain ⟨hne, hdig, _, hplain, hval⟩ := decimalDigits_facts i.toNat
    have h := (stoi_of_digits _ hne hdig hplain).1 (by rw [hval]; omega)
    rw [h, hval]
    congr 1
    omega

/-- The decimal form of an integer holds no `#`. -/
theorem to_string_no_hash (i : Int) : ∀ c ∈ to_string i, c ≠ '#' := by
  unfold to_string
  split_ifs with hneg
  · intro c hc
    rcases List.mem_cons.mp hc with e | e
    · rw [e]; decide
    · exact (decimalDigits_facts _).2.2.1 c e
  · exact (decimalDigits_facts _).2.2.1

/-- No `#`, no position. -/
theorem hashPositionsFrom_nohash (a : List Char) (ha : ∀ c ∈ a, c ≠ '#') :
    ∀ i, hashPositionsFrom i a = [] := by
  induction a with
  | nil => intro i; rfl
  | cons c cs ih =>
    intro i
    rw [hashPositionsFrom, if_neg (ha c (List.mem_cons_self _ _))]
    exact ih (fun d hd => ha d (List.mem_cons_of_mem _ hd)) _

/-- The first `#` behind a run without `#` is found at the length of the run. -/
theorem hashPositionsFrom_append_hash (a b : List Char) (ha : ∀ c ∈ a, c ≠ '#') :
    ∀ i, hashPositionsFrom i (a ++ '#' :: b) =
      (i + a.length) :: hashPositionsFrom (i + a.length + 1) b := by
  induction a with
  | nil => intro i; simp [hashPositionsFrom]
  | cons c cs ih =>
    intro i
    rw [List.cons_append, hashPositionsFrom, if_neg (ha c (List.mem_cons_self _ _)),
      ih (fun d hd => ha d (List.mem_cons_of_mem _ hd))]
    simp only [List.length_cons]
    have e : i + 1 + cs.length = i + (cs.length + 1) := by omega
    rw [e]

/-- The field between two consecutive `#`. -/
theorem substr_field (a f r : List Char) (n : Nat) (hn : n = a.length + 1) :
    substr (a ++ '#' :: (f ++ r)) n f.length = f := by
  subst hn
  unfold substr
  have : List.drop (a.length + 1) (a ++ '#' :: (f ++ r)) = f ++ r := by
    rw [List.drop_append_eq_append_drop]
    simp
  rw [this, List.take_left']
  rfl

/-- The names made of a prefix and six fields, none of which holds a `#`: the six
`#` are found and the fields cut out are the six fields. -/
theorem name_fields (p f0 f1 f2 f3 f4 f5 : List Char)
    (hp : ∀ c ∈ p, c ≠ '#') (h0 : ∀ c ∈ f0, c ≠ '#') (h1 : ∀ c ∈ f1, c ≠ '#')
    (h2 : ∀ c ∈ f2, c ≠ '#') (h3 : ∀ c ∈ f3, c ≠ '#') (h4 : ∀ c ∈ f4, c ≠ '#')
    (h5 : ∀ c ∈ f5, c ≠ '#') :
    let name := p ++ '#' :: (f0 ++ '#' :: (f1 ++ '#' :: (f2 ++ '#' :: (f3 ++ '#' ::
      (f4 ++ '#' :: f5)))))
    (hashPositionsFrom 0 name).length = 6 ∧
    nameField name (hashPositionsFrom 0 name) 0 = f0 ∧
    nameField name (hashPositionsFrom 0 name) 1 = f1 ∧
    nameField name (hashPositionsFrom 0 name) 2 = f2 ∧
    nameField name (hashPositionsFrom 0 name) 3 = f3 ∧
    nameField name (hashPositionsFrom 0 name) 4 = f4 ∧
    nameField name (hashPositionsFrom 0 name) 5 = f5 := by
  intro name
  have hpos : hashPositionsFrom 0 name =
      [p.length, p.length + 1 + f0.length, p.length + 1 + f0.length + 1 + f1.length,
       p.length + 1 + f0.length + 1 + f1.length + 1 + f2.length,
       p.length + 1 + f0.length + 1 + f1.length + 1 + f2.length + 1 + f3.length,
       p.length + 1 + f0.length + 1 + f1.length + 1 + f2.length + 1 + f3.length + 1 +
         f4.length] := by
    simp only [name]
    rw [hashPositionsFrom_append_hash _ _ hp, hashPositionsFrom_append_hash _ _ h0,
      hashPositionsFrom_append_hash _ _ h1, hashPositionsFrom_append_hash _ _ h2,
      hashPositionsFrom_append_hash _ _ h3, hashPositionsFrom_append_hash _ _ h4,
      hashPositionsFrom_nohash _ h5]
    simp only [Nat.zero_add]
  rw [hpos]
  refine ⟨rfl, ?_, ?_, ?_, ?_, ?_, ?_⟩
  · simp only [nameField, List.getD_cons_zero, List.getD_cons_succ, Nat.lt_add_one,
      show (0 : Nat) < 5 by norm_num, if_true]
    have e : p.length + 1 + f0.length - p.length - 1 = f0.length := by omega
    rw [e]
    exact substr_field p f0 _ _ rfl
  · simp only [nameField, List.getD_cons_zero, List.getD_cons_succ,
      show (1 : Nat) < 5 by norm_num, if_true]
    have e : p.length + 1 + f0.length + 1 + f1.length - (p.length + 1 + f0.length) - 1 =
        f1.length := by omega
    rw [e]
    have hn : name = (p ++ '#' :: f0) ++ '#' :: (f1 ++ '#' :: (f2 ++ '#' :: (f3 ++ '#' ::
        (f4 ++ '#' :: f5)))) := by simp [name]
    rw [hn]
    exact substr_field _ f1 _ _ (by simp; omega)
  · simp only [nameField, List.getD_cons_zero, List.getD_cons_succ,
      show (2 : Nat) < 5 by norm_num, if_true]
    have e : p.length + 1 + f0.length + 1 + f1.length + 1 + f2.length -
        (p.length + 1 + f0.length + 1 + f1.length) - 1 = f2.length := by omega
    rw [e]
    have hn : name = (p ++ '#' :: (f0 ++ '#' :: f1)) ++ '#' :: (f2 ++ '#' :: (f3 ++ '#' ::
        (f4 ++ '#' :: f5))) := by simp [name]
    rw [hn]
    exact substr_field _ f2 _ _ (by simp; omega)
  · simp only [nameField, List.getD_cons_zero, List.getD_cons_succ,
      show (3 : Nat) < 5 by norm_num, if_true]
    have e : p.length + 1 + f0.length + 1 + f1.length + 1 + f2.length + 1 + f3.length -
        (p.length + 1 + f0.length + 1 + f1.length + 1 + f2.length) - 1 = f3.length := by
      omega
    rw [e]
    have hn : name = (p ++ '#' :: (f0 ++ '#' :: (f1 ++ '#' :: f2))) ++ '#' ::
        (f3 ++ '#' :: (f4 ++ '#' :: f5)) := by simp [name]
    rw [hn]
    exact substr_field _ f3 _ _ (by simp; omega)
  · simp only [nameField, List.getD_cons_zero, List.getD_cons_succ,
      show (4 : Nat) < 5 by norm_num, if_true]
    have e : p.length + 1 + f0.length + 1 + f1.length + 1 + f2.length + 1 + f3.length + 1 +
        f4.length - (p.length + 1 + f0.length + 1 + f1.length + 1 + f2.length + 1 +
          f3.length) - 1 = f4.length := by omega
    rw [e]
    have hn : name = (p ++ '#' :: (f0 ++ '#' :: (f1 ++ '#' :: (f2 ++ '#' :: f3)))) ++ '#' ::
        (f4 ++ '#' :: f5) := by simp [name]
    rw [hn]
    exact substr_field _ f4 _ _ (by simp; omega)
  · simp only [nameField, List.getD_cons_zero, List.getD_cons_succ,
      show ¬ ((5 : Nat) < 5) by norm_num, if_false]
    have hn : name = (p ++ '#' :: (f0 ++ '#' :: (f1 ++ '#' :: (f2 ++ '#' :: (f3 ++ '#' ::
        f4))))) ++ '#' :: (f5 ++ []) := by simp [name]
    have e : name.length - (p.length + 1 + f0.length + 1 + f1.length + 1 + f2.length + 1 +
        f3.length + 1 + f4.length) - 1 = f5.length := by
      simp [name]; omega
    rw [e, hn]
    exact substr_field _ f5 _ _ (by simp; omega)

/-- The positions collected are as many as the `#` of the name. -/
theorem hashPositionsFrom_length (s : List Char) :
    ∀ i, (hashPositionsFrom i s).length = hashCount s := by
  unfold hashCount
  induction s with
  | nil => intro i; rfl
  | cons c cs ih =>
    intro i
    rw [hashPositionsFrom]
    by_cases h : c = '#'
    · rw [if_pos h, List.length_cons, ih, h, List.count_cons_self]
    · rw [if_neg h, ih, List.count_cons_of_ne (fun e => h e.symm)]

/-- C17: round trip of the file-naming convention. For every prefix containing no
`#` and every six integers `gx, gy, gz, lx, ly, lz` in `int` range (negative ones
included), `GetIndexFromFileName` applied to
`prefix + "#" + gx + "#" + gy + "#" + gz + "#" + lx + "#" + ly + "#" + lz`
(decimal formatting as by `std::to_string`) returns `true` with
`GlobalIndex = (gx,gy,gz)` and `LocalIndex = (lx,ly,lz)`. -/
theorem GetIndexFromFileName_round_trip (pre : List Char) (hpre : ∀ c ∈ pre, c ≠ '#')
    (g l : int3)
    (hg : IsInt32 g.x ∧ IsInt32 g.y ∧ IsInt32 g.z)
    (hl : IsInt32 l.x ∧ IsInt32 l.y ∧ IsInt32 l.z) :
    GetIndexFromFileName (cellFileName pre g l) = ParseOutcome.returnedTrue g l := by
  obtain ⟨hlen, e0, e1, e2, e3, e4, e5⟩ := name_fields pre (to_string g.x) (to_string g.y)
    (to_string g.z) (to_string l.x) (to_string l.y) (to_string l.z) hpre
    (to_string_no_hash _) (to_string_no_hash _) (to_string_no_hash _)
    (to_string_no_hash _) (to_string_no_hash _) (to_string_no_hash _)
  unfold GetIndexFromFileName cellFileName
  simp only []
  rw [if_neg (by rw [hlen]; simp)]
  unfold convertFields
  rw [e0, e1, e2, e3, e4, e5, stoi_to_string _ hg.1.1 hg.1.2, stoi_to_string _ hg.2.1.1 hg.2.1.2,
    stoi_to_string _ hg.2.2.1 hg.2.2.2, stoi_to_string _ hl.1.1 hl.1.2,
    stoi_to_string _ hl.2.1.1 hl.2.1.2, stoi_to_string _ hl.2.2.1 hl.2.2.2]
  rfl

/-- C17 on a sample: the name built from the prefix `grid`, the global index
`(-1, 0, 12)` and the local index `(3, -4, 5)` is parsed back to these indices. -/
theorem GetIndexFromFileName_round_trip_witness :
    ((∀ c ∈ "grid".toList, c ≠ '#') ∧
      (IsInt32 (-1) ∧ IsInt32 0 ∧ IsInt32 12) ∧ (IsInt32 3 ∧ IsInt32 (-4) ∧ IsInt32 5)) ∧
    GetIndexFromFileName (cellFileName "grid".toList ⟨-1, 0, 12⟩ ⟨3, -4, 5⟩) =
      ParseOutcome.returnedTrue ⟨-1, 0, 12⟩ ⟨3, -4, 5⟩ :=
  ⟨⟨by decide, by decide, by decide⟩,
    GetIndexFromFileName_round_trip "grid".toList (by decide) ⟨-1, 0, 12⟩ ⟨3, -4, 5⟩
      (by decide) (by decide)⟩

/-- The six conversions succeed exactly when each `std::stoi` does. -/
theorem convertFields_eq_some (name : List Char) (vIndex : List Nat) (g l : int3) :
    convertFields name vIndex = some (g, l) ↔
      (stoi (nameField name vIndex 0) = some g.x ∧ stoi (nameField name vIndex 1) = some g.y ∧
       stoi (nameField name vIndex 2) = some g.z ∧ stoi (nameField name vIndex 3) = some l.x ∧
       stoi (nameField name vIndex 4) = some l.y ∧ stoi (nameField name vIndex 5) = some l.z) := by
  unfold convertFields
  cases h0 : stoi (nameField name vIndex 0) <;> cases h1 : stoi (nameField name vIndex 1) <;>
    cases h2 : stoi (nameField name vIndex 2) <;> cases h3 : stoi (nameField name vIndex 3) <;>
    cases h4 : stoi (nameField name vIndex 4) <;> cases h5 : stoi (nameField name vIndex 5) <;>
    simp [bind, pure]
  constructor
  · rintro ⟨rfl, rfl⟩
    exact ⟨rfl, rfl, rfl, rfl, rfl, rfl⟩
  · rintro ⟨rfl, rfl, rfl, rfl, rfl, rfl⟩
    exact ⟨rfl, rfl⟩

/-- A conversion that throws makes the six conversions fail. -/
theorem convertFields_eq_none (name : List Char) (vIndex : List Nat) (k : Nat) (hk : k < 6)
    (h : stoi (nameField name vIndex k) = none) : convertFields name vIndex = none := by
  cases hc : convertFields name vIndex with
  | none => rfl
  | some gl =>
    obtain ⟨g, l⟩ := gl
    obtain ⟨a0, a1, a2, a3, a4, a5⟩ := (convertFields_eq_some name vIndex g l).mp hc
    interval_cases k
    · rw [a0] at h; exact absurd h (by simp)
    · rw [a1] at h; exact absurd h (by simp)
    · rw [a2] at h; exact absurd h (by simp)
    · rw [a3] at h; exact absurd h (by simp)
    · rw [a4] at h; exact absurd h (by simp)
    · rw [a5] at h; exact absurd h (by simp)

/-- A name parses exactly when `GetIndexFromFileName` returns `true` for it. -/
theorem parses_iff (name : List Char) :
    Parses name ↔ ∃ g l, GetIndexFromFileName name = ParseOutcome.returnedTrue g l := by
  unfold Parses parsedGlobal parsedLocal
  constructor
  · intro h; exact ⟨_, _, h⟩
  · rintro ⟨g, l, h⟩
    rw [h]

/-- The outer loop of `GetFilesNeedSaving` ends the program when one of the
remaining names does not parse. -/
theorem filesLoop_of_bad_name (names : List (List Char)) :
    ∀ (vs : List SingleVolume) (name : List Char), name ∈ names → ¬ Parses name →
      filesLoop names vs = none := by
  induction names with
  | nil => intro vs name h; simp at h
  | cons n rest ih =>
    intro vs name hmem hbad
    rw [filesLoop]
    cases ho : GetIndexFromFileName n with
    | threw => rfl
    | returnedFalse => rfl
    | returnedTrue g l =>
      simp only []
      rcases List.mem_cons.mp hmem with e | e
      · subst e
        exact absurd ((parses_iff name).mpr ⟨g, l, ho⟩) hbad
      · exact ih _ name e hbad

/-- C18, as stated, fails: the name `grid#1#2#3#4#5#6x` has the last field `6x`,
which is not an integer, and `GetIndexFromFileName` returns `true` for it, with
the local index `(4, 5, 6)`; and for `grid#1#2##4#5#6`, with six `#` and an empty
field, it does not return `false`: `std::stoi` throws. -/
theorem GetIndexFromFileName_accepts_trailing_text :
    nameField "grid#1#2#3#4#5#6x".toList (hashPositionsFrom 0 "grid#1#2#3#4#5#6x".toList) 5 =
      "6x".toList ∧
    GetIndexFromFileName "grid#1#2#3#4#5#6x".toList =
      ParseOutcome.returnedTrue ⟨1, 2, 3⟩ ⟨4, 5, 6⟩ ∧
    hashCount "grid#1#2##4#5#6".toList = 6 ∧
    nameField "grid#1#2##4#5#6".toList (hashPositionsFrom 0 "grid#1#2##4#5#6".toList) 2 = [] ∧
    GetIndexFromFileName "grid#1#2##4#5#6".toList = ParseOutcome.threw ∧
    GetIndexFromFileName "grid#1#2##4#5#6".toList ≠ ParseOutcome.returnedFalse := by
  decide

/-- C18, amended: `GetIndexFromFileName` returns `false` if and only if the number
of `#` characters of the name differs from 6. When it returns `true`, the name has
six `#` and every one of the six fields starts with an integer that `std::stoi`
converts (blanks, an optional sign, then at least one digit; what follows the
digits is ignored), and the indices are these integers. On a name with six `#`
one of whose fields has no such integer, an empty field in particular, it neither
returns `true` nor `false`: `std::stoi` throws. `GetFilesNeedSaving` ends the
program as soon as one input name is not parsed. -/
theorem GetIndexFromFileName_failure (name : List Char) :
    (GetIndexFromFileName name = ParseOutcome.returnedFalse ↔ hashCount name ≠ 6) ∧
    (∀ g l, GetIndexFromFileName name = ParseOutcome.returnedTrue g l →
      hashCount name = 6 ∧
      stoi (nameField name (hashPositionsFrom 0 name) 0) = some g.x ∧
      stoi (nameField name (hashPositionsFrom 0 name) 1) = some g.y ∧
      stoi (nameField name (hashPositionsFrom 0 name) 2) = some g.z ∧
      stoi (nameField name (hashPositionsFrom 0 name) 3) = some l.x ∧
      stoi (nameField name (hashPositionsFrom 0 name) 4) = some l.y ∧
      stoi (nameField name (hashPositionsFrom 0 name) 5) = some l.z) ∧
    (hashCount name = 6 →
      (∃ k, k < 6 ∧ stoi (nameField name (hashPositionsFrom 0 name) k) = none) →
      GetIndexFromFileName name = ParseOutcome.threw) ∧
    stoi [] = none ∧
    (∀ names : List (List Char), name ∈ names → ¬ Parses name →
      GetFilesNeedSaving names = none) := by
  have hlen := hashPositionsFrom_length name 0
  refine ⟨?_, ?_, ?_, rfl, fun names hmem hbad => filesLoop_of_bad_name names [] name hmem hbad⟩
  · unfold GetIndexFromFileName
    simp only []
    rw [hlen]
    by_cases h6 : hashCount name = 6
    · rw [if_neg (by simp [h6])]
      cases convertFields name (hashPositionsFrom 0 name) with
      | none => simp [h6]
      | some gl => simp [h6]
    · rw [if_pos h6]
      simp [h6]
  · intro g l h
    unfold GetIndexFromFileName at h
    simp only [] at h
    rw [hlen] at h
    by_cases h6 : hashCount name = 6
    · rw [if_neg (by simp [h6])] at h
      cases hc : convertFields name (hashPositionsFrom 0 name) with
      | none => rw [hc] at h; simp at h
      | some gl =>
        rw [hc] at h
        obtain ⟨g1, l1⟩ := gl
        simp only [ParseOutcome.returnedTrue.injEq] at h
        obtain ⟨rfl, rfl⟩ := h
        exact ⟨h6, (convertFields_eq_some _ _ _ _).mp hc⟩
    · rw [if_pos h6] at h
      simp at h
  · rintro h6 ⟨k, hk, hnone⟩
    unfold GetIndexFromFileName
    simp only []
    rw [hlen, if_neg (by simp [h6]), convertFields_eq_none _ _ k hk hnone]

/-- C18 amended, on samples: `grid#1#2#3#4#5` has five `#` and is answered with
`false`, and a list of names that holds it ends the program. -/
theorem GetIndexFromFileName_failure_witness :
    (hashCount "grid#1#2#3#4#5".toList ≠ 6 ∧
      "grid#1#2#3#4#5".toList ∈ ["grid#0#0#0#1#1#1".toList, "grid#1#2#3#4#5".toList] ∧
      ¬ Parses "grid#1#2#3#4#5".toList) ∧
    GetIndexFromFileName "grid#1#2#3#4#5".toList = ParseOutcome.returnedFalse ∧
    GetFilesNeedSaving ["grid#0#0#0#1#1#1".toList, "grid#1#2#3#4#5".toList] = none :=
  have h := GetIndexFromFileName_failure "grid#1#2#3#4#5".toList
  ⟨⟨by decide, by decide, by decide⟩, h.1.mpr (by decide),
    h.2.2.2.2 _ (by decide) (by decide)⟩

/-! ## Grouping the files by window -/

/-- The test of the inner loop is equality of the global indices. -/
theorem sameGlobalIndex_iff (sv : SingleVolume) (G : int3) :
    sameGlobalIndex sv G = true ↔ sv.GlobalIndex = G := by
  unfold sameGlobalIndex
  rw [decide_eq_true_iff]
  constructor
  · rintro ⟨a, b, c⟩
    cases hG : sv.GlobalIndex
    cases G
    rw [hG] at a b c
    simp only [int3.mk.injEq]
    exact ⟨a, b, c⟩
  · intro h
    rw [h]
    exact ⟨rfl, rfl, rfl⟩

/-- The groups after one more file, when a group with its global index exists:
that group is extended. -/
theorem addFile_of_mem (vs : List SingleVolume) (n : List Char) (G L : int3)
    (h : G ∈ vs.map (fun sv => sv.GlobalIndex)) :
    addFile vs n G L = vs.map (fun sv =>
      if sv.GlobalIndex = G then
        (⟨sv.GlobalIndex, sv.vLocalIndex ++ [L], sv.vFileName ++ [n]⟩ : SingleVolume)
      else sv) := by
  unfold addFile
  have hany : vs.any (fun sv => sameGlobalIndex sv G) = true := by
    rw [List.any_eq_true]
    obtain ⟨sv, hsv, e⟩ := List.mem_map.mp h
    exact ⟨sv, hsv, (sameGlobalIndex_iff sv G).mpr e⟩
  simp only [hany, Bool.true_eq_false, if_false]
  apply List.map_congr_left
  intro sv _
  by_cases e : sv.GlobalIndex = G
  · rw [if_pos ((sameGlobalIndex_iff sv G).mpr e), if_pos e]
  · rw [if_neg (fun hc => e ((sameGlobalIndex_iff sv G).mp hc)), if_neg e]

/-- The groups after one more file, when no group has its global index: a new
group is appended. -/
theorem addFile_of_not_mem (vs : List SingleVolume) (n : List Char) (G L : int3)
    (h : G ∉ vs.map (fun sv => sv.GlobalIndex)) :
    addFile vs n G L = vs ++ [⟨G, [L], [n]⟩] := by
  unfold addFile
  have hany : vs.any (fun sv => sameGlobalIndex sv G) = false := by
    rw [List.any_eq_false]
    intro sv hsv hc
    exact h (List.mem_map.mpr ⟨sv, hsv, (sameGlobalIndex_iff sv G).mp hc⟩)
  simp only [hany, if_true]
  congr 1
  conv_rhs => rw [← List.map_id vs]
  apply List.map_congr_left
  intro sv hsv
  rw [if_neg]
  · rfl
  · intro hc
    exact h (List.mem_map.mpr ⟨sv, hsv, (sameGlobalIndex_iff sv G).mp hc⟩)

/-- The grouping invariant is kept by the body of the outer loop. -/
theorem addFile_grouped (pre : List (List Char)) (vs : List SingleVolume) (n : List Char)
    (hinv : GroupedBy pre vs) :
    GroupedBy (pre ++ [n]) (addFile vs n (parsedGlobal n) (parsedLocal n)) := by
  obtain ⟨hord, hpres, hcov, hfiles, hloc⟩ := hinv
  have hidx : ∀ sv ∈ vs,
      List.indexOf sv.GlobalIndex ((pre ++ [n]).map parsedGlobal) =
        List.indexOf sv.GlobalIndex (pre.map parsedGlobal) := by
    intro sv hsv
    rw [List.map_append]
    exact List.indexOf_append_of_mem (hpres sv hsv)
  have hfilter : ∀ G : int3,
      (pre ++ [n]).filter (fun m => decide (parsedGlobal m = G)) =
        pre.filter (fun m => decide (parsedGlobal m = G)) ++
          (if parsedGlobal n = G then [n] else []) := by
    intro G
    rw [List.filter_append]
    congr 1
    by_cases e : parsedGlobal n = G
    · simp [e]
    · simp [e]
  by_cases hmem : parsedGlobal n ∈ vs.map (fun sv => sv.GlobalIndex)
  · rw [addFile_of_mem vs n _ _ hmem]
    refine ⟨?_, ?_, ?_, ?_, ?_⟩
    · rw [List.map_map]
      have : vs.map ((fun sv : SingleVolume =>
            List.indexOf sv.GlobalIndex ((pre ++ [n]).map parsedGlobal)) ∘
          (fun sv => if sv.GlobalIndex = parsedGlobal n then
            (⟨sv.GlobalIndex, sv.vLocalIndex ++ [parsedLocal n], sv.vFileName ++ [n]⟩ :
              SingleVolume) else sv)) =
          vs.map (fun sv => List.indexOf sv.GlobalIndex (pre.map parsedGlobal)) := by
        apply List.map_congr_left
        intro sv hsv
        simp only [Function.comp]
        split_ifs <;> exact hidx sv hsv
      rw [this]
      exact hord
    · intro sv1 hsv1
      obtain ⟨sv, hsv, rfl⟩ := List.mem_map.mp hsv1
      have := hpres sv hsv
      rw [List.map_append]
      split_ifs <;> exact List.mem_append_left _ this
    · intro m hm
      rcases List.mem_append.mp hm with hm | hm
      · obtain ⟨sv, hsv, e⟩ := hcov m hm
        refine ⟨_, List.mem_map.mpr ⟨sv, hsv, rfl⟩, ?_⟩
        split_ifs <;> exact e
      · have hmn : m = n := by simpa using hm
        subst hmn
        obtain ⟨sv, hsv, e⟩ := List.mem_map.mp hmem
        refine ⟨_, List.mem_map.mpr ⟨sv, hsv, rfl⟩, ?_⟩
        rw [if_pos e]
        exact e
    · intro sv1 hsv1
      obtain ⟨sv, hsv, rfl⟩ := List.mem_map.mp hsv1
      by_cases e : sv.GlobalIndex = parsedGlobal n
      · rw [if_pos e]
        simp only []
        rw [hfilter, if_pos e.symm, hfiles sv hsv]
      · rw [if_neg e, hfilter, if_neg (fun hc => e hc.symm), List.append_nil]
        exact hfiles sv hsv
    · intro sv1 hsv1
      obtain ⟨sv, hsv, rfl⟩ := List.mem_map.mp hsv1
      by_cases e : sv.GlobalIndex = parsedGlobal n
      · rw [if_pos e]
        simp only [List.map_append, List.map_cons, List.map_nil]
        rw [hloc sv hsv]
      · rw [if_neg e]
        exact hloc sv hsv
  · rw [addFile_of_not_mem vs n _ _ hmem]
    have hnew : parsedGlobal n ∉ pre.map parsedGlobal := by
      intro hc
      obtain ⟨m, hm, e⟩ := List.mem_map.mp hc
      obtain ⟨sv, hsv, e1⟩ := hcov m hm
      exact hmem (List.mem_map.mpr ⟨sv, hsv, e1.trans e⟩)
    refine ⟨?_, ?_, ?_, ?_, ?_⟩
    · rw [List.map_append, List.pairwise_append]
      refine ⟨?_, by simp, ?_⟩
      · have : vs.map (fun sv : SingleVolume =>
              List.indexOf sv.GlobalIndex ((pre ++ [n]).map parsedGlobal)) =
            vs.map (fun sv => List.indexOf sv.GlobalIndex (pre.map parsedGlobal)) :=
          List.map_congr_left hidx
        rw [this]
        exact hord
      · intro a ha b hb
        obtain ⟨sv, hsv, rfl⟩ := List.mem_map.mp ha
        have hb1 : b = List.indexOf (parsedGlobal n) ((pre ++ [n]).map parsedGlobal) := by
          simpa using hb
        rw [hb1, hidx sv hsv, List.map_append, List.indexOf_append_of_not_mem hnew]
        have := List.indexOf_lt_length.mpr (hpres sv hsv)
        omega
    · intro sv hsv
      rw [List.map_append]
      rcases List.mem_append.mp hsv with h | h
      · exact List.mem_append_left _ (hpres sv h)
      · have : sv = ⟨parsedGlobal n, [parsedLocal n], [n]⟩ := by simpa using h
        rw [this]
        simp
    · intro m hm
      rcases List.mem_append.mp hm with hm | hm
      · obtain ⟨sv, hsv, e⟩ := hcov m hm
        exact ⟨sv, List.mem_append_left _ hsv, e⟩
      · have hmn : m = n := by simpa using hm
        subst hmn
        exact ⟨⟨parsedGlobal m, [parsedLocal m], [m]⟩, by simp, rfl⟩
    · intro sv hsv
      rcases List.mem_append.mp hsv with h | h
      · have hne : parsedGlobal n ≠ sv.GlobalIndex := fun hc =>
          hmem (List.mem_map.mpr ⟨sv, h, hc.symm⟩)
        rw [hfilter, if_neg hne, List.append_nil]
        exact hfiles sv h
      · have : sv = ⟨parsedGlobal n, [parsedLocal n], [n]⟩ := by simpa using h
        rw [this, hfilter]
        simp only [if_true]
        have hempty : pre.filter (fun m => decide (parsedGlobal m = parsedGlobal n)) = [] := by
          rw [List.filter_eq_nil_iff]
          intro m hm hc
          exact hnew (List.mem_map.mpr ⟨m, hm, of_decide_eq_true hc⟩)
        rw [hempty]
        rfl
    · intro sv hsv
      rcases List.mem_append.mp hsv with h | h
      · exact hloc sv h
      · have : sv = ⟨parsedGlobal n, [parsedLocal n], [n]⟩ := by simpa using h
        rw [this]
        rfl

/-- The outer loop returns on names that all parse, and keeps the grouping
invariant. -/
theorem filesLoop_grouped (rest : List (List Char)) :
    ∀ (pre : List (List Char)) (vs : List SingleVolume), GroupedBy pre vs →
      (∀ n ∈ rest, Parses n) →
      ∃ vs1, filesLoop rest vs = some vs1 ∧ GroupedBy (pre ++ rest) vs1 := by
  induction rest with
  | nil =>
    intro pre vs hinv _
    exact ⟨vs, rfl, by simpa using hinv⟩
  | cons n rest ih =>
    intro pre vs hinv hall
    have hn : Parses n := hall n (List.mem_cons_self _ _)
    unfold Parses at hn
    rw [filesLoop, hn]
    simp only []
    obtain ⟨vs1, h1, h2⟩ := ih (pre ++ [n]) _ (addFile_grouped pre vs n hinv)
      (fun m hm => hall m (List.mem_cons_of_mem _ hm))
    refine ⟨vs1, h1, ?_⟩
    have : pre ++ n :: rest = pre ++ [n] ++ rest := by simp
    rw [this]
    exact h2

/-- Groups in the order of first occurrence have pairwise distinct indices. -/
theorem grouped_nodup (names : List (List Char)) (vs : List SingleVolume)
    (h : GroupedBy names vs) : (vs.map (fun sv => sv.GlobalIndex)).Nodup := by
  have hord := h.order
  rw [show (fun sv : SingleVolume =>
      List.indexOf sv.GlobalIndex (names.map parsedGlobal)) =
    (fun G => List.indexOf G (names.map parsedGlobal)) ∘ (fun sv => sv.GlobalIndex) from rfl,
    ← List.map_map, List.pairwise_map] at hord
  exact hord.imp (fun {a b} hab e => by rw [e] at hab; exact lt_irrefl _ hab)

/-- C19: for every list of file names that all parse, `GetFilesNeedSaving`
returns groups that partition the input by global index: the groups have pairwise
distinct `GlobalIndex` and appear in order of first occurrence, every input file
name has a group with its parsed global index and occurs in that group, the file
names of a group are exactly the input names with the group's global index, in
input order (so every input name occurs exactly once over all groups), and in
each group `vLocalIndex[j]` is the parsed local index of `vFileName[j]` (the two
lists have equal length). -/
theorem GetFilesNeedSaving_partition (names : List (List Char))
    (hall : ∀ n ∈ names, Parses n) :
    ∃ vs, GetFilesNeedSaving names = some vs ∧
      (vs.map (fun sv => sv.GlobalIndex)).Nodup ∧
      List.Pairwise (fun a b => a < b)
        (vs.map (fun sv => List.indexOf sv.GlobalIndex (names.map parsedGlobal))) ∧
      (∀ sv ∈ vs, sv.GlobalIndex ∈ names.map parsedGlobal) ∧
      (∀ n ∈ names, ∃ sv ∈ vs, sv.GlobalIndex = parsedGlobal n ∧ n ∈ sv.vFileName) ∧
      (∀ sv ∈ vs,
        sv.vFileName = names.filter (fun n => decide (parsedGlobal n = sv.GlobalIndex))) ∧
      (∀ sv ∈ vs, sv.vLocalIndex = sv.vFileName.map parsedLocal ∧
        sv.vLocalIndex.length = sv.vFileName.length) := by
  have h0 : GroupedBy [] [] := ⟨by simp, by simp, by simp, by simp, by simp⟩
  obtain ⟨vs, hrun, hinv⟩ := filesLoop_grouped names [] [] h0 hall
  rw [List.nil_append] at hinv
  refine ⟨vs, hrun, grouped_nodup names vs hinv, hinv.order, hinv.present, ?_, hinv.files, ?_⟩
  · intro n hn
    obtain ⟨sv, hsv, e⟩ := hinv.covers n hn
    refine ⟨sv, hsv, e, ?_⟩
    rw [hinv.files sv hsv, List.mem_filter]
    exact ⟨hn, decide_eq_true e.symm⟩
  · intro sv hsv
    have := hinv.locals sv hsv
    exact ⟨this, by rw [this, List.length_map]⟩

/-- C19 on a sample: three names, of the windows `(0,0,0)`, `(1,0,0)`, `(0,0,0)`,
are grouped into the window `(0,0,0)` with the first and the third name and the
window `(1,0,0)` with the second. -/
theorem GetFilesNeedSaving_partition_witness :
    (∀ n ∈ ["g#0#0#0#0#0#0".toList, "g#1#0#0#0#1#0".toList, "g#0#0#0#1#0#0".toList],
      Parses n) ∧
    GetFilesNeedSaving
        ["g#0#0#0#0#0#0".toList, "g#1#0#0#0#1#0".toList, "g#0#0#0#1#0#0".toList] =
      some [⟨⟨0, 0, 0⟩, [⟨0, 0, 0⟩, ⟨1, 0, 0⟩],
              ["g#0#0#0#0#0#0".toList, "g#0#0#0#1#0#0".toList]⟩,
            ⟨⟨1, 0, 0⟩, [⟨0, 1, 0⟩], ["g#1#0#0#0#1#0".toList]⟩] ∧
    ∃ vs, GetFilesNeedSaving
        ["g#0#0#0#0#0#0".toList, "g#1#0#0#0#1#0".toList, "g#0#0#0#1#0#0".toList] = some vs ∧
      (vs.map (fun sv => sv.GlobalIndex)).Nodup :=
  have h := GetFilesNeedSaving_partition
    ["g#0#0#0#0#0#0".toList, "g#1#0#0#0#1#0".toList, "g#0#0#0#1#0#0".toList] (by decide)
  ⟨by decide, by decide, h.elim (fun vs hv => ⟨vs, hv.1, hv.2.1⟩)⟩

/-! ## The multi-cell driver -/

/-- `Init` returns whenever the stored cell count passes the capacity check. -/
theorem Init_isSome (v : BoundedVolumeGrid T) (n_w n_h n_d n_res : Nat) (r_bbox : BoundingBox)
    (h : (n_w / n_res % UINT_RANGE) * (n_h / n_res % UINT_RANGE) * (n_d / n_res % UINT_RANGE)
      % UINT_RANGE ≤ MAX_SUPPORT_GRID_NUM) :
    ∃ v0, v.Init n_w n_h n_d n_res r_bbox = some v0 ∧
      v0.m_nGridNum_w = n_w / n_res % UINT_RANGE ∧
      v0.m_nGridNum_h = n_h / n_res % UINT_RANGE := by
  unfold Init
  simp only []
  rw [if_neg (by omega), ResetAllGridVol_eq]
  exact ⟨_, rfl, rfl, rfl⟩

/-- C20, at the failing input: two well-formed cell files of two different
windows, `g#0#0#0#0#0#0` and `g#1#0#0#0#0#0`, every bounding-box file existing
and every load succeeding. `GetFilesNeedSaving` returns the two window groups,
but the loop over the groups is `for (i = 0; i != 1; i++)`: only the first window
is loaded and meshed, and `nTotalSaveGridNum` ends at 1, not at the number of
input file names, 2. -/
theorem SaveMeshFromPXMs_first_window_only :
    GetFilesNeedSaving ["g#0#0#0#0#0#0".toList, "g#1#0#0#0#0#0".toList] =
      some [⟨⟨0, 0, 0⟩, [⟨0, 0, 0⟩], ["g#0#0#0#0#0#0".toList]⟩,
            ⟨⟨1, 0, 0⟩, [⟨0, 0, 0⟩], ["g#1#0#0#0#0#0".toList]⟩] ∧
    (SaveMeshFromPXMs sampleEnv sampleVolume sampleColorVolume unitBox "dir".toList
        "bb".toList ⟨8, 12, 8⟩ 4 ["g#0#0#0#0#0#0".toList, "g#1#0#0#0#0#0".toList]
        "mesh".toList).map (fun r => r.nTotalSaveGridNum) = some 1 ∧
    ["g#0#0#0#0#0#0".toList, "g#1#0#0#0#0#0".toList].length = 2 := by
  have hg : GetFilesNeedSaving ["g#0#0#0#0#0#0".toList, "g#1#0#0#0#0#0".toList] =
      some [⟨⟨0, 0, 0⟩, [⟨0, 0, 0⟩], ["g#0#0#0#0#0#0".toList]⟩,
            ⟨⟨1, 0, 0⟩, [⟨0, 0, 0⟩], ["g#1#0#0#0#0#0".toList]⟩] := by decide
  refine ⟨hg, ?_, rfl⟩
  obtain ⟨hc, hci, _, _⟩ := Init_isSome sampleColorVolume 1 1 1 4 unitBox (by decide)
  have e8 : toUnsigned 8 = 8 := by decide
  have e12 : toUnsigned 12 = 12 := by decide
  have e4 : toUnsigned 4 = 4 := by decide
  unfold SaveMeshFromPXMs
  rw [hg]
  simp only [e8, e12, e4, Init_sampleVolume, hci]
  rfl

/-! ## Shift bookkeeping: the two checks -/

/-- The call as a case distinction over its two checks. -/
theorem update_by_checks (v : BoundedVolumeGrid T) (d : int3) :
    (v.localShiftOverflow d → v.UpdateLocalAndGlobalShift d = none) ∧
    (v.globalShiftOverflow d → v.UpdateLocalAndGlobalShift d = none) ∧
    (¬ v.localShiftOverflow d → ¬ v.globalShiftOverflow d →
      ∃ v1, v.UpdateLocalAndGlobalShift d = some v1) := by
  refine ⟨fun h => ?_, fun h => ?_, fun h1 h2 => ?_⟩
  · exact if_pos h
  · by_cases h1 : v.localShiftOverflow d
    · exact if_pos h1
    · exact (if_neg h1).trans (if_pos h)
  · exact ⟨_, (if_neg h1).trans (if_neg h2)⟩

/-- With at least one cell per axis the first check never fires. -/
theorem not_localShiftOverflow (v : BoundedVolumeGrid T) (d : int3)
    (hw : 1 ≤ v.m_nGridNum_w) (hh : 1 ≤ v.m_nGridNum_h) (hd : 1 ≤ v.m_nGridNum_d) :
    ¬ v.localShiftOverflow d := by
  unfold localShiftOverflow
  simp only []
  have a := wrapLocalAxis_abs_lt v.m_nGridNum_w (v.m_local_shift + d).x (by omega)
  have b := wrapLocalAxis_abs_lt v.m_nGridNum_h (v.m_local_shift + d).y (by omega)
  have c := wrapLocalAxis_abs_lt v.m_nGridNum_d (v.m_local_shift + d).z (by omega)
  intro h
  rcases h with h | h | h <;> omega

/-- One axis of the update: the global component moves by one exactly when the
shifted local component reaches the cell count in magnitude, and the local
component is then zero. -/
theorem wrap_axis_cases (n l g : Int) (hn : 1 ≤ n) :
    (n ≤ |l| → wrapLocalAxis n l = 0 ∧
      ((0 < l ∧ wrapGlobalAxis n l g = g + 1) ∨ (l < 0 ∧ wrapGlobalAxis n l g = g - 1))) ∧
    (|l| < n → wrapLocalAxis n l = l ∧ wrapGlobalAxis n l g = g) := by
  unfold wrapLocalAxis wrapGlobalAxis
  constructor
  · intro h
    rcases le_abs.mp h with h1 | h1
    · rw [if_pos (by omega), if_pos (by omega)]
      exact ⟨rfl, Or.inl ⟨by omega, rfl⟩⟩
    · rw [if_neg (by omega), if_pos (by omega), if_neg (by omega), if_pos (by omega)]
      exact ⟨rfl, Or.inr ⟨by omega, rfl⟩⟩
  · intro h
    obtain ⟨h1, h2⟩ := abs_lt.mp h
    rw [if_neg (by omega), if_neg (by omega), if_neg (by omega), if_neg (by omega)]
    exact ⟨rfl, rfl⟩

/-- One axis of a call that starts from a valid local component. -/
theorem axisStep_of_wrap (N l d g : Int) (hl : |l| < N) :
    AxisStep N l d g (wrapLocalAxis N (l + d)) (wrapGlobalAxis N (l + d) g) := by
  have hN : 1 ≤ N := by
    have := abs_nonneg l
    omega
  obtain ⟨hl1, hl2⟩ := abs_lt.mp hl
  obtain ⟨hbig, hsmall⟩ := wrap_axis_cases N (l + d) g hN
  unfold AxisStep
  by_cases h : N ≤ |l + d|
  · obtain ⟨e0, hg⟩ := hbig h
    rcases hg with ⟨hp, eg⟩ | ⟨hp, eg⟩
    · have hd : 0 < d := by
        rcases le_abs.mp h with h1 | h1 <;> omega
      rw [e0, eg]
      exact ⟨Or.inr (Or.inr rfl), fun _ => hd, fun e => by omega,
        ⟨fun _ => h, fun _ => by omega⟩, fun _ => rfl, fun h2 => by omega⟩
    · have hd : d < 0 := by
        rcases le_abs.mp h with h1 | h1 <;> omega
      rw [e0, eg]
      exact ⟨Or.inl rfl, fun e => by omega, fun _ => hd,
        ⟨fun _ => h, fun _ => by omega⟩, fun _ => rfl, fun h2 => by omega⟩
  · obtain ⟨el, eg⟩ := hsmall (by omega)
    rw [el, eg]
    exact ⟨Or.inr (Or.inl rfl), fun e => by omega, fun e => by omega,
      ⟨fun e => absurd rfl e, fun h2 => absurd h2 h⟩, fun h2 => absurd h2 h, fun _ => rfl⟩

/-- C27: for every state with `|local_shift.axis| < N_axis` and every delta, one
`UpdateLocalAndGlobalShift` call (it returns unless the global shift leaves the
range the second check admits) changes the global shift of each axis by `-1`, `0`
or `+1`, by `+1` only if the delta of that axis is positive and by `-1` only if
it is negative; the global shift of an axis changes exactly when
`|local_shift + delta| ≥ N` on that axis, in which case the local shift of that
axis becomes 0, and otherwise the local shift becomes `local_shift + delta`
(`AxisStep`). The axes are updated independently: what a call leaves on an axis
is the same for any two calls that agree on the cell count, the shifts and the
delta of that axis. -/
theorem UpdateLocalAndGlobalShift_axis_step (v : BoundedVolumeGrid T) (hs : v.ValidShift)
    (d : int3) :
    (¬ v.globalShiftOverflow d → ∃ v1, v.UpdateLocalAndGlobalShift d = some v1) ∧
    ∀ v1, v.UpdateLocalAndGlobalShift d = some v1 →
      AxisStep v.m_nGridNum_w v.m_local_shift.x d.x v.m_global_shift.x
        v1.m_local_shift.x v1.m_global_shift.x ∧
      AxisStep v.m_nGridNum_h v.m_local_shift.y d.y v.m_global_shift.y
        v1.m_local_shift.y v1.m_global_shift.y ∧
      AxisStep v.m_nGridNum_d v.m_local_shift.z d.z v.m_global_shift.z
        v1.m_local_shift.z v1.m_global_shift.z ∧
      ∀ (w w1 : BoundedVolumeGrid T) (e : int3), w.UpdateLocalAndGlobalShift e = some w1 →
        (w.m_nGridNum_w = v.m_nGridNum_w → w.m_local_shift.x = v.m_local_shift.x →
          w.m_global_shift.x = v.m_global_shift.x → e.x = d.x →
          w1.m_local_shift.x = v1.m_local_shift.x ∧
            w1.m_global_shift.x = v1.m_global_shift.x) ∧
        (w.m_nGridNum_h = v.m_nGridNum_h → w.m_local_shift.y = v.m_local_shift.y →
          w.m_global_shift.y = v.m_global_shift.y → e.y = d.y →
          w1.m_local_shift.y = v1.m_local_shift.y ∧
            w1.m_global_shift.y = v1.m_global_shift.y) ∧
        (w.m_nGridNum_d = v.m_nGridNum_d → w.m_local_shift.z = v.m_local_shift.z →
          w.m_global_shift.z = v.m_global_shift.z → e.z = d.z →
          w1.m_local_shift.z = v1.m_local_shift.z ∧
            w1.m_global_shift.z = v1.m_global_shift.z) := by
  obtain ⟨sx, sy, sz⟩ := hs
  have hw : 1 ≤ v.m_nGridNum_w := by
    have := abs_nonneg v.m_local_shift.x
    omega
  have hh : 1 ≤ v.m_nGridNum_h := by
    have := abs_nonneg v.m_local_shift.y
    omega
  have hd : 1 ≤ v.m_nGridNum_d := by
    have := abs_nonneg v.m_local_shift.z
    omega
  refine ⟨fun hg => (update_by_checks v d).2.2 (not_localShiftOverflow v d hw hh hd) hg, ?_⟩
  intro v1 h1
  have e1 := UpdateLocalAndGlobalShift_eq_some v v1 d h1
  refine ⟨?_, ?_, ?_, ?_⟩
  · rw [e1]; exact axisStep_of_wrap _ _ _ _ sx
  · rw [e1]; exact axisStep_of_wrap _ _ _ _ sy
  · rw [e1]; exact axisStep_of_wrap _ _ _ _ sz
  · intro w w1 e hw1
    have e2 := UpdateLocalAndGlobalShift_eq_some w w1 e hw1
    refine ⟨fun a b c f => ?_, fun a b c f => ?_, fun a b c f => ?_⟩
    · rw [e1, e2]
      simp only [a, b, c, f]
      exact ⟨trivial, trivial⟩
    · rw [e1, e2]
      simp only [a, b, c, f]
      exact ⟨trivial, trivial⟩
    · rw [e1, e2]
      simp only [a, b, c, f]
      exact ⟨trivial, trivial⟩

/-- C27 on the sample volume (`2 × 3 × 2` cells, local shift `(1, -2, 0)`) with
the delta `(1, -1, 5)`: every axis reaches its cell count, the local shift
becomes `(0, 0, 0)` and the global shift `(1, -1, 1)`. -/
theorem UpdateLocalAndGlobalShift_axis_step_witness :
    sampleVolume.ValidShift ∧
    sampleVolume.UpdateLocalAndGlobalShift ⟨1, -1, 5⟩ = some wrappedVolume ∧
    AxisStep 2 1 1 0 0 1 ∧ AxisStep 3 (-2) (-1) 0 0 (-1) ∧ AxisStep 2 0 5 0 0 1 :=
  ⟨by decide, by rfl,
    ((UpdateLocalAndGlobalShift_axis_step sampleVolume (by decide) ⟨1, -1, 5⟩).2
      wrappedVolume (by rfl)).1,
    ((UpdateLocalAndGlobalShift_axis_step sampleVolume (by decide) ⟨1, -1, 5⟩).2
      wrappedVolume (by rfl)).2.1,
    ((UpdateLocalAndGlobalShift_axis_step sampleVolume (by decide) ⟨1, -1, 5⟩).2
      wrappedVolume (by rfl)).2.2.1⟩

/-- C30: for every volume state with `Nx, Ny, Nz ≥ 1` and every delta, the
condition of the local-shift-overflow exit of `UpdateLocalAndGlobalShift`
(`abs(local_shift.axis) > N_axis` after the axis blocks) is false, so the call
leaves the program only through the global-shift check; when it returns, an axis
on which `|local_shift + delta| ≥ N` (in particular a delta larger than the
window) has its local shift reset to 0 and its global shift moved by one. -/
theorem UpdateLocalAndGlobalShift_local_overflow_unreachable (v : BoundedVolumeGrid T)
    (d : int3) (hw : 1 ≤ v.m_nGridNum_w) (hh : 1 ≤ v.m_nGridNum_h)
    (hd : 1 ≤ v.m_nGridNum_d) :
    ¬ v.localShiftOverflow d ∧
    (v.UpdateLocalAndGlobalShift d = none ↔ v.globalShiftOverflow d) ∧
    ∀ v1, v.UpdateLocalAndGlobalShift d = some v1 →
      ((v.m_nGridNum_w : Int) ≤ |v.m_local_shift.x + d.x| →
        v1.m_local_shift.x = 0 ∧ |v1.m_global_shift.x - v.m_global_shift.x| = 1) ∧
      ((v.m_nGridNum_h : Int) ≤ |v.m_local_shift.y + d.y| →
        v1.m_local_shift.y = 0 ∧ |v1.m_global_shift.y - v.m_global_shift.y| = 1) ∧
      ((v.m_nGridNum_d : Int) ≤ |v.m_local_shift.z + d.z| →
        v1.m_local_shift.z = 0 ∧ |v1.m_global_shift.z - v.m_global_shift.z| = 1) := by
  have hl := not_localShiftOverflow v d hw hh hd
  obtain ⟨_, c2, c3⟩ := update_by_checks v d
  have key : ∀ (n l g : Int), 1 ≤ n → n ≤ |l| →
      wrapLocalAxis n l = 0 ∧ |wrapGlobalAxis n l g - g| = 1 := by
    intro n l g hn hb
    obtain ⟨e0, hg⟩ := (wrap_axis_cases n l g hn).1 hb
    refine ⟨e0, ?_⟩
    rcases hg with ⟨_, eg⟩ | ⟨_, eg⟩
    · rw [eg, add_sub_cancel_left]; rfl
    · rw [eg, sub_sub_cancel_left]; rfl
  refine ⟨hl, ⟨fun hn => ?_, c2⟩, ?_⟩
  · by_contra hg
    obtain ⟨v1, e⟩ := c3 hl hg
    rw [e] at hn
    exact Option.noConfusion hn
  · intro v1 h1
    have e1 := UpdateLocalAndGlobalShift_eq_some v v1 d h1
    rw [e1]
    exact ⟨key _ _ _ (by omega), key _ _ _ (by omega), key _ _ _ (by omega)⟩

/-- C30 on the fresh `2 × 3 × 2` volume with the delta `(7, 0, 0)`, larger than
the window: the call returns, with local shift 0 and global shift 1 on `x`. -/
theorem UpdateLocalAndGlobalShift_local_overflow_unreachable_witness :
    (1 ≤ freshVolume.m_nGridNum_w ∧ 1 ≤ freshVolume.m_nGridNum_h ∧
      1 ≤ freshVolume.m_nGridNum_d) ∧
    freshVolume.UpdateLocalAndGlobalShift ⟨7, 0, 0⟩ = some steppedVolume ∧
    ¬ freshVolume.localShiftOverflow ⟨7, 0, 0⟩ ∧
    (steppedVolume.m_local_shift.x = 0 ∧
      |steppedVolume.m_global_shift.x - freshVolume.m_global_shift.x| = 1) :=
  ⟨by decide, by rfl,
    (UpdateLocalAndGlobalShift_local_overflow_unreachable freshVolume ⟨7, 0, 0⟩
      (by decide) (by decide) (by decide)).1,
    ((UpdateLocalAndGlobalShift_local_overflow_unreachable freshVolume ⟨7, 0, 0⟩
      (by decide) (by decide) (by decide)).2.2 steppedVolume (by rfl)).1 (by decide)⟩

/-- C24, as stated, fails: the state with `2 × 3 × 2` cells, local shift
`(1, 0, 0)` and global shift `(99999, 0, 0)` is valid, the delta `(1, 0, 0)`
keeps `|local_shift + delta| ≤ N` on every axis, and the call leaves the program
(the global shift on `x` would become 100000). -/
theorem UpdateLocalAndGlobalShift_global_limit :
    farVolume.ValidShift ∧
    (|farVolume.m_local_shift.x + 1| ≤ (farVolume.m_nGridNum_w : Int) ∧
      |farVolume.m_local_shift.y + 0| ≤ (farVolume.m_nGridNum_h : Int) ∧
      |farVolume.m_local_shift.z + 0| ≤ (farVolume.m_nGridNum_d : Int)) ∧
    wrapGlobalAxis farVolume.m_nGridNum_w (farVolume.m_local_shift.x + 1)
      farVolume.m_global_shift.x = 100000 ∧
    farVolume.UpdateLocalAndGlobalShift ⟨1, 0, 0⟩ = none :=
  ⟨by decide, by decide, by decide, by rfl⟩

/-- C24, amended: the global shift is a signed integer per axis that the call
keeps within magnitude 99999. For every valid state and every delta with
`|local_shift + delta| ≤ N` on each axis, `UpdateLocalAndGlobalShift` completes
normally if and only if the resulting global shift (the old one, moved by one on
each axis whose local shift reached `±N`) has magnitude at most 99999 on every
axis; otherwise it terminates the program. A call that returns keeps
`global_shift * N + local_shift + delta` on every axis and leaves a global shift
of magnitude at most 99999. -/
theorem UpdateLocalAndGlobalShift_global_bound (v : BoundedVolumeGrid T) (hs : v.ValidShift)
    (d : int3) (hx : |v.m_local_shift.x + d.x| ≤ (v.m_nGridNum_w : Int))
    (hy : |v.m_local_shift.y + d.y| ≤ (v.m_nGridNum_h : Int))
    (hz : |v.m_local_shift.z + d.z| ≤ (v.m_nGridNum_d : Int)) :
    ((∃ v1, v.UpdateLocalAndGlobalShift d = some v1) ↔
      (|wrapGlobalAxis v.m_nGridNum_w (v.m_local_shift.x + d.x) v.m_global_shift.x| ≤ 99999 ∧
       |wrapGlobalAxis v.m_nGridNum_h (v.m_local_shift.y + d.y) v.m_global_shift.y| ≤ 99999 ∧
       |wrapGlobalAxis v.m_nGridNum_d (v.m_local_shift.z + d.z) v.m_global_shift.z| ≤ 99999)) ∧
    (∀ v1, v.UpdateLocalAndGlobalShift d = some v1 →
      v1.m_global_shift.x * v1.m_nGridNum_w + v1.m_local_shift.x =
        v.m_global_shift.x * v.m_nGridNum_w + (v.m_local_shift.x + d.x) ∧
      v1.m_global_shift.y * v1.m_nGridNum_h + v1.m_local_shift.y =
        v.m_global_shift.y * v.m_nGridNum_h + (v.m_local_shift.y + d.y) ∧
      v1.m_global_shift.z * v1.m_nGridNum_d + v1.m_local_shift.z =
        v.m_global_shift.z * v.m_nGridNum_d + (v.m_local_shift.z + d.z) ∧
      |v1.m_global_shift.x| ≤ 99999 ∧ |v1.m_global_shift.y| ≤ 99999 ∧
      |v1.m_global_shift.z| ≤ 99999) := by
  obtain ⟨sx, sy, sz⟩ := hs
  have hw : 1 ≤ v.m_nGridNum_w := by
    have := abs_nonneg v.m_local_shift.x
    omega
  have hh : 1 ≤ v.m_nGridNum_h := by
    have := abs_nonneg v.m_local_shift.y
    omega
  have hd : 1 ≤ v.m_nGridNum_d := by
    have := abs_nonneg v.m_local_shift.z
    omega
  have hl := not_localShiftOverflow v d hw hh hd
  obtain ⟨_, c2, c3⟩ := update_by_checks v d
  have hiff : v.globalShiftOverflow d ↔
      ¬ (|wrapGlobalAxis v.m_nGridNum_w (v.m_local_shift.x + d.x) v.m_global_shift.x| ≤ 99999 ∧
       |wrapGlobalAxis v.m_nGridNum_h (v.m_local_shift.y + d.y) v.m_global_shift.y| ≤ 99999 ∧
       |wrapGlobalAxis v.m_nGridNum_d (v.m_local_shift.z + d.z) v.m_global_shift.z| ≤ 99999) := by
    unfold globalShiftOverflow
    show (_ > (99999 : Int) ∨ _ > (99999 : Int) ∨ _ > (99999 : Int)) ↔ _
    constructor
    · intro h hb
      rcases h with h | h | h
      · exact absurd hb.1 (not_le.mpr h)
      · exact absurd hb.2.1 (not_le.mpr h)
      · exact absurd hb.2.2 (not_le.mpr h)
    · intro h
      by_contra hn
      push_neg at hn
      exact h ⟨hn.1, hn.2.1, hn.2.2⟩
  have hret : (∃ v1, v.UpdateLocalAndGlobalShift d = some v1) ↔ ¬ v.globalShiftOverflow d := by
    constructor
    · rintro ⟨v1, e⟩ hg
      rw [c2 hg] at e
      exact Option.noConfusion e
    · exact c3 hl
  refine ⟨?_, ?_⟩
  · rw [hret, hiff, not_not]
  · intro v1 h1
    have hb := (hiff.not.mp (hret.mp ⟨v1, h1⟩))
    rw [not_not] at hb
    have e1 := UpdateLocalAndGlobalShift_eq_some v v1 d h1
    rw [e1]
    exact ⟨wrap_keeps_position _ _ _ hx, wrap_keeps_position _ _ _ hy,
      wrap_keeps_position _ _ _ hz, hb.1, hb.2.1, hb.2.2⟩

/-- C24, amended, on the fresh `2 × 3 × 2` volume with the delta `(2, 0, 0)`: the
resulting global shift `(1, 0, 0)` is within the range and the call returns. -/
theorem UpdateLocalAndGlobalShift_global_bound_witness :
    freshVolume.ValidShift ∧
    (|freshVolume.m_local_shift.x + 2| ≤ (freshVolume.m_nGridNum_w : Int) ∧
      |freshVolume.m_local_shift.y + 0| ≤ (freshVolume.m_nGridNum_h : Int) ∧
      |freshVolume.m_local_shift.z + 0| ≤ (freshVolume.m_nGridNum_d : Int)) ∧
    ∃ v1, freshVolume.UpdateLocalAndGlobalShift ⟨2, 0, 0⟩ = some v1 :=
  ⟨by decide, by decide,
    (UpdateLocalAndGlobalShift_global_bound freshVolume (by decide) ⟨2, 0, 0⟩
      (by decide) (by decide) (by decide)).1.mpr (by decide)⟩

/-! ## Extents after `Init`, world box of a window, mesh assembly -/

/-- `Init(10, 12, 8, 4, unitBox)` on the sample volume returns `raggedVolume`. -/
theorem Init_raggedVolume : sampleVolume.Init 10 12 8 4 unitBox = some raggedVolume := by
  unfold Init
  simp only []
  rw [if_neg (by decide), ResetAllGridVol_eq]
  have hp : zeroedPool sampleVolume.m_GridVolumes MAX_SUPPORT_GRID_NUM =
      sampleVolume.m_GridVolumes := by
    funext j
    unfold zeroedPool
    split_ifs <;> rfl
  simp only [hp]
  rfl

/-- C25, as stated, fails: `Init(10, 12, 8, 4, unitBox)` returns normally with
`R = 4`, stores the extent `W = 10` and `Nx = 10 / 4 = 2` cells, so
`Nx * R = 8 ≠ W`. -/
theorem Init_keeps_ragged_extent :
    sampleVolume.Init 10 12 8 4 unitBox = some raggedVolume ∧
    raggedVolume.m_nVolumeGridRes = 4 ∧ raggedVolume.m_w = 10 ∧
    raggedVolume.m_nGridNum_w * raggedVolume.m_nVolumeGridRes = 8 ∧
    (raggedVolume.m_w, raggedVolume.m_h, raggedVolume.m_d) ≠
      (raggedVolume.m_nGridNum_w * raggedVolume.m_nVolumeGridRes,
       raggedVolume.m_nGridNum_h * raggedVolume.m_nVolumeGridRes,
       raggedVolume.m_nGridNum_d * raggedVolume.m_nVolumeGridRes) :=
  ⟨Init_raggedVolume, by decide, by decide, by decide, by decide⟩

/-- C25, amended: after every `Init` that returns normally with `R ≥ 1` (the
extents being `unsigned int` values), the stored extent is the input extent and
the cell counts are the integer quotients `Nx = W / R`, `Ny = H / R`,
`Nz = D / R`, so that `Nx * R ≤ W < (Nx + 1) * R` on each axis, and
`(W, H, D) = (Nx * R, Ny * R, Nz * R)` holds if and only if every input extent is
a multiple of `R`; `Init` does not reject an extent that is not a multiple of the
cell resolution. -/
theorem Init_extent_and_cell_counts (prev v0 : BoundedVolumeGrid T)
    (n_w n_h n_d n_res : Nat) (r_bbox : BoundingBox) (hR : 1 ≤ n_res)
    (hw : n_w < UINT_RANGE) (hh : n_h < UINT_RANGE) (hd : n_d < UINT_RANGE)
    (hinit : prev.Init n_w n_h n_d n_res r_bbox = some v0) :
    (v0.m_w = n_w ∧ v0.m_h = n_h ∧ v0.m_d = n_d ∧ v0.m_nVolumeGridRes = n_res) ∧
    (v0.m_nGridNum_w = n_w / n_res ∧ v0.m_nGridNum_h = n_h / n_res ∧
      v0.m_nGridNum_d = n_d / n_res) ∧
    (v0.m_nGridNum_w * v0.m_nVolumeGridRes ≤ v0.m_w ∧
      v0.m_w < (v0.m_nGridNum_w + 1) * v0.m_nVolumeGridRes) ∧
    (v0.m_nGridNum_h * v0.m_nVolumeGridRes ≤ v0.m_h ∧
      v0.m_h < (v0.m_nGridNum_h + 1) * v0.m_nVolumeGridRes) ∧
    (v0.m_nGridNum_d * v0.m_nVolumeGridRes ≤ v0.m_d ∧
      v0.m_d < (v0.m_nGridNum_d + 1) * v0.m_nVolumeGridRes) ∧
    ((v0.m_w, v0.m_h, v0.m_d) =
        (v0.m_nGridNum_w * v0.m_nVolumeGridRes, v0.m_nGridNum_h * v0.m_nVolumeGridRes,
         v0.m_nGridNum_d * v0.m_nVolumeGridRes) ↔
      (n_w % n_res = 0 ∧ n_h % n_res = 0 ∧ n_d % n_res = 0)) := by
  obtain ⟨_, e⟩ := Init_eq_some prev v0 n_w n_h n_d n_res r_bbox hinit
  have q : ∀ n, n < UINT_RANGE → n / n_res % UINT_RANGE = n / n_res := by
    intro n hn
    exact Nat.mod_eq_of_lt (lt_of_le_of_lt (Nat.div_le_self n n_res) hn)
  have b : ∀ n, n / n_res * n_res ≤ n ∧ n < (n / n_res + 1) * n_res ∧
      (n = n / n_res * n_res ↔ n % n_res = 0) := by
    intro n
    have h1 := Nat.div_add_mod n n_res
    have h2 := Nat.mod_lt n (show 0 < n_res by omega)
    have h3 : n_res * (n / n_res) = n / n_res * n_res := Nat.mul_comm _ _
    have h4 : (n / n_res + 1) * n_res = n / n_res * n_res + n_res := by ring
    refine ⟨by omega, by omega, by omega⟩
  rw [e]
  simp only [q n_w hw, q n_h hh, q n_d hd, Prod.mk.injEq]
  refine ⟨⟨?_, ?_, ?_, ?_⟩, ⟨?_, ?_, ?_⟩, ⟨(b n_w).1, (b n_w).2.1⟩,
    ⟨(b n_h).1, (b n_h).2.1⟩, ⟨(b n_d).1, (b n_d).2.1⟩, ?_⟩
  any_goals trivial
  rw [(b n_w).2.2, (b n_h).2.2, (b n_d).2.2]

/-- C25, amended, on `Init(8, 12, 8, 4, unitBox)`: every extent is a multiple of
4 and `(W, H, D) = (2 * 4, 3 * 4, 2 * 4)`. -/
theorem Init_extent_and_cell_counts_witness :
    ((1 ≤ 4 ∧ 8 < UINT_RANGE ∧ 12 < UINT_RANGE) ∧
      sampleVolume.Init 8 12 8 4 unitBox = some freshVolume) ∧
    (freshVolume.m_w, freshVolume.m_h, freshVolume.m_d) =
      (freshVolume.m_nGridNum_w * freshVolume.m_nVolumeGridRes,
       freshVolume.m_nGridNum_h * freshVolume.m_nVolumeGridRes,
       freshVolume.m_nGridNum_d * freshVolume.m_nVolumeGridRes) :=
  ⟨⟨by decide, Init_sampleVolume⟩,
    (Init_extent_and_cell_counts sampleVolume freshVolume 8 12 8 4 unitBox (by decide)
      (by decide) (by decide) (by decide) Init_sampleVolume).2.2.2.2.2.mpr (by decide)⟩

/-- C21: for every volume state with `Nx, Ny, Nz ≥ 1` and every requested global
index `G`, `GetDesireBB(G)` is the base bounding box translated on each axis by
`Size.axis * ((G.axis - global_shift.axis) - local_shift.axis / N_axis)`
(`windowOffset`); its size is the size of the base box; for `G = global_shift`
and a zero local shift it is the base box; it depends on the volume only
through the base box, the two shifts and the cell counts of the formula (two
volumes, of any sample type, that agree on them return the same box); and the
three divisors of the formula are positive. -/
theorem GetDesireBB_translation (v : BoundedVolumeGrid T) (G : int3)
    (hw : 1 ≤ v.m_nGridNum_w) (hh : 1 ≤ v.m_nGridNum_h) (hd : 1 ≤ v.m_nGridNum_d) :
    v.GetDesireBB G = translateBox v.m_bbox
      ⟨windowOffset v.m_bbox.Size.x G.x v.m_global_shift.x v.m_local_shift.x v.m_nGridNum_w,
       windowOffset v.m_bbox.Size.y G.y v.m_global_shift.y v.m_local_shift.y v.m_nGridNum_h,
       windowOffset v.m_bbox.Size.z G.z v.m_global_shift.z v.m_local_shift.z v.m_nGridNum_d⟩ ∧
    (v.GetDesireBB G).Size = v.m_bbox.Size ∧
    (v.m_local_shift = ⟨0, 0, 0⟩ → v.GetDesireBB v.m_global_shift = v.m_bbox) ∧
    (∀ (U : Type) (w : BoundedVolumeGrid U), w.m_bbox = v.m_bbox →
      w.m_local_shift = v.m_local_shift → w.m_global_shift = v.m_global_shift →
      w.m_nGridNum_w = v.m_nGridNum_w → w.m_nGridNum_h = v.m_nGridNum_h →
      w.m_nGridNum_d = v.m_nGridNum_d → w.GetDesireBB G = v.GetDesireBB G) ∧
    ((0 : ℚ) < v.m_nGridNum_w ∧ (0 : ℚ) < v.m_nGridNum_h ∧ (0 : ℚ) < v.m_nGridNum_d) := by
  refine ⟨?_, ?_, ?_, ?_, ⟨by exact_mod_cast hw, by exact_mod_cast hh, by exact_mod_cast hd⟩⟩
  · unfold GetDesireBB translateBox windowOffset
    simp only [BoundingBox.mk.injEq, float3.mk.injEq]
    push_cast
    refine ⟨⟨?_, ?_, ?_⟩, ⟨?_, ?_, ?_⟩⟩ <;> ring
  · unfold GetDesireBB BoundingBox.Size
    simp only [float3.mk.injEq]
    refine ⟨?_, ?_, ?_⟩ <;> ring
  · intro h0
    unfold GetDesireBB
    rw [h0]
    simp only [sub_self, Int.cast_zero, mul_zero, zero_div, sub_zero, add_zero]
  · intro U w hb hl hg a b c
    unfold GetDesireBB
    rw [hb, hl, hg, a, b, c]

/-- C21 on the `2 × 3 × 2` volume over `[0,2] × [0,3] × [0,2]` with local shift
`(1, -2, 0)` and global shift `(1, -1, 0)`: the window of global index
`(2, 0, 0)` is the base box moved by `(1, 5, 0)`. -/
theorem GetDesireBB_translation_witness :
    (1 ≤ movedVolume.m_nGridNum_w ∧ 1 ≤ movedVolume.m_nGridNum_h ∧
      1 ≤ movedVolume.m_nGridNum_d) ∧
    movedVolume.GetDesireBB ⟨2, 0, 0⟩ = ⟨⟨1, 5, 0⟩, ⟨3, 8, 2⟩⟩ :=
  ⟨by decide,
    (GetDesireBB_translation movedVolume ⟨2, 0, 0⟩ (by decide) (by decide) (by decide)).1.trans
      (by
        simp only [translateBox, windowOffset, movedVolume, freshVolume, sampleVolume,
          BoundingBox.Size, BoundingBox.mk.injEq, float3.mk.injEq]
        norm_num)⟩

/-- The copy loop reproduces the list it reads. -/
theorem copyArray_eq {α : Type} (xs : List α) : copyArray xs = xs := by
  have h : ∀ n, n ≤ xs.length →
      forLoop n (fun i out => match xs.get? i with
        | some a => out ++ [a]
        | none => out) ([] : List α) = xs.take n := by
    intro n
    induction n with
    | zero => intro _; rfl
    | succ k ih =>
      intro hk
      have hk1 : k < xs.length := by omega
      show (match xs.get? k with
        | some a => _ ++ [a]
        | none => _) = _
      rw [ih (by omega), List.get?_eq_get hk1]
      simp only []
      rw [List.take_succ, List.getElem?_eq_getElem hk1]
      rfl
  exact (h xs.length le_rfl).trans (List.take_length xs)

/-- C22: for all input lists, `MeshFromLists` returns a mesh whose vertex list and
face list are the inputs, element by element and in order, with
`mNumVertices = verts.size()` and `mNumFaces = faces.size()`; the colour list is
attached (and is the input list) if and only if `colors.size() = verts.size()`,
and the normal list is attached (and is the input list) if and only if
`norms.size() = verts.size()`, being null otherwise. -/
theorem MeshFromLists_spec (verts norms : List float3) (faces : List aiFace)
    (colors : List aiColor4D) :
    (MeshFromLists verts norms faces colors).mVertices = some verts ∧
    (MeshFromLists verts norms faces colors).mNumVertices = verts.length ∧
    (MeshFromLists verts norms faces colors).mFaces = some faces ∧
    (MeshFromLists verts norms faces colors).mNumFaces = faces.length ∧
    (MeshFromLists verts norms faces colors).mColors =
      (if colors.length = verts.length then some colors else none) ∧
    (MeshFromLists verts norms faces colors).mNormals =
      (if norms.length = verts.length then some norms else none) ∧
    (MeshFromLists verts norms faces colors).mPrimitiveTypes = aiPrimitiveType_TRIANGLE := by
  unfold MeshFromLists
  simp only [copyArray_eq]
  by_cases hc : colors.length = verts.length <;> by_cases hn : norms.length = verts.length
  · rw [if_pos hc, if_pos hn, if_pos hc, if_pos hn]
    exact ⟨rfl, rfl, rfl, rfl, rfl, rfl, rfl⟩
  · rw [if_pos hc, if_neg hn, if_pos hc, if_neg hn]
    exact ⟨rfl, rfl, rfl, rfl, rfl, rfl, rfl⟩
  · rw [if_neg hc, if_pos hn, if_neg hc, if_pos hn]
    exact ⟨rfl, rfl, rfl, rfl, rfl, rfl, rfl⟩
  · rw [if_neg hc, if_neg hn, if_neg hc, if_neg hn]
    exact ⟨rfl, rfl, rfl, rfl, rfl, rfl, rfl⟩

/-! ## The states of a cell -/

/-- A counting loop keeps what its body keeps. -/
theorem forLoop_keeps {σ : Type} (P : σ → Prop) (body : Nat → σ → σ)
    (hbody : ∀ i s, P s → P (body i s)) (n : Nat) (s : σ) (hs : P s) :
    P (forLoop n body s) := by
  induction n with
  | zero => exact hs
  | succ k ih => exact hbody k _ ih

/-- A counting loop that may leave the program keeps what its body keeps. -/
theorem forLoopM_keeps {σ : Type} (P : σ → Prop) (body : Nat → σ → Option σ)
    (hbody : ∀ i s s1, P s → body i s = some s1 → P s1) (n : Nat) (s : σ) (hs : P s) :
    ∀ s1, forLoopM n body s = some s1 → P s1 := by
  induction n with
  | zero =>
    intro s1 h
    have e : s = s1 := Option.some.inj h
    rw [← e]; exact hs
  | succ k ih =>
    intro s1 h
    change (forLoopM k body s).bind (body k) = some s1 at h
    cases hk : forLoopM k body s with
    | none => rw [hk] at h; exact Option.noConfusion h
    | some s0 =>
      rw [hk] at h
      exact hbody k s0 s1 (ih s0 hk) h

/-- What the lifecycle calls keep: the cell resolution `R`, and on slot `i` the
dimensions `(0, 0, 0)` or `(R, R, R)`. -/
theorem triState_write (v : BoundedVolumeGrid T) (R i n : Nat) (g : VolumeGrid T)
    (hv : v.m_nVolumeGridRes = R ∧ v.TriState i)
    (hg : (g.w = 0 ∧ g.h = 0 ∧ g.d = 0) ∨ (g.w = R ∧ g.h = R ∧ g.d = R) ∨
      (g.w = (v.m_GridVolumes n).w ∧ g.h = (v.m_GridVolumes n).h ∧
        g.d = (v.m_GridVolumes n).d)) :
    ({ v with m_GridVolumes := setSlot v.m_GridVolumes n g } : BoundedVolumeGrid T).m_nVolumeGridRes
        = R ∧
      ({ v with m_GridVolumes := setSlot v.m_GridVolumes n g } : BoundedVolumeGrid T).TriState i := by
  obtain ⟨hR, ht⟩ := hv
  refine ⟨hR, ?_⟩
  unfold TriState Unallocated at ht ⊢
  show (((setSlot v.m_GridVolumes n g) i).w = 0 ∧ ((setSlot v.m_GridVolumes n g) i).h = 0 ∧
      ((setSlot v.m_GridVolumes n g) i).d = 0) ∨
    (((setSlot v.m_GridVolumes n g) i).w = v.m_nVolumeGridRes ∧
      ((setSlot v.m_GridVolumes n g) i).h = v.m_nVolumeGridRes ∧
      ((setSlot v.m_GridVolumes n g) i).d = v.m_nVolumeGridRes)
  unfold setSlot
  by_cases hi : i = n
  · rw [if_pos hi]
    subst hi
    rcases hg with h | h | h
    · exact Or.inl h
    · rw [hR]; exact Or.inr h
    · rw [h.1, h.2.1, h.2.2]; exact ht
  · rw [if_neg hi]; exact ht

/-- `InitSingleBasicSDFWithIndex` keeps the states of the cells. -/
theorem triState_initSingle (v : BoundedVolumeGrid T) (R i n : Nat)
    (hv : v.m_nVolumeGridRes = R ∧ v.TriState i) :
    (v.InitSingleBasicSDFWithIndex n).2.m_nVolumeGridRes = R ∧
      (v.InitSingleBasicSDFWithIndex n).2.TriState i := by
  unfold InitSingleBasicSDFWithIndex
  split_ifs
  · exact triState_write v R i n _ hv (Or.inr (Or.inl ⟨hv.1, hv.1, hv.1⟩))
  · exact hv

/-- `InitSingleBasicSDFWithGridIndex` keeps the states of the cells. -/
theorem triState_initGrid (v : BoundedVolumeGrid T) (R i x y z : Nat)
    (hv : v.m_nVolumeGridRes = R ∧ v.TriState i) :
    (v.InitSingleBasicSDFWithGridIndex x y z).m_nVolumeGridRes = R ∧
      (v.InitSingleBasicSDFWithGridIndex x y z).TriState i := by
  unfold InitSingleBasicSDFWithGridIndex
  simp only []
  split_ifs
  · exact triState_write v R i _ _ hv (Or.inr (Or.inl ⟨hv.1, hv.1, hv.1⟩))
  · exact hv

/-- Every call keeps the cell resolution and, on every slot, the dimensions
`(0, 0, 0)` or `(R, R, R)`. -/
theorem triState_applyOp (R i : Nat) (op : VolumeOp T) (v v1 : BoundedVolumeGrid T)
    (hv : v.m_nVolumeGridRes = R ∧ v.TriState i) (h : v.applyOp op = some v1) :
    v1.m_nVolumeGridRes = R ∧ v1.TriState i := by
  cases op with
  | resetAllGridVol =>
    have e : v.ResetAllGridVol = v1 := Option.some.inj h
    rw [← e, ResetAllGridVol_eq]
    refine ⟨hv.1, ?_⟩
    unfold TriState Unallocated zeroedPool
    simp only []
    by_cases hi : i < MAX_SUPPORT_GRID_NUM
    · rw [if_pos hi]; exact Or.inl ⟨rfl, rfl, rfl⟩
    · rw [if_neg hi]; exact hv.2
  | initSingleBasicSDFWithIndex n =>
    have e : (v.InitSingleBasicSDFWithIndex n).2 = v1 := Option.some.inj h
    rw [← e]
    exact triState_initSingle v R i n hv
  | initSingleBasicSDFWithGridIndex x y z =>
    have e : v.InitSingleBasicSDFWithGridIndex x y z = v1 := Option.some.inj h
    rw [← e]
    exact triState_initGrid v R i x y z hv
  | initAllBasicSDFs =>
    have e : v.InitAllBasicSDFs = v1 := Option.some.inj h
    rw [← e]
    unfold InitAllBasicSDFs
    apply forLoop_keeps (fun s : BoundedVolumeGrid T => s.m_nVolumeGridRes = R ∧ s.TriState i)
      _ _ _ _ hv
    intro a s hs
    apply forLoop_keeps (fun s : BoundedVolumeGrid T => s.m_nVolumeGridRes = R ∧ s.TriState i)
      _ _ _ _ hs
    intro b s1 hs1
    apply forLoop_keeps (fun s : BoundedVolumeGrid T => s.m_nVolumeGridRes = R ∧ s.TriState i)
      _ _ _ _ hs1
    intro c s2 hs2
    exact triState_initGrid s2 R i a b c hs2
  | freeMemory =>
    have e : v.FreeMemory = v1 := Option.some.inj h
    rw [← e]
    unfold FreeMemory
    apply forLoop_keeps (fun s : BoundedVolumeGrid T => s.m_nVolumeGridRes = R ∧ s.TriState i)
      _ _ _ _ hv
    intro a s hs
    simp only []
    split_ifs
    · exact triState_write s R i a _ hs (Or.inl ⟨rfl, rfl, rfl⟩)
    · exact hs
  | freeMemoryByIndex n =>
    change v.FreeMemoryByIndex n = some v1 at h
    unfold FreeMemoryByIndex at h
    split_ifs at h
    have e := Option.some.inj h
    rw [← e]
    exact triState_write v R i n _ hv (Or.inr (Or.inr ⟨rfl, rfl, rfl⟩))
  | copyAndInitFrom rVol =>
    change v.CopyAndInitFrom rVol = some v1 at h
    unfold CopyAndInitFrom at h
    refine forLoopM_keeps
      (fun s : BoundedVolumeGrid T => s.m_nVolumeGridRes = R ∧ s.TriState i)
      (copyAndInitSlot rVol) ?_ _ v hv v1 h
    intro a s s1 hs hstep
    obtain ⟨eR, _, hframe, hact, hskip⟩ := copyAndInitSlot_some rVol s s1 a hstep
    refine ⟨eR.trans hs.1, ?_⟩
    by_cases hsrc : rVol.CheckIfBasicSDFActive a = true
    · by_cases hi : i = a
      · subst hi
        exact Or.inr ((check_true_iff s1 i).mp (hact hsrc))
      · have hk := hs.2
        unfold TriState at hk ⊢
        rw [hframe i hi, eR]
        exact hk
    · have hf : rVol.CheckIfBasicSDFActive a = false := by
        cases hb : rVol.CheckIfBasicSDFActive a with
        | true => exact absurd hb hsrc
        | false => rfl
      rw [hskip hf]
      exact hs.2
  | updateLocalAndGlobalShift d =>
    change v.UpdateLocalAndGlobalShift d = some v1 at h
    have e := UpdateLocalAndGlobalShift_eq_some v v1 d h
    rw [e]
    exact hv

/-- A sequence of calls keeps the cell resolution and, on every slot, the
dimensions `(0, 0, 0)` or `(R, R, R)`. -/
theorem triState_runOps (R i : Nat) (ops : List (VolumeOp T)) :
    ∀ (v v1 : BoundedVolumeGrid T), (v.m_nVolumeGridRes = R ∧ v.TriState i) →
      v.runOps ops = some v1 → v1.m_nVolumeGridRes = R ∧ v1.TriState i := by
  induction ops with
  | nil =>
    intro v v1 hv h
    have e : v = v1 := Option.some.inj h
    rw [← e]; exact hv
  | cons op rest ih =>
    intro v v1 hv h
    change (v.applyOp op).bind (fun s => runOps s rest) = some v1 at h
    cases hk : v.applyOp op with
    | none => rw [hk] at h; exact Option.noConfusion h
    | some s0 =>
      rw [hk] at h
      exact ih s0 v1 (triState_applyOp R i op v s0 hv hk) h

/-- C26: after `Init` with `R ≥ 1` and after any sequence of `ResetAllGridVol`,
`InitSingleBasicSDFWithIndex`, `InitSingleBasicSDFWithGridIndex`,
`InitAllBasicSDFs`, `FreeMemory`, `FreeMemoryByIndex`, `CopyAndInitFrom` and
`UpdateLocalAndGlobalShift` calls (in the state any run of returning calls
reaches), the cell resolution is still `R` and the dimensions of every slot of
the pool are `(0, 0, 0)` or `(R, R, R)`, never both; no slot has only some
dimensions equal to `R`. -/
theorem cell_tri_state_invariant (prev v0 v : BoundedVolumeGrid T)
    (n_w n_h n_d n_res : Nat) (r_bbox : BoundingBox) (hR : 1 ≤ n_res)
    (hinit : prev.Init n_w n_h n_d n_res r_bbox = some v0)
    (ops : List (VolumeOp T)) (hrun : v0.runOps ops = some v) :
    v.m_nVolumeGridRes = n_res ∧
    ∀ i, i < MAX_SUPPORT_GRID_NUM →
      (((v.m_GridVolumes i).w = 0 ∧ (v.m_GridVolumes i).h = 0 ∧ (v.m_GridVolumes i).d = 0) ∨
        ((v.m_GridVolumes i).w = n_res ∧ (v.m_GridVolumes i).h = n_res ∧
          (v.m_GridVolumes i).d = n_res)) ∧
      ¬ ((v.m_GridVolumes i).w = 0 ∧ (v.m_GridVolumes i).w = n_res) ∧
      (((v.m_GridVolumes i).w = n_res ↔ (v.m_GridVolumes i).h = n_res) ∧
        ((v.m_GridVolumes i).h = n_res ↔ (v.m_GridVolumes i).d = n_res)) := by
  obtain ⟨_, e⟩ := Init_eq_some prev v0 n_w n_h n_d n_res r_bbox hinit
  have h0 : ∀ i, i < MAX_SUPPORT_GRID_NUM → (v0.m_nVolumeGridRes = n_res ∧ v0.TriState i) := by
    intro i hi
    rw [e]
    refine ⟨rfl, Or.inl ?_⟩
    unfold Unallocated zeroedPool
    simp only []
    rw [if_pos hi]
    exact ⟨rfl, rfl, rfl⟩
  have hres : v.m_nVolumeGridRes = n_res :=
    (triState_runOps n_res 0 ops v0 v (h0 0 (by decide)) hrun).1
  refine ⟨hres, fun i hi => ?_⟩
  have ht := (triState_runOps n_res i ops v0 v (h0 i hi) hrun).2
  unfold TriState Unallocated at ht
  rw [hres] at ht
  refine ⟨ht, fun hb => by omega, ?_⟩
  rcases ht with ⟨a, b, c⟩ | ⟨a, b, c⟩
  · rw [a, b, c]
    exact ⟨⟨fun h => h, fun h => h⟩, ⟨fun h => h, fun h => h⟩⟩
  · rw [a, b, c]
    exact ⟨⟨fun h => h, fun h => h⟩, ⟨fun h => h, fun h => h⟩⟩

/-- C26 on the sample: after `Init(8, 12, 8, 4, unitBox)`, allocating two cells,
a shift, `FreeMemoryByIndex(0)` and `FreeMemory`, slot 0 has the dimensions
`(0, 0, 0)` or `(4, 4, 4)`. -/
theorem cell_tri_state_invariant_witness :
    ((1 ≤ 4 ∧ sampleVolume.Init 8 12 8 4 unitBox = some freshVolume) ∧
      freshVolume.runOps
        [VolumeOp.initSingleBasicSDFWithIndex 0,
         VolumeOp.initSingleBasicSDFWithGridIndex 4 0 0,
         VolumeOp.updateLocalAndGlobalShift ⟨1, 0, 0⟩, VolumeOp.freeMemoryByIndex 0,
         VolumeOp.freeMemory] = some cycledVolume) ∧
    (((cycledVolume.m_GridVolumes 0).w = 0 ∧ (cycledVolume.m_GridVolumes 0).h = 0 ∧
        (cycledVolume.m_GridVolumes 0).d = 0) ∨
      ((cycledVolume.m_GridVolumes 0).w = 4 ∧ (cycledVolume.m_GridVolumes 0).h = 4 ∧
        (cycledVolume.m_GridVolumes 0).d = 4)) :=
  ⟨⟨⟨by decide, Init_sampleVolume⟩, by rfl⟩,
    ((cell_tri_state_invariant sampleVolume freshVolume cycledVolume 8 12 8 4 unitBox
      (by decide) Init_sampleVolume
      [VolumeOp.initSingleBasicSDFWithIndex 0, VolumeOp.initSingleBasicSDFWithGridIndex 4 0 0,
       VolumeOp.updateLocalAndGlobalShift ⟨1, 0, 0⟩, VolumeOp.freeMemoryByIndex 0,
       VolumeOp.freeMemory] (by rfl)).2 0 (by decide)).1⟩

/-! ## What a `vMarchCube` call appends -/

/-- Closed form of one triangle of the loop: three positions, three normals, the
face of the three new indices, and three colours when the colour volume is
valid. -/
theorem emitTriangle_eq (t : MarchingCubesTables) (volColor : ColorVolume)
    (ev en : Nat → float3) (m k : Nat) (buf : MeshBuffers) :
    emitTriangle t volColor ev en m k buf =
      ⟨buf.verts ++ [ev (t.a2iTriangleConnectionTable m (3 * k + 0)).toNat,
          ev (t.a2iTriangleConnectionTable m (3 * k + 1)).toNat,
          ev (t.a2iTriangleConnectionTable m (3 * k + 2)).toNat],
       buf.norms ++ [en (t.a2iTriangleConnectionTable m (3 * k + 0)).toNat,
          en (t.a2iTriangleConnectionTable m (3 * k + 1)).toNat,
          en (t.a2iTriangleConnectionTable m (3 * k + 2)).toNat],
       buf.faces ++ [faceAt buf.verts.length],
       buf.colors ++ (if volColor.IsValid = true then
          [ev (t.a2iTriangleConnectionTable m (3 * k + 0)).toNat,
           ev (t.a2iTriangleConnectionTable m (3 * k + 1)).toNat,
           ev (t.a2iTriangleConnectionTable m (3 * k + 2)).toNat].map
            (fun p => ⟨(volColor.GetUnitsTrilinearClamped p).x,
              (volColor.GetUnitsTrilinearClamped p).y,
              (volColor.GetUnitsTrilinearClamped p).z, 1⟩)
        else [])⟩ := by
  unfold emitTriangle
  simp only [forLoop, emitCorner, faceAt, List.length_append, List.length_singleton,
    List.append_assoc, List.singleton_append, List.nil_append, List.map_cons, List.map_nil]
  cases volColor.IsValid <;> simp

/-- Extending by nothing changes nothing. -/
theorem extend_empty (a : MeshBuffers) : a.extend emptyBuffers = a := by
  unfold MeshBuffers.extend emptyBuffers
  simp

/-- Raising the indices of a face twice. -/
theorem shift_shift (a b : Nat) (f : aiFace) :
    aiFace.shift a (aiFace.shift b f) = aiFace.shift (a + b) f := by
  unfold aiFace.shift
  simp only [List.map_map, aiFace.mk.injEq]
  apply List.map_congr_left
  intro i _
  simp only [Function.comp]
  omega

/-- Extending is associative. -/
theorem extend_assoc (a b c : MeshBuffers) :
    (a.extend b).extend c = a.extend (b.extend c) := by
  unfold MeshBuffers.extend
  simp only [List.append_assoc, List.map_append, List.map_map, List.length_append,
    MeshBuffers.mk.injEq, true_and, and_true, List.append_cancel_left_eq]
  apply List.map_congr_left
  intro f _
  exact (shift_shift _ _ f).symm

/-- What one triangle appends does not depend on the buffers: it is what it
appends to empty buffers, with the face index raised. -/
theorem emitTriangle_extend (t : MarchingCubesTables) (volColor : ColorVolume)
    (ev en : Nat → float3) (m k : Nat) (buf : MeshBuffers) :
    emitTriangle t volColor ev en m k buf =
      buf.extend (emitTriangle t volColor ev en m k emptyBuffers) := by
  rw [emitTriangle_eq, emitTriangle_eq]
  unfold MeshBuffers.extend emptyBuffers faceAt aiFace.shift
  simp

/-- What the triangle loop appends does not depend on the buffers. -/
theorem emitTriangles_extend (t : MarchingCubesTables) (volColor : ColorVolume)
    (ev en : Nat → float3) (m : Nat) (n : Nat) :
    ∀ (k : Nat) (buf : MeshBuffers),
      emitTriangles t volColor ev en m n k buf =
        buf.extend (emitTriangles t volColor ev en m n k emptyBuffers) := by
  induction n with
  | zero =>
    intro k buf
    exact (extend_empty buf).symm
  | succ n ih =>
    intro k buf
    unfold emitTriangles
    by_cases h : t.a2iTriangleConnectionTable m (3 * k) < 0
    · rw [if_pos h, if_pos h]
      exact (extend_empty buf).symm
    · rw [if_neg h, if_neg h, ih (k + 1) (emitTriangle t volColor ev en m k buf),
        ih (k + 1) (emitTriangle t volColor ev en m k emptyBuffers),
        emitTriangle_extend t volColor ev en m k buf, extend_assoc]

/-- What a `vMarchCube` call appends does not depend on the buffers: it is what
the same call appends to empty buffers, with the face indices raised by the
number of vertices the buffers held. -/
theorem marchCall_extend (t : MarchingCubesTables) (length : float3 → FloatValue)
    (c : CubeCall) (buf : MeshBuffers) :
    marchCall t length c buf = buf.extend (marchCall t length c emptyBuffers) := by
  unfold marchCall vMarchCube
  simp only []
  split_ifs
  · exact (extend_empty buf).symm
  · exact (extend_empty buf).symm
  · exact emitTriangles_extend _ _ _ _ _ _ _ _

/-- The triangle loop appends `c ≤ n` triangles: `3c` positions, `3c` normals,
`3c` colours or none, and the faces of the new indices, three by three. -/
theorem emitTriangles_shape (t : MarchingCubesTables) (volColor : ColorVolume)
    (ev en : Nat → float3) (m : Nat) (n : Nat) :
    ∀ (k : Nat) (buf : MeshBuffers), ∃ c, c ≤ n ∧
      (emitTriangles t volColor ev en m n k buf).verts.length = buf.verts.length + 3 * c ∧
      (emitTriangles t volColor ev en m n k buf).norms.length = buf.norms.length + 3 * c ∧
      (emitTriangles t volColor ev en m n k buf).colors.length =
        buf.colors.length + (if volColor.IsValid = true then 3 * c else 0) ∧
      (emitTriangles t volColor ev en m n k buf).faces =
        buf.faces ++ (List.range c).map (fun j => faceAt (buf.verts.length + 3 * j)) := by
  induction n with
  | zero =>
    intro k buf
    refine ⟨0, le_rfl, rfl, rfl, ?_, ?_⟩
    · simp [emitTriangles]
    · simp [emitTriangles]
  | succ n ih =>
    intro k buf
    unfold emitTriangles
    by_cases h : t.a2iTriangleConnectionTable m (3 * k) < 0
    · rw [if_pos h]
      refine ⟨0, Nat.zero_le _, rfl, rfl, ?_, ?_⟩
      · simp
      · simp
    · rw [if_neg h]
      obtain ⟨c, hc, hv, hn, hcol, hf⟩ := ih (k + 1) (emitTriangle t volColor ev en m k buf)
      obtain ⟨sv, sn, sf, sc⟩ := emitTriangle_sizes t volColor ev en m k buf
      have ef : (emitTriangle t volColor ev en m k buf).faces =
          buf.faces ++ [faceAt buf.verts.length] := by
        rw [emitTriangle_eq]
      refine ⟨c + 1, by omega, ?_, ?_, ?_, ?_⟩
      · rw [hv, sv]; ring
      · rw [hn, sn]; ring
      · rw [hcol, sc]
        split_ifs
        · ring
        · rfl
      · rw [hf, ef, sv, List.range_succ_eq_map, List.map_cons, List.map_map,
          List.append_assoc, List.singleton_append]
        congr 2
        apply List.map_congr_left
        intro j _
        simp only [Function.comp]
        congr 1
        omega

/-- A `vMarchCube` call leaves the buffers as they are or runs the triangle loop
on them. -/
theorem marchCall_cases (t : MarchingCubesTables) (length : float3 → FloatValue)
    (c : CubeCall) (buf : MeshBuffers) :
    marchCall t length c buf = buf ∨
      ∃ ev en m, marchCall t length c buf = emitTriangles t c.volColor ev en m 5 0 buf := by
  unfold marchCall vMarchCube
  simp only []
  split_ifs
  · exact Or.inl rfl
  · exact Or.inl rfl
  · exact Or.inr ⟨_, _, _, rfl⟩

/-- What one `vMarchCube` call appends: `k ≤ 5` triangles, that is `3k` positions,
`3k` normals, `3k` colours or none, and the faces of the new indices, three by
three. -/
theorem marchCall_shape (t : MarchingCubesTables) (length : float3 → FloatValue)
    (c : CubeCall) (buf : MeshBuffers) : ∃ k, k ≤ 5 ∧
      (marchCall t length c buf).verts.length = buf.verts.length + 3 * k ∧
      (marchCall t length c buf).norms.length = buf.norms.length + 3 * k ∧
      (marchCall t length c buf).colors.length =
        buf.colors.length + (if c.volColor.IsValid = true then 3 * k else 0) ∧
      (marchCall t length c buf).faces =
        buf.faces ++ (List.range k).map (fun j => faceAt (buf.verts.length + 3 * j)) := by
  rcases marchCall_cases t length c buf with h | ⟨ev, en, m, h⟩
  · rw [h]
    exact ⟨0, by omega, rfl, rfl, by simp, by simp⟩
  · rw [h]
    exact emitTriangles_shape t c.volColor ev en m 5 0 buf

/-- C28: for every cube, one `vMarchCube` call appends `k` faces, exactly `3k`
vertices and exactly `3k` normals for some `k` with `0 ≤ k ≤ 5`, and appends
either `3k` colours (when the colour volume is valid) or none; hence
`norms.size() = verts.size()` and `verts.size() = 3 * faces.size()` are preserved
by every call that starts from buffers satisfying them. -/
theorem vMarchCube_appends_triangles (t : MarchingCubesTables)
    (length : float3 → FloatValue) (vol : BoundedVolume) (volColor : ColorVolume)
    (x y z : Int) (buf : MeshBuffers) (fTargetValue : ℚ) :
    ∃ k, k ≤ 5 ∧ ∃ (vs ns : List float3) (fs : List aiFace) (cs : List aiColor4D),
      ((vMarchCube t length vol volColor x y z buf fTargetValue).verts = buf.verts ++ vs ∧
        vs.length = 3 * k) ∧
      ((vMarchCube t length vol volColor x y z buf fTargetValue).norms = buf.norms ++ ns ∧
        ns.length = 3 * k) ∧
      ((vMarchCube t length vol volColor x y z buf fTargetValue).faces = buf.faces ++ fs ∧
        fs.length = k) ∧
      ((vMarchCube t length vol volColor x y z buf fTargetValue).colors = buf.colors ++ cs ∧
        cs.length = (if volColor.IsValid = true then 3 * k else 0)) ∧
      (buf.norms.length = buf.verts.length →
        (vMarchCube t length vol volColor x y z buf fTargetValue).norms.length =
          (vMarchCube t length vol volColor x y z buf fTargetValue).verts.length) ∧
      (buf.verts.length = 3 * buf.faces.length →
        (vMarchCube t length vol volColor x y z buf fTargetValue).verts.length =
          3 * (vMarchCube t length vol volColor x y z buf fTargetValue).faces.length) := by
  have hshape : ∃ k, k ≤ 5 ∧
      (vMarchCube t length vol volColor x y z buf fTargetValue).verts.length =
        buf.verts.length + 3 * k ∧
      (vMarchCube t length vol volColor x y z buf fTargetValue).norms.length =
        buf.norms.length + 3 * k ∧
      (vMarchCube t length vol volColor x y z buf fTargetValue).colors.length =
        buf.colors.length + (if volColor.IsValid = true then 3 * k else 0) ∧
      (vMarchCube t length vol volColor x y z buf fTargetValue).faces =
        buf.faces ++ (List.range k).map (fun j => faceAt (buf.verts.length + 3 * j)) :=
    marchCall_shape t length ⟨vol, volColor, x, y, z, fTargetValue⟩ buf
  obtain ⟨k, hk, hv, hn, hc, hf⟩ := hshape
  have he : vMarchCube t length vol volColor x y z buf fTargetValue =
      buf.extend (vMarchCube t length vol volColor x y z emptyBuffers fTargetValue) :=
    marchCall_extend t length ⟨vol, volColor, x, y, z, fTargetValue⟩ buf
  have ev : (vMarchCube t length vol volColor x y z buf fTargetValue).verts =
      buf.verts ++ (vMarchCube t length vol volColor x y z emptyBuffers fTargetValue).verts :=
    congrArg MeshBuffers.verts he
  have en : (vMarchCube t length vol volColor x y z buf fTargetValue).norms =
      buf.norms ++ (vMarchCube t length vol volColor x y z emptyBuffers fTargetValue).norms :=
    congrArg MeshBuffers.norms he
  have ec : (vMarchCube t length vol volColor x y z buf fTargetValue).colors =
      buf.colors ++ (vMarchCube t length vol volColor x y z emptyBuffers fTargetValue).colors :=
    congrArg MeshBuffers.colors he
  have lv := congrArg List.length ev
  have ln := congrArg List.length en
  have lc := congrArg List.length ec
  rw [List.length_append] at lv ln lc
  have hfl := congrArg List.length hf
  rw [List.length_append, List.length_map, List.length_range] at hfl
  refine ⟨k, hk, _, _, _, _, ⟨ev, by omega⟩, ⟨en, by omega⟩,
    ⟨hf, by rw [List.length_map, List.length_range]⟩, ⟨ec, by omega⟩, fun h => ?_, fun h => ?_⟩
  · exact (hn.trans (by omega)).trans hv.symm
  · exact hv.trans (by omega)

/-- C28 on the sample: the cube at the origin of the sample field with target 0,
marched into empty buffers, leaves as many normals as positions and three
positions per face. -/
theorem vMarchCube_appends_triangles_witness :
    (emptyBuffers.norms.length = emptyBuffers.verts.length ∧
      emptyBuffers.verts.length = 3 * emptyBuffers.faces.length) ∧
    ∃ k, k ≤ 5 ∧
      (vMarchCube sampleTables noLength sampleField noColor 0 0 0 emptyBuffers 0).verts.length
        = 3 * k ∧
      (vMarchCube sampleTables noLength sampleField noColor 0 0 0 emptyBuffers 0).norms.length
        = 3 * k ∧
      (vMarchCube sampleTables noLength sampleField noColor 0 0 0 emptyBuffers 0).faces.length
        = k :=
  ⟨⟨rfl, rfl⟩,
    match vMarchCube_appends_triangles sampleTables noLength sampleField noColor 0 0 0
      emptyBuffers 0 with
    | ⟨k, hk, _, _, _, _, ⟨ev, lv⟩, ⟨en, ln⟩, ⟨ef, lf⟩, _, _, _⟩ =>
      ⟨k, hk, by rw [ev, List.length_append, lv]; exact Nat.zero_add _,
        by rw [en, List.length_append, ln]; exact Nat.zero_add _,
        by rw [ef, List.length_append, lf]; exact Nat.zero_add _⟩⟩

/-- The faces of buffers filled from empty buffers are the index triples
`(0,1,2), (3,4,5), …`, as many as a third of the positions. -/
theorem marchCalls_canonical (t : MarchingCubesTables) (length : float3 → FloatValue)
    (calls : List CubeCall) :
    ∀ (buf : MeshBuffers) (K : Nat),
      buf.faces = (List.range K).map (fun j => faceAt (3 * j)) → buf.verts.length = 3 * K →
      ∃ K1, (marchCalls t length calls buf).faces =
          (List.range K1).map (fun j => faceAt (3 * j)) ∧
        (marchCalls t length calls buf).verts.length = 3 * K1 := by
  induction calls with
  | nil =>
    intro buf K hf hv
    exact ⟨K, hf, hv⟩
  | cons c rest ih =>
    intro buf K hf hv
    obtain ⟨k, _, sv, _, _, sf⟩ := marchCall_shape t length c buf
    refine ih (marchCall t length c buf) (K + k) ?_ ?_
    · rw [sf, hf, hv, List.range_add, List.map_append, List.map_map]
      congr 1
      apply List.map_congr_left
      intro j _
      simp only [Function.comp]
      congr 1
      ring
    · rw [sv, hv]; ring

/-- C29: if before a `vMarchCube` call the vertex buffer has `n` entries, the
`j`-th face the call appends has exactly the indices `(n+3j, n+3j+1, n+3j+2)`;
and after any sequence of `vMarchCube` calls starting from empty buffers the
faces are the index triples `(0,1,2), (3,4,5), …` of the vertex buffer, so that
every index of every face is smaller than `verts.size()` and no vertex is
referenced by two faces. -/
theorem vMarchCube_face_indices (t : MarchingCubesTables) (length : float3 → FloatValue) :
    (∀ (vol : BoundedVolume) (volColor : ColorVolume) (x y z : Int) (buf : MeshBuffers)
        (fTargetValue : ℚ), ∃ k, k ≤ 5 ∧
      (vMarchCube t length vol volColor x y z buf fTargetValue).faces =
        buf.faces ++ (List.range k).map (fun j =>
          (⟨[buf.verts.length + 3 * j, buf.verts.length + 3 * j + 1,
             buf.verts.length + 3 * j + 2]⟩ : aiFace))) ∧
    (∀ calls : List CubeCall,
      (∃ K, (marchCalls t length calls emptyBuffers).faces =
          (List.range K).map (fun j => (⟨[3 * j, 3 * j + 1, 3 * j + 2]⟩ : aiFace)) ∧
        (marchCalls t length calls emptyBuffers).verts.length = 3 * K) ∧
      (∀ f ∈ (marchCalls t length calls emptyBuffers).faces, ∀ i ∈ f.mIndices,
        i < (marchCalls t length calls emptyBuffers).verts.length) ∧
      (∀ (a b : Nat) (fa fb : aiFace) (i : Nat),
        (marchCalls t length calls emptyBuffers).faces.get? a = some fa →
        (marchCalls t length calls emptyBuffers).faces.get? b = some fb →
        i ∈ fa.mIndices → i ∈ fb.mIndices → a = b)) := by
  constructor
  · intro vol volColor x y z buf fTargetValue
    obtain ⟨k, hk, _, _, _, hf⟩ :=
      marchCall_shape t length ⟨vol, volColor, x, y, z, fTargetValue⟩ buf
    exact ⟨k, hk, hf⟩
  · intro calls
    obtain ⟨K, hf, hv⟩ := marchCalls_canonical t length calls emptyBuffers 0 rfl rfl
    have hget : ∀ (a : Nat) (fa : aiFace),
        (marchCalls t length calls emptyBuffers).faces.get? a = some fa →
        a < K ∧ fa = faceAt (3 * a) := by
      intro a fa h
      rw [hf, List.get?_eq_getElem?, List.getElem?_map] at h
      by_cases ha : a < K
      · rw [List.getElem?_range ha] at h
        exact ⟨ha, (Option.some.inj h).symm⟩
      · rw [List.getElem?_eq_none (by rw [List.length_range]; omega)] at h
        exact Option.noConfusion h
    refine ⟨⟨K, hf, hv⟩, ?_, ?_⟩
    · intro f hfm i hi
      rw [hf] at hfm
      obtain ⟨j, hj, e⟩ := List.mem_map.mp hfm
      rw [hv]
      rw [← e] at hi
      have hj1 := List.mem_range.mp hj
      simp only [faceAt, List.mem_cons, List.mem_singleton, List.not_mem_nil, or_false] at hi
      omega
    · intro a b fa fb i ha hb hia hib
      obtain ⟨_, ea⟩ := hget a fa ha
      obtain ⟨_, eb⟩ := hget b fb hb
      rw [ea] at hia
      rw [eb] at hib
      simp only [faceAt, List.mem_cons, List.mem_singleton, List.not_mem_nil, or_false]
        at hia hib
      omega

/-- C29 on the sample: after marching two cubes of the sample field into empty
buffers the faces are the index triples `(0,1,2), (3,4,5), …` of the vertex
buffer. -/
theorem vMarchCube_face_indices_witness :
    ∃ K, (marchCalls sampleTables noLength [cubeA, cubeB] emptyBuffers).faces =
        (List.range K).map (fun j => (⟨[3 * j, 3 * j + 1, 3 * j + 2]⟩ : aiFace)) ∧
      (marchCalls sampleTables noLength [cubeA, cubeB] emptyBuffers).verts.length = 3 * K :=
  ((vMarchCube_face_indices sampleTables noLength).2 [cubeA, cubeB]).1

/-- Reading an element of the middle part of a list. -/
theorem getD_middle {α : Type} (p e q : List α) (i : Nat) (d : α) (hi : i < e.length) :
    (p ++ e ++ q).getD (p.length + i) d = e.getD i d := by
  rw [List.getD_eq_getElem?_getD, List.getD_eq_getElem?_getD, List.append_assoc,
    List.getElem?_append_right (Nat.le_add_right _ _), Nat.add_sub_cancel_left,
    List.getElem?_append_left hi]

/-- A face of what a call appended to empty buffers, read in the extended buffers
with its indices raised, has the positions and the normals it has in what the
call appended. -/
theorem face_in_extension (p e q : MeshBuffers) (f : aiFace)
    (hf : ∀ i ∈ f.mIndices, i < e.verts.length) (hn : e.norms.length = e.verts.length) :
    facePositions ((p.extend e).extend q) (aiFace.shift p.verts.length f) = facePositions e f ∧
    (p.norms.length = p.verts.length →
      faceNormals ((p.extend e).extend q) (aiFace.shift p.verts.length f) = faceNormals e f) := by
  constructor
  · unfold facePositions aiFace.shift MeshBuffers.extend
    simp only [List.map_map]
    apply List.map_congr_left
    intro i hi
    exact getD_middle p.verts e.verts q.verts i _ (hf i hi)
  · intro hp
    unfold faceNormals aiFace.shift MeshBuffers.extend
    simp only [List.map_map]
    apply List.map_congr_left
    intro i hi
    simp only [Function.comp]
    rw [← hp]
    exact getD_middle p.norms e.norms q.norms i _ (by rw [hn]; exact hf i hi)

/-- The faces a call appends to empty buffers refer to the positions it appends,
and it appends as many normals as positions. -/
theorem emission_wellformed (t : MarchingCubesTables) (length : float3 → FloatValue)
    (c : CubeCall) :
    (∀ f ∈ (marchCall t length c emptyBuffers).faces, ∀ i ∈ f.mIndices,
      i < (marchCall t length c emptyBuffers).verts.length) ∧
    (marchCall t length c emptyBuffers).norms.length =
      (marchCall t length c emptyBuffers).verts.length := by
  obtain ⟨k, _, hv, hn, _, hf⟩ := marchCall_shape t length c emptyBuffers
  refine ⟨?_, hn.trans hv.symm⟩
  intro f hfm i hi
  rw [hf] at hfm
  rw [hv]
  simp only [emptyBuffers, List.nil_append, List.length_nil, Nat.zero_add] at hfm ⊢
  obtain ⟨j, hj, e⟩ := List.mem_map.mp hfm
  rw [← e] at hi
  have hj1 := List.mem_range.mp hj
  simp only [faceAt, List.mem_cons, List.mem_singleton, List.not_mem_nil, or_false] at hi
  omega

/-- The triangles two calls append, one after the other, read as position triples
and as triples of normals: those of the first call followed by those of the
second, each as the call appends them to empty buffers. -/
theorem emitted_by_two_calls (t : MarchingCubesTables) (length : float3 → FloatValue)
    (A B : CubeCall) (buf : MeshBuffers) :
    emittedTriangles buf.faces.length (marchCall t length B (marchCall t length A buf)) =
      (marchCall t length A emptyBuffers).faces.map
          (facePositions (marchCall t length A emptyBuffers)) ++
        (marchCall t length B emptyBuffers).faces.map
          (facePositions (marchCall t length B emptyBuffers)) ∧
    (buf.norms.length = buf.verts.length →
      emittedNormals buf.faces.length (marchCall t length B (marchCall t length A buf)) =
        (marchCall t length A emptyBuffers).faces.map
            (faceNormals (marchCall t length A emptyBuffers)) ++
          (marchCall t length B emptyBuffers).faces.map
            (faceNormals (marchCall t length B emptyBuffers))) := by
  obtain ⟨wA, nA⟩ := emission_wellformed t length A
  obtain ⟨wB, nB⟩ := emission_wellformed t length B
  have e1 : marchCall t length B (marchCall t length A buf) =
      (buf.extend (marchCall t length A emptyBuffers)).extend
        (marchCall t length B emptyBuffers) := by
    rw [marchCall_extend t length B, marchCall_extend t length A buf]
  have hfaces : (((buf.extend (marchCall t length A emptyBuffers)).extend
        (marchCall t length B emptyBuffers)).faces).drop buf.faces.length =
      (marchCall t length A emptyBuffers).faces.map (aiFace.shift buf.verts.length) ++
        (marchCall t length B emptyBuffers).faces.map
          (aiFace.shift (buf.extend (marchCall t length A emptyBuffers)).verts.length) := by
    unfold MeshBuffers.extend
    simp only [List.append_assoc]
    exact List.drop_left _ _
  have hB : ∀ f ∈ (marchCall t length B emptyBuffers).faces,
      facePositions ((buf.extend (marchCall t length A emptyBuffers)).extend
          (marchCall t length B emptyBuffers))
        (aiFace.shift (buf.extend (marchCall t length A emptyBuffers)).verts.length f) =
        facePositions (marchCall t length B emptyBuffers) f ∧
      ((buf.extend (marchCall t length A emptyBuffers)).norms.length =
          (buf.extend (marchCall t length A emptyBuffers)).verts.length →
        faceNormals ((buf.extend (marchCall t length A emptyBuffers)).extend
            (marchCall t length B emptyBuffers))
          (aiFace.shift (buf.extend (marchCall t length A emptyBuffers)).verts.length f) =
          faceNormals (marchCall t length B emptyBuffers) f) := by
    intro f hf
    have h := face_in_extension (buf.extend (marchCall t length A emptyBuffers))
      (marchCall t length B emptyBuffers) emptyBuffers f (wB f hf) nB
    rw [extend_empty] at h
    exact h
  have hA : ∀ f ∈ (marchCall t length A emptyBuffers).faces,
      facePositions ((buf.extend (marchCall t length A emptyBuffers)).extend
          (marchCall t length B emptyBuffers)) (aiFace.shift buf.verts.length f) =
        facePositions (marchCall t length A emptyBuffers) f ∧
      (buf.norms.length = buf.verts.length →
        faceNormals ((buf.extend (marchCall t length A emptyBuffers)).extend
            (marchCall t length B emptyBuffers)) (aiFace.shift buf.verts.length f) =
          faceNormals (marchCall t length A emptyBuffers) f) :=
    fun f hf => face_in_extension buf (marchCall t length A emptyBuffers)
      (marchCall t length B emptyBuffers) f (wA f hf) nA
  constructor
  · unfold emittedTriangles
    rw [e1, hfaces, List.map_append, List.map_map, List.map_map]
    congr 1
    · exact List.map_congr_left (fun f hf => (hA f hf).1)
    · exact List.map_congr_left (fun f hf => (hB f hf).1)
  · intro hp
    have hpA : (buf.extend (marchCall t length A emptyBuffers)).norms.length =
        (buf.extend (marchCall t length A emptyBuffers)).verts.length := by
      unfold MeshBuffers.extend
      simp only [List.length_append]
      rw [hp, nA]
    unfold emittedNormals
    rw [e1, hfaces, List.map_append, List.map_map, List.map_map]
    congr 1
    · exact List.map_congr_left (fun f hf => (hA f hf).2 hp)
    · exact List.map_congr_left (fun f hf => (hB f hf).2 hpA)

/-- C23: for every two cubes `A` and `B` (of any volumes) and the same starting
buffers, running `vMarchCube` on `A` then `B` and on `B` then `A` produces the
same mesh set. What a call appends does not depend on the prior buffer contents:
it is what the call appends to empty buffers, the face indices raised by
`verts.size()` at the time of the call (`MeshBuffers.extend`). The two runs append
the same multiset of triangles read as position triples (and, the normals being
parallel to the positions at the start, as triples of normals), and their face
lists differ only by the offsets. -/
theorem vMarchCube_order_independent (t : MarchingCubesTables)
    (length : float3 → FloatValue) (A B : CubeCall) (buf : MeshBuffers) :
    (∀ b : MeshBuffers, marchCall t length A b = b.extend (marchCall t length A emptyBuffers)) ∧
    (∀ b : MeshBuffers, marchCall t length B b = b.extend (marchCall t length B emptyBuffers)) ∧
    (emittedTriangles buf.faces.length (marchCall t length B (marchCall t length A buf))).Perm
      (emittedTriangles buf.faces.length (marchCall t length A (marchCall t length B buf))) ∧
    (buf.norms.length = buf.verts.length →
      (emittedNormals buf.faces.length (marchCall t length B (marchCall t length A buf))).Perm
        (emittedNormals buf.faces.length (marchCall t length A (marchCall t length B buf)))) ∧
    (marchCall t length B (marchCall t length A buf)).faces =
      buf.faces ++
        (marchCall t length A emptyBuffers).faces.map (aiFace.shift buf.verts.length) ++
        (marchCall t length B emptyBuffers).faces.map
          (aiFace.shift (buf.verts.length + (marchCall t length A emptyBuffers).verts.length)) ∧
    (marchCall t length A (marchCall t length B buf)).faces =
      buf.faces ++
        (marchCall t length B emptyBuffers).faces.map (aiFace.shift buf.verts.length) ++
        (marchCall t length A emptyBuffers).faces.map
          (aiFace.shift (buf.verts.length + (marchCall t length B emptyBuffers).verts.length)) := by
  have hfaces : ∀ (P Q : CubeCall), (marchCall t length Q (marchCall t length P buf)).faces =
      buf.faces ++
        (marchCall t length P emptyBuffers).faces.map (aiFace.shift buf.verts.length) ++
        (marchCall t length Q emptyBuffers).faces.map
          (aiFace.shift (buf.verts.length + (marchCall t length P emptyBuffers).verts.length)) := by
    intro P Q
    rw [marchCall_extend t length Q, marchCall_extend t length P buf]
    unfold MeshBuffers.extend
    simp only [List.length_append]
  obtain ⟨pAB, nAB⟩ := emitted_by_two_calls t length A B buf
  obtain ⟨pBA, nBA⟩ := emitted_by_two_calls t length B A buf
  refine ⟨marchCall_extend t length A, marchCall_extend t length B, ?_, ?_, hfaces A B,
    hfaces B A⟩
  · rw [pAB, pBA]
    exact List.perm_append_comm
  · intro hp
    rw [nAB hp, nBA hp]
    exact List.perm_append_comm

/-- C23 on the sample: the cubes of the sample field with target 0 and with
target 2, marched into empty buffers in either order, give the same triangles. -/
theorem vMarchCube_order_independent_witness :
    emptyBuffers.norms.length = emptyBuffers.verts.length ∧
    (emittedTriangles emptyBuffers.faces.length
        (marchCall sampleTables noLength cubeB
          (marchCall sampleTables noLength cubeA emptyBuffers))).Perm
      (emittedTriangles emptyBuffers.faces.length
        (marchCall sampleTables noLength cubeA
          (marchCall sampleTables noLength cubeB emptyBuffers))) ∧
    (emittedNormals emptyBuffers.faces.length
        (marchCall sampleTables noLength cubeB
          (marchCall sampleTables noLength cubeA emptyBuffers))).Perm
      (emittedNormals emptyBuffers.faces.length
        (marchCall sampleTables noLength cubeA
          (marchCall sampleTables noLength cubeB emptyBuffers))) :=
  ⟨rfl,
    (vMarchCube_order_independent sampleTables noLength cubeA cubeB emptyBuffers).2.2.1,
    (vMarchCube_order_independent sampleTables noLength cubeA cubeB emptyBuffers).2.2.2.1 rfl⟩

/-! ## Runs of shifts: displacement bookkeeping -/

/-- One call moves the global component of an axis by at most one. -/
theorem wrapGlobalAxis_abs_le (n l g : Int) : |wrapGlobalAxis n l g| ≤ |g| + 1 := by
  unfold wrapGlobalAxis
  have h1 := abs_add g 1
  have h2 := abs_sub g 1
  have h3 : |(1 : Int)| = 1 := abs_one
  split_ifs <;> omega

/-- A call that returns leaves a global shift within the range the second check
admits. -/
theorem update_global_le (v v1 : BoundedVolumeGrid T) (d : int3)
    (h : v.UpdateLocalAndGlobalShift d = some v1) :
    |v1.m_global_shift.x| ≤ 99999 ∧ |v1.m_global_shift.y| ≤ 99999 ∧
      |v1.m_global_shift.z| ≤ 99999 := by
  have hg : ¬ v.globalShiftOverflow d := by
    intro hg
    rw [(update_by_checks v d).2.1 hg] at h
    exact Option.noConfusion h
  have e := UpdateLocalAndGlobalShift_eq_some v v1 d h
  rw [e]
  unfold globalShiftOverflow at hg
  have hg1 : ¬ (|wrapGlobalAxis v.m_nGridNum_w (v.m_local_shift.x + d.x) v.m_global_shift.x|
        > 99999 ∨
      |wrapGlobalAxis v.m_nGridNum_h (v.m_local_shift.y + d.y) v.m_global_shift.y| > 99999 ∨
      |wrapGlobalAxis v.m_nGridNum_d (v.m_local_shift.z + d.z) v.m_global_shift.z| > 99999) := hg
  push_neg at hg1
  exact hg1

/-- A call returns when the global shift has room for one more step on every
axis. -/
theorem update_returns_of_room (v : BoundedVolumeGrid T) (d : int3)
    (hw : 1 ≤ v.m_nGridNum_w) (hh : 1 ≤ v.m_nGridNum_h) (hd : 1 ≤ v.m_nGridNum_d)
    (hx : |v.m_global_shift.x| < 99999) (hy : |v.m_global_shift.y| < 99999)
    (hz : |v.m_global_shift.z| < 99999) :
    ∃ v1, v.UpdateLocalAndGlobalShift d = some v1 ∧
      |v1.m_global_shift.x| ≤ |v.m_global_shift.x| + 1 ∧
      |v1.m_global_shift.y| ≤ |v.m_global_shift.y| + 1 ∧
      |v1.m_global_shift.z| ≤ |v.m_global_shift.z| + 1 := by
  have bx := wrapGlobalAxis_abs_le v.m_nGridNum_w (v.m_local_shift.x + d.x) v.m_global_shift.x
  have bY := wrapGlobalAxis_abs_le v.m_nGridNum_h (v.m_local_shift.y + d.y) v.m_global_shift.y
  have bz := wrapGlobalAxis_abs_le v.m_nGridNum_d (v.m_local_shift.z + d.z) v.m_global_shift.z
  have hg : ¬ v.globalShiftOverflow d := by
    intro hg
    have hg1 : |wrapGlobalAxis v.m_nGridNum_w (v.m_local_shift.x + d.x) v.m_global_shift.x|
          > 99999 ∨
        |wrapGlobalAxis v.m_nGridNum_h (v.m_local_shift.y + d.y) v.m_global_shift.y| > 99999 ∨
        |wrapGlobalAxis v.m_nGridNum_d (v.m_local_shift.z + d.z) v.m_global_shift.z| > 99999 :=
      hg
    rcases hg1 with h | h | h <;> omega
  obtain ⟨v1, h1⟩ := (update_by_checks v d).2.2 (not_localShiftOverflow v d hw hh hd) hg
  refine ⟨v1, h1, ?_⟩
  have e := UpdateLocalAndGlobalShift_eq_some v v1 d h1
  rw [e]
  exact ⟨bx, bY, bz⟩

/-- A run returns when the global shift has room for as many steps as the run has
calls. -/
theorem runShifts_returns (ds : List int3) :
    ∀ (v : BoundedVolumeGrid T), 1 ≤ v.m_nGridNum_w → 1 ≤ v.m_nGridNum_h →
      1 ≤ v.m_nGridNum_d → |v.m_global_shift.x| + ds.length ≤ 99999 →
      |v.m_global_shift.y| + ds.length ≤ 99999 → |v.m_global_shift.z| + ds.length ≤ 99999 →
      ∃ v1, v.runShifts ds = some v1 := by
  induction ds with
  | nil => intro v _ _ _ _ _ _; exact ⟨v, rfl⟩
  | cons d ds ih =>
    intro v hw hh hd hx hy hz
    simp only [List.length_cons, Nat.cast_add, Nat.cast_one] at hx hy hz
    obtain ⟨v2, h2, bx, bY, bz⟩ := update_returns_of_room v d hw hh hd (by omega) (by omega)
      (by omega)
    obtain ⟨_, ew, eh, ed⟩ := update_validShift v v2 d h2 hw hh hd
    obtain ⟨v1, h1⟩ := ih v2 (by omega) (by omega) (by omega) (by omega) (by omega) (by omega)
    refine ⟨v1, ?_⟩
    unfold runShifts
    rw [h2]
    exact h1

/-- A run of returning calls from a global shift within the admitted range ends
with a global shift within the admitted range. -/
theorem runShifts_global_le (ds : List int3) :
    ∀ (v v1 : BoundedVolumeGrid T), v.runShifts ds = some v1 →
      (|v.m_global_shift.x| ≤ 99999 ∧ |v.m_global_shift.y| ≤ 99999 ∧
        |v.m_global_shift.z| ≤ 99999) →
      |v1.m_global_shift.x| ≤ 99999 ∧ |v1.m_global_shift.y| ≤ 99999 ∧
        |v1.m_global_shift.z| ≤ 99999 := by
  induction ds with
  | nil =>
    intro v v1 h hv
    have e : v = v1 := Option.some.inj h
    rw [← e]; exact hv
  | cons d ds ih =>
    intro v v1 h _
    unfold runShifts at h
    cases hu : v.UpdateLocalAndGlobalShift d with
    | none => rw [hu] at h; exact Option.noConfusion h
    | some v2 =>
      rw [hu] at h
      exact ih v2 v1 h (update_global_le v v2 d hu)

/-- Deltas with components in `{-1, 0, 1}` never carry a valid local shift beyond
the window. -/
theorem unit_steps_within (ds : List int3) :
    ∀ (v : BoundedVolumeGrid T), v.ValidShift → (∀ d ∈ ds, UnitDelta d) →
      v.stepsWithinWindow ds = true := by
  induction ds with
  | nil => intro v _ _; rfl
  | cons d ds ih =>
    intro v hs hu
    obtain ⟨sx, sy, sz⟩ := hs
    obtain ⟨ux, uy, uz⟩ := hu d (List.mem_cons_self d ds)
    have ax := abs_add v.m_local_shift.x d.x
    have ay := abs_add v.m_local_shift.y d.y
    have az := abs_add v.m_local_shift.z d.z
    have nx := abs_nonneg v.m_local_shift.x
    have ny := abs_nonneg v.m_local_shift.y
    have nz := abs_nonneg v.m_local_shift.z
    unfold stepsWithinWindow
    simp only [Bool.and_eq_true, decide_eq_true_eq]
    refine ⟨⟨⟨by omega, by omega⟩, by omega⟩, ?_⟩
    cases h2 : v.UpdateLocalAndGlobalShift d with
    | none => rfl
    | some v2 =>
      obtain ⟨hs2, _, _, _⟩ := update_validShift v v2 d h2 (by omega) (by omega) (by omega)
      exact ih v2 hs2 (fun e he => hu e (List.mem_cons_of_mem d he))

/-- The calls of a run that stays within the window stay within the window up to
any point of the run. -/
theorem stepsWithinWindow_take (ds : List int3) :
    ∀ (v : BoundedVolumeGrid T) (k : Nat), v.stepsWithinWindow ds = true →
      v.stepsWithinWindow (ds.take k) = true := by
  induction ds with
  | nil => intro v k h; rw [List.take_nil]; exact h
  | cons d ds ih =>
    intro v k h
    cases k with
    | zero => rfl
    | succ k =>
      rw [List.take_succ_cons]
      unfold stepsWithinWindow at h ⊢
      rw [Bool.and_eq_true] at h ⊢
      refine ⟨h.1, ?_⟩
      have h2 := h.2
      cases hu : v.UpdateLocalAndGlobalShift d with
      | none => rfl
      | some v2 =>
        rw [hu] at h2
        exact ih v2 k h2

/-- C31: starting from a freshly initialised volume with `Nx, Ny, Nz ≥ 1`, for
every sequence of shift deltas whose components are all in `{-1, 0, 1}` (more
generally, with `|local_shift + delta| ≤ N` on every axis at every call), after
each `UpdateLocalAndGlobalShift` of the run that returns, that is after every
initial part of the run, `global_shift.axis * N_axis + local_shift.axis` equals
the sum of the deltas applied on that axis and `|global_shift.axis| ≤ 99999`;
and a run of at most 99999 calls does return. -/
theorem shift_run_tracks_displacement (prev v0 : BoundedVolumeGrid T)
    (n_w n_h n_d n_res : Nat) (r_bbox : BoundingBox)
    (hinit : prev.Init n_w n_h n_d n_res r_bbox = some v0)
    (hw : 1 ≤ v0.m_nGridNum_w) (hh : 1 ≤ v0.m_nGridNum_h) (hd : 1 ≤ v0.m_nGridNum_d)
    (ds : List int3)
    (hsteps : (∀ d ∈ ds, UnitDelta d) ∨ v0.stepsWithinWindow ds = true) :
    (ds.length ≤ 99999 → ∃ v, v0.runShifts ds = some v) ∧
    ∀ (k : Nat) (v : BoundedVolumeGrid T), v0.runShifts (ds.take k) = some v →
      (v.m_global_shift.x * v.m_nGridNum_w + v.m_local_shift.x = ((ds.take k).map int3.x).sum ∧
        v.m_global_shift.y * v.m_nGridNum_h + v.m_local_shift.y =
          ((ds.take k).map int3.y).sum ∧
        v.m_global_shift.z * v.m_nGridNum_d + v.m_local_shift.z =
          ((ds.take k).map int3.z).sum) ∧
      (|v.m_global_shift.x| ≤ 99999 ∧ |v.m_global_shift.y| ≤ 99999 ∧
        |v.m_global_shift.z| ≤ 99999) := by
  obtain ⟨_, e⟩ := Init_eq_some prev v0 n_w n_h n_d n_res r_bbox hinit
  have l0 : v0.m_local_shift = make_int3 0 0 0 := by rw [e]
  have g0 : v0.m_global_shift = make_int3 0 0 0 := by rw [e]
  have hv0 : v0.ValidShift := by
    unfold ValidShift
    rw [l0]
    simp only [make_int3, abs_zero]
    exact ⟨by exact_mod_cast hw, by exact_mod_cast hh, by exact_mod_cast hd⟩
  have hwin : v0.stepsWithinWindow ds = true := by
    rcases hsteps with h | h
    · exact unit_steps_within ds v0 hv0 h
    · exact h
  constructor
  · intro hlen
    apply runShifts_returns ds v0 hw hh hd
    · rw [g0]; simp only [make_int3, abs_zero, zero_add]; exact_mod_cast hlen
    · rw [g0]; simp only [make_int3, abs_zero, zero_add]; exact_mod_cast hlen
    · rw [g0]; simp only [make_int3, abs_zero, zero_add]; exact_mod_cast hlen
  · intro k v hrun
    obtain ⟨⟨ew, eh, ed⟩, px, py, pz⟩ :=
      runShifts_position (ds.take k) v0 v hrun (stepsWithinWindow_take ds v0 k hwin)
    have hg := runShifts_global_le (ds.take k) v0 v hrun (by
      rw [g0]; simp only [make_int3, abs_zero]; exact ⟨by decide, by decide, by decide⟩)
    rw [l0, g0] at px py pz
    simp only [make_int3, zero_mul, zero_add, add_zero] at px py pz
    rw [ew, eh, ed]
    exact ⟨⟨px, py, pz⟩, hg⟩

/-- C31 on the sample: the unit deltas `(1,0,0)`, `(1,-1,0)`, `(0,-1,1)` on the
fresh `2 × 3 × 2` volume leave `global = (1,0,0)`, `local = (0,-2,1)`, that is the
positions `(2, -2, 1)`, the sums of the deltas. -/
theorem shift_run_tracks_displacement_witness :
    (sampleVolume.Init 8 12 8 4 unitBox = some freshVolume ∧
      (1 ≤ freshVolume.m_nGridNum_w ∧ 1 ≤ freshVolume.m_nGridNum_h ∧
        1 ≤ freshVolume.m_nGridNum_d) ∧
      (∀ d ∈ ([⟨1, 0, 0⟩, ⟨1, -1, 0⟩, ⟨0, -1, 1⟩] : List int3), UnitDelta d) ∧
      freshVolume.runShifts [⟨1, 0, 0⟩, ⟨1, -1, 0⟩, ⟨0, -1, 1⟩] = some trackedVolume) ∧
    (trackedVolume.m_global_shift.x * trackedVolume.m_nGridNum_w +
        trackedVolume.m_local_shift.x =
          ((List.take 3 ([⟨1, 0, 0⟩, ⟨1, -1, 0⟩, ⟨0, -1, 1⟩] : List int3)).map int3.x).sum ∧
      trackedVolume.m_global_shift.y * trackedVolume.m_nGridNum_h +
        trackedVolume.m_local_shift.y =
          ((List.take 3 ([⟨1, 0, 0⟩, ⟨1, -1, 0⟩, ⟨0, -1, 1⟩] : List int3)).map int3.y).sum ∧
      trackedVolume.m_global_shift.z * trackedVolume.m_nGridNum_d +
        trackedVolume.m_local_shift.z =
          ((List.take 3 ([⟨1, 0, 0⟩, ⟨1, -1, 0⟩, ⟨0, -1, 1⟩] : List int3)).map int3.z).sum) :=
  ⟨⟨Init_sampleVolume, by decide, by decide, by rfl⟩,
    ((shift_run_tracks_displacement sampleVolume freshVolume 8 12 8 4 unitBox
      Init_sampleVolume (by decide) (by decide) (by decide)
      [⟨1, 0, 0⟩, ⟨1, -1, 0⟩, ⟨0, -1, 1⟩] (Or.inl (by decide))).2 3 trackedVolume (by rfl)).1⟩

/-! ## Voxel addressing -/

/-- On the window, with a valid shift and a cell count that fits the `unsigned
int` result, the addressing function gives different slots to different cells. -/
theorem convert_inj (v : BoundedVolumeGrid T) (hfit : v.cellCount ≤ UINT_RANGE)
    (hs : v.ValidShift) (x y z x1 y1 z1 : Int) (hin : v.InWindow x y z)
    (hin1 : v.InWindow x1 y1 z1)
    (heq : v.ConvertLocalIndexToRealIndex x y z = v.ConvertLocalIndexToRealIndex x1 y1 z1) :
    x = x1 ∧ y = y1 ∧ z = z1 := by
  obtain ⟨⟨hx0, hx⟩, ⟨hy0, hy⟩, ⟨hz0, hz⟩⟩ := hin
  obtain ⟨⟨hx10, hx1⟩, ⟨hy10, hy1⟩, ⟨hz10, hz1⟩⟩ := hin1
  have hNx : (0 : Int) < v.m_nGridNum_w := by omega
  have hNy : (0 : Int) < v.m_nGridNum_h := by omega
  have hNz : (0 : Int) < v.m_nGridNum_d := by omega
  have e := convert_closed_form v hfit hs x y z ⟨⟨hx0, hx⟩, ⟨hy0, hy⟩, ⟨hz0, hz⟩⟩
  have e1 := convert_closed_form v hfit hs x1 y1 z1 ⟨⟨hx10, hx1⟩, ⟨hy10, hy1⟩, ⟨hz10, hz1⟩⟩
  rw [heq, e1] at e
  have wx := emod_window (x + v.m_local_shift.x) _ hNx
  have wy := emod_window (y + v.m_local_shift.y) _ hNy
  have wx1 := emod_window (x1 + v.m_local_shift.x) _ hNx
  have wy1 := emod_window (y1 + v.m_local_shift.y) _ hNy
  obtain ⟨a, b, c⟩ := flat_inj _ _ _ _ _ _ _ _ wx1.1 wx1.2 wy1.1 wy1.2 wx.1 wx.2
    wy.1 wy.2 e
  exact ⟨(shift_emod_inj _ _ _ _ hx10 hx1 hx0 hx a).symm,
    (shift_emod_inj _ _ _ _ hy10 hy1 hy0 hy b).symm,
    (shift_emod_inj _ _ _ _ hz10 hz1 hz0 hz c).symm⟩

/-- A voxel coordinate below `N * R` lies in a cell below `N`, and is given by its
cell and its offset in the cell. -/
theorem voxel_split (R N x : Nat) (hR : 1 ≤ R) (hx : x < N * R) :
    x / R < N ∧ x % R < R ∧ x = R * (x / R) + x % R := by
  refine ⟨?_, Nat.mod_lt x (by omega), (Nat.div_add_mod x R).symm⟩
  apply Nat.div_lt_of_lt_mul
  rw [Nat.mul_comm]
  exact hx

/-- C32: for every volume with `(W, H, D) = (Nx * R, Ny * R, Nz * R)`, `R ≥ 1`, a
valid local shift (and a cell count within the `unsigned int` range of the slot),
the voxel addressing `(x, y, z) ↦ (ConvertLocalIndexToRealIndex(x div R, y div R,
z div R), (x mod R, y mod R, z mod R))` that `Get`, `operator()` and
`CheckIfVoxelExist` use yields on `[0,W) × [0,H) × [0,D)` a slot below the cell
count and local offsets below `R`, and is injective there: two different voxels
never get the same stored sample. -/
theorem voxel_addressing_injective (v : BoundedVolumeGrid T)
    (hR : 1 ≤ v.m_nVolumeGridRes)
    (hW : v.m_w = v.m_nGridNum_w * v.m_nVolumeGridRes)
    (hH : v.m_h = v.m_nGridNum_h * v.m_nVolumeGridRes)
    (hD : v.m_d = v.m_nGridNum_d * v.m_nVolumeGridRes)
    (hfit : v.cellCount ≤ UINT_RANGE) (hs : v.ValidShift) :
    (∀ x y z : Nat,
      (v.operator_call x y z).2 = v.Get x y z ∧
      v.CheckIfVoxelExist x y z = v.CheckIfBasicSDFActive (v.Get x y z).slot ∧
      v.Get x y z =
        ⟨v.ConvertLocalIndexToRealIndex (x / v.m_nVolumeGridRes : Nat)
            (y / v.m_nVolumeGridRes : Nat) (z / v.m_nVolumeGridRes : Nat),
          x % v.m_nVolumeGridRes, y % v.m_nVolumeGridRes, z % v.m_nVolumeGridRes⟩) ∧
    (∀ x y z : Nat, x < v.m_w → y < v.m_h → z < v.m_d →
      (v.Get x y z).slot < v.cellCount ∧ (v.Get x y z).x < v.m_nVolumeGridRes ∧
        (v.Get x y z).y < v.m_nVolumeGridRes ∧ (v.Get x y z).z < v.m_nVolumeGridRes) ∧
    (∀ x y z x1 y1 z1 : Nat, x < v.m_w → y < v.m_h → z < v.m_d →
      x1 < v.m_w → y1 < v.m_h → z1 < v.m_d →
      v.Get x y z = v.Get x1 y1 z1 → x = x1 ∧ y = y1 ∧ z = z1) := by
  have hwin : ∀ x y z : Nat, x < v.m_w → y < v.m_h → z < v.m_d →
      v.InWindow (x / v.m_nVolumeGridRes : Nat) (y / v.m_nVolumeGridRes : Nat)
        (z / v.m_nVolumeGridRes : Nat) := by
    intro x y z hx hy hz
    rw [hW] at hx
    rw [hH] at hy
    rw [hD] at hz
    have a := (voxel_split _ _ x hR hx).1
    have b := (voxel_split _ _ y hR hy).1
    have c := (voxel_split _ _ z hR hz).1
    exact ⟨⟨Int.ofNat_nonneg _, by exact_mod_cast a⟩, ⟨Int.ofNat_nonneg _, by exact_mod_cast b⟩,
      ⟨Int.ofNat_nonneg _, by exact_mod_cast c⟩⟩
  refine ⟨fun x y z => ⟨rfl, rfl, rfl⟩, ?_, ?_⟩
  · intro x y z hx hy hz
    have hr : 0 < v.m_nVolumeGridRes := by omega
    exact ⟨convert_slot_lt v hfit hs _ _ _ (hwin x y z hx hy hz), Nat.mod_lt x hr,
      Nat.mod_lt y hr, Nat.mod_lt z hr⟩
  · intro x y z x1 y1 z1 hx hy hz hx1 hy1 hz1 heq
    have hslot : v.ConvertLocalIndexToRealIndex (x / v.m_nVolumeGridRes : Nat)
          (y / v.m_nVolumeGridRes : Nat) (z / v.m_nVolumeGridRes : Nat) =
        v.ConvertLocalIndexToRealIndex (x1 / v.m_nVolumeGridRes : Nat)
          (y1 / v.m_nVolumeGridRes : Nat) (z1 / v.m_nVolumeGridRes : Nat) :=
      congrArg SampleRef.slot heq
    have mx : x % v.m_nVolumeGridRes = x1 % v.m_nVolumeGridRes := congrArg SampleRef.x heq
    have my : y % v.m_nVolumeGridRes = y1 % v.m_nVolumeGridRes := congrArg SampleRef.y heq
    have mz : z % v.m_nVolumeGridRes = z1 % v.m_nVolumeGridRes := congrArg SampleRef.z heq
    obtain ⟨qx, qy, qz⟩ := convert_inj v hfit hs _ _ _ _ _ _ (hwin x y z hx hy hz)
      (hwin x1 y1 z1 hx1 hy1 hz1) hslot
    have qx1 : x / v.m_nVolumeGridRes = x1 / v.m_nVolumeGridRes := by exact_mod_cast qx
    have qy1 : y / v.m_nVolumeGridRes = y1 / v.m_nVolumeGridRes := by exact_mod_cast qy
    have qz1 : z / v.m_nVolumeGridRes = z1 / v.m_nVolumeGridRes := by exact_mod_cast qz
    refine ⟨?_, ?_, ?_⟩
    · rw [← Nat.div_add_mod x v.m_nVolumeGridRes, ← Nat.div_add_mod x1 v.m_nVolumeGridRes,
        qx1, mx]
    · rw [← Nat.div_add_mod y v.m_nVolumeGridRes, ← Nat.div_add_mod y1 v.m_nVolumeGridRes,
        qy1, my]
    · rw [← Nat.div_add_mod z v.m_nVolumeGridRes, ← Nat.div_add_mod z1 v.m_nVolumeGridRes,
        qz1, mz]

/-- C32 on the sample volume (`8 × 12 × 8` voxels, `2 × 3 × 2` cells of resolution
4, shift `(1, -2, 0)`): the voxel `(5, 9, 2)` gets a slot below 12 and offsets
below 4. -/
theorem voxel_addressing_injective_witness :
    (1 ≤ sampleVolume.m_nVolumeGridRes ∧
      sampleVolume.m_w = sampleVolume.m_nGridNum_w * sampleVolume.m_nVolumeGridRes ∧
      sampleVolume.m_h = sampleVolume.m_nGridNum_h * sampleVolume.m_nVolumeGridRes ∧
      sampleVolume.m_d = sampleVolume.m_nGridNum_d * sampleVolume.m_nVolumeGridRes ∧
      sampleVolume.cellCount ≤ UINT_RANGE ∧ sampleVolume.ValidShift) ∧
    ((sampleVolume.Get 5 9 2).slot < sampleVolume.cellCount ∧
      (sampleVolume.Get 5 9 2).x < sampleVolume.m_nVolumeGridRes ∧
      (sampleVolume.Get 5 9 2).y < sampleVolume.m_nVolumeGridRes ∧
      (sampleVolume.Get 5 9 2).z < sampleVolume.m_nVolumeGridRes) :=
  ⟨by decide,
    (voxel_addressing_injective sampleVolume (by decide) (by decide) (by decide) (by decide)
      (by decide) (by decide)).2.1 5 9 2 (by decide) (by decide) (by decide)⟩

/-! ## The validity test -/

/-- The counter of `IsValid` is positive exactly when a counted slot exists. -/
theorem count_pos_iff (P : Nat → Prop) [DecidablePred P] (n : Nat) :
    0 ≤ forLoop n (fun i (nNum : Int) => if P i then nNum + 1 else nNum) 0 ∧
    (forLoop n (fun i (nNum : Int) => if P i then nNum + 1 else nNum) 0 > 0 ↔
      ∃ i, i < n ∧ P i) := by
  induction n with
  | zero =>
    refine ⟨le_refl _, ?_⟩
    constructor
    · intro h; exact absurd h (lt_irrefl _)
    · rintro ⟨i, hi, _⟩; exact absurd hi (Nat.not_lt_zero i)
  | succ k ih =>
    obtain ⟨h0, hiff⟩ := ih
    rw [forLoop]
    by_cases hk : P k
    · rw [if_pos hk]
      exact ⟨by omega, ⟨fun _ => ⟨k, Nat.lt_succ_self k, hk⟩, fun _ => by omega⟩⟩
    · rw [if_neg hk]
      refine ⟨h0, ?_⟩
      rw [hiff]
      constructor
      · rintro ⟨i, hi, hp⟩; exact ⟨i, by omega, hp⟩
      · rintro ⟨i, hi, hp⟩
        have : i ≠ k := fun e => hk (e ▸ hp)
        exact ⟨i, by omega, hp⟩

/-- A slot whose dimensions are `(0, 0, 0)` or `(R, R, R)` is counted by `IsValid`
exactly when it is not active. -/
theorem counted_iff_inactive (v : BoundedVolumeGrid T) (i : Nat) (h : v.TriState i) :
    ((v.m_GridVolumes i).w ≠ v.m_nVolumeGridRes ∧ (v.m_GridVolumes i).h ≠ v.m_nVolumeGridRes ∧
        (v.m_GridVolumes i).d ≠ v.m_nVolumeGridRes) ↔
      v.CheckIfBasicSDFActive i = false := by
  have hc := check_true_iff v i
  have hf : v.CheckIfBasicSDFActive i = false ↔ ¬ v.CheckIfBasicSDFActive i = true := by
    cases v.CheckIfBasicSDFActive i <;> simp
  rw [hf, hc]
  unfold TriState Unallocated at h
  rcases h with ⟨a, b, c⟩ | ⟨a, b, c⟩
  · rw [a, b, c]
    constructor
    · intro h1 h2; exact h1.1 h2.1
    · intro h1
      have : ¬ (0 = v.m_nVolumeGridRes) := fun e => h1 ⟨e, e, e⟩
      exact ⟨this, this, this⟩
  · constructor
    · intro h1 _; exact h1.1 a
    · intro h1; exact absurd ⟨a, b, c⟩ h1

/-- C33: for every volume whose slots below the total cell count are each
unallocated or active, `IsValid()` returns true if and only if `W`, `H` and `D`
are all positive and at least one slot below the total cell count is not active.
In particular a volume with positive extents and at least one cell, none of them
active (a freshly initialised one), is reported valid, and a volume whose cells
are all active is reported invalid. -/
theorem IsValid_iff_some_inactive (v : BoundedVolumeGrid T)
    (htri : ∀ i, i < v.GetTotalGridNum → v.TriState i) :
    (v.IsValid = true ↔
      (0 < v.m_w ∧ 0 < v.m_h ∧ 0 < v.m_d ∧
        ∃ i, i < v.GetTotalGridNum ∧ v.CheckIfBasicSDFActive i = false)) ∧
    ((∀ i, i < v.GetTotalGridNum → v.CheckIfBasicSDFActive i = false) →
      0 < v.GetTotalGridNum → 0 < v.m_w → 0 < v.m_h → 0 < v.m_d → v.IsValid = true) ∧
    ((∀ i, i < v.GetTotalGridNum → v.CheckIfBasicSDFActive i = true) → v.IsValid = false) := by
  have hcount := (count_pos_iff (fun i => (v.m_GridVolumes i).w ≠ v.m_nVolumeGridRes ∧
    (v.m_GridVolumes i).h ≠ v.m_nVolumeGridRes ∧
    (v.m_GridVolumes i).d ≠ v.m_nVolumeGridRes) v.m_nTotalGridRes).2
  have hex : (∃ i, i < v.m_nTotalGridRes ∧ ((v.m_GridVolumes i).w ≠ v.m_nVolumeGridRes ∧
        (v.m_GridVolumes i).h ≠ v.m_nVolumeGridRes ∧
        (v.m_GridVolumes i).d ≠ v.m_nVolumeGridRes)) ↔
      ∃ i, i < v.GetTotalGridNum ∧ v.CheckIfBasicSDFActive i = false := by
    constructor
    · rintro ⟨i, hi, hp⟩
      exact ⟨i, hi, (counted_iff_inactive v i (htri i hi)).mp hp⟩
    · rintro ⟨i, hi, hp⟩
      exact ⟨i, hi, (counted_iff_inactive v i (htri i hi)).mpr hp⟩
  have hiff : v.IsValid = true ↔
      (0 < v.m_w ∧ 0 < v.m_h ∧ 0 < v.m_d ∧
        ∃ i, i < v.GetTotalGridNum ∧ v.CheckIfBasicSDFActive i = false) := by
    unfold IsValid
    simp only [decide_eq_true_eq]
    rw [hcount, hex]
    constructor
    · rintro ⟨a, b, c, d⟩; exact ⟨b, c, d, a⟩
    · rintro ⟨b, c, d, a⟩; exact ⟨a, b, c, d⟩
  refine ⟨hiff, ?_, ?_⟩
  · intro hall hpos hw hh hd
    exact hiff.mpr ⟨hw, hh, hd, 0, hpos, hall 0 hpos⟩
  · intro hall
    cases hv : v.IsValid with
    | false => rfl
    | true =>
      obtain ⟨_, _, _, i, hi, hf⟩ := hiff.mp hv
      rw [hall i hi] at hf
      exact Bool.noConfusion hf

/-- C33 on the samples: the fresh `2 × 3 × 2` volume, with no active cell, is
reported valid, and the volume with every cell active is reported invalid. -/
theorem IsValid_iff_some_inactive_witness :
    ((∀ i, i < freshVolume.GetTotalGridNum → freshVolume.TriState i) ∧
      (∀ i, i < fullVolume.GetTotalGridNum → fullVolume.TriState i)) ∧
    freshVolume.IsValid = true ∧ fullVolume.IsValid = false :=
  have htri : ∀ i, i < freshVolume.GetTotalGridNum → freshVolume.TriState i :=
    fun _ _ => Or.inl ⟨rfl, rfl, rfl⟩
  have hfull : ∀ i, i < fullVolume.GetTotalGridNum → fullVolume.TriState i :=
    fun _ _ => Or.inr ⟨rfl, rfl, rfl⟩
  ⟨⟨htri, hfull⟩,
    (IsValid_iff_some_inactive freshVolume htri).2.1
      (fun i _ => freshVolume_inactive i) (by decide) (by decide) (by decide) (by decide),
    (IsValid_iff_some_inactive fullVolume hfull).2.2 (fun _ _ => by rfl)⟩

/-! ## Interpolation along a crossed edge -/

/-- A bit of an edge mask, tested as the source tests it. -/
theorem and_shift_ne_zero_iff (n e : Nat) : n &&& (1 <<< e) ≠ 0 ↔ n.testBit e = true := by
  rw [Nat.one_shiftLeft, Nat.and_two_pow]
  cases h : n.testBit e
  · simp
  · simp

/-- Bit `i` of a mask built by or-ing in the bit of every index below `n` that
satisfies `P`. -/
theorem orLoop_testBit (P : Nat → Prop) [DecidablePred P] (n i : Nat) :
    (forLoop n (fun e f => if P e then f ||| (1 <<< e) else f) 0).testBit i =
      decide (i < n ∧ P i) := by
  induction n with
  | zero => simp [forLoop]
  | succ k ih =>
    rw [forLoop]
    by_cases hk : P k
    · rw [if_pos hk, Nat.testBit_or, ih, Nat.one_shiftLeft, Nat.testBit_two_pow]
      by_cases hik : k = i
      · subst hik; simp [hk]
      · have : i < k + 1 ↔ i < k := by omega
        simp [hik, this]
    · rw [if_neg hk, ih]
      by_cases hik : i = k
      · subst hik; simp [hk]
      · have : i < k + 1 ↔ i < k := by omega
        simp [this]

/-- The sample tables have the edge table the spec describes. -/
theorem sampleTables_edges : EdgesAsSpecified sampleTables := by
  constructor
  · intro e he
    interval_cases e <;> decide
  · intro m e he hflag
    have hbit := (and_shift_ne_zero_iff _ _).mp hflag
    have hloop := orLoop_testBit
      (fun e => m.testBit (sampleTables.a2iEdgeConnection e).1 ≠
        m.testBit (sampleTables.a2iEdgeConnection e).2) 12 e
    have hbit1 : (forLoop 12 (fun e f =>
        if m.testBit (sampleTables.a2iEdgeConnection e).1 ≠
            m.testBit (sampleTables.a2iEdgeConnection e).2 then f ||| (1 <<< e) else f)
        0).testBit e = true := hbit
    rw [hloop] at hbit1
    exact (of_decide_eq_true hbit1).2

/-- For different endpoint values and a target between them the offset lies in
`[0, 1]` and the linear interpolation at the offset is the target. -/
theorem fGetOffset_between (v1 v2 target : ℚ) (hne : v1 ≠ v2)
    (hlo : min v1 v2 ≤ target) (hhi : target ≤ max v1 v2) :
    0 ≤ fGetOffset v1 v2 target ∧ fGetOffset v1 v2 target ≤ 1 ∧
      v1 + fGetOffset v1 v2 target * (v2 - v1) = target := by
  have hd : v2 - v1 ≠ 0 := sub_ne_zero.mpr (Ne.symm hne)
  have e : fGetOffset v1 v2 target = (target - v1) / (v2 - v1) := by
    unfold fGetOffset
    simp only []
    rw [if_neg hd]
  rw [e]
  refine ⟨?_, ?_, ?_⟩
  · rcases lt_or_gt_of_ne hne with h | h
    · rw [min_eq_left h.le] at hlo
      exact div_nonneg (by linarith) (by linarith)
    · rw [max_eq_left h.le] at hhi
      exact div_nonneg_of_nonpos (by linarith) (by linarith)
  · rcases lt_or_gt_of_ne hne with h | h
    · rw [max_eq_right h.le] at hhi
      rw [div_le_one (by linarith)]
      linarith
    · rw [min_eq_right h.le] at hlo
      rw [div_le_one_of_neg (by linarith)]
      linarith
  · rw [div_mul_cancel₀ _ hd]
    ring

/-- The two corners of an edge whose bit is set in the entry of the mask of a
cube lie on different sides of the target value. -/
theorem crossed_edge_sides (t : MarchingCubesTables) (ht : EdgesAsSpecified t)
    (a : Nat → ℚ) (iso : ℚ) (e : Nat) (he : e < 12)
    (hflag : t.aiCubeEdgeFlags (cubeFlagIndex a iso) &&& (1 <<< e) ≠ 0) :
    (a (t.a2iEdgeConnection e).1 ≤ iso ∧ iso < a (t.a2iEdgeConnection e).2) ∨
      (iso < a (t.a2iEdgeConnection e).1 ∧ a (t.a2iEdgeConnection e).2 ≤ iso) := by
  obtain ⟨c0, c1⟩ := ht.corners e he
  have hx := ht.crossed (cubeFlagIndex a iso) e he hflag
  rw [cubeFlagIndex_testBit, cubeFlagIndex_testBit] at hx
  by_cases h0 : a (t.a2iEdgeConnection e).1 ≤ iso
  · by_cases h1 : a (t.a2iEdgeConnection e).2 ≤ iso
    · exact absurd (by simp [c0, c1, h0, h1]) hx
    · exact Or.inl ⟨h0, lt_of_not_le h1⟩
  · by_cases h1 : a (t.a2iEdgeConnection e).2 ≤ iso
    · exact Or.inr ⟨lt_of_not_le h0, h1⟩
    · exact absurd (by simp [c0, c1, h0, h1]) hx

/-- C34: for all endpoint values `v1 ≠ v2` and every target value between them
(`min(v1,v2) ≤ target ≤ max(v1,v2)`), `fGetOffset(v1, v2, target)` lies in
`[0, 1]` and satisfies `v1 + offset * (v2 - v1) = target` (exact arithmetic). This
is the case for every edge that `vMarchCube` marks as crossed, the edge table
being as the spec states it: the two corner samples of such an edge are finite,
different and have the target between them, and the interpolated vertex
`asEdgeVertex[iEdge]` is the position of the first corner moved by the fraction
`s = fGetOffset(..)` of the edge direction, `0 ≤ s ≤ 1`, so it lies on the cube
edge. -/
theorem fGetOffset_on_crossed_edge :
    (∀ v1 v2 target : ℚ, v1 ≠ v2 → min v1 v2 ≤ target → target ≤ max v1 v2 →
      0 ≤ fGetOffset v1 v2 target ∧ fGetOffset v1 v2 target ≤ 1 ∧
        v1 + fGetOffset v1 v2 target * (v2 - v1) = target) ∧
    (∀ (t : MarchingCubesTables), EdgesAsSpecified t →
      ∀ (vol : BoundedVolume) (x y z : Int) (fTargetValue : ℚ),
      (∀ i, i < 8 → cubeValues t vol x y z i ≠ FloatValue.nan) →
      ∀ iEdge, iEdge < 12 →
      t.aiCubeEdgeFlags (cubeFlagIndex (fun i => (cubeValues t vol x y z i).toRat)
        fTargetValue) &&& (1 <<< iEdge) ≠ 0 →
      ∃ v1 v2 s : ℚ,
        cubeValues t vol x y z (t.a2iEdgeConnection iEdge).1 = FloatValue.finite v1 ∧
        cubeValues t vol x y z (t.a2iEdgeConnection iEdge).2 = FloatValue.finite v2 ∧
        v1 ≠ v2 ∧ min v1 v2 ≤ fTargetValue ∧ fTargetValue ≤ max v1 v2 ∧
        s = fGetOffset v1 v2 fTargetValue ∧ 0 ≤ s ∧ s ≤ 1 ∧
        v1 + s * (v2 - v1) = fTargetValue ∧
        asEdgeVertex t vol x y z (fun i => (cubeValues t vol x y z i).toRat) fTargetValue
          (t.aiCubeEdgeFlags (cubeFlagIndex (fun i => (cubeValues t vol x y z i).toRat)
            fTargetValue)) iEdge =
          ⟨(vol.VoxelPositionInUnits x y z).x +
              ((t.a2fVertexOffset (t.a2iEdgeConnection iEdge).1).x +
                s * (t.a2fEdgeDirection iEdge).x) * vol.VoxelSizeUnits.x,
           (vol.VoxelPositionInUnits x y z).y +
              ((t.a2fVertexOffset (t.a2iEdgeConnection iEdge).1).y +
                s * (t.a2fEdgeDirection iEdge).y) * vol.VoxelSizeUnits.y,
           (vol.VoxelPositionInUnits x y z).z +
              ((t.a2fVertexOffset (t.a2iEdgeConnection iEdge).1).z +
                s * (t.a2fEdgeDirection iEdge).z) * vol.VoxelSizeUnits.z⟩) := by
  refine ⟨fGetOffset_between, ?_⟩
  intro t ht vol x y z iso hfin e he hflag
  obtain ⟨c0, c1⟩ := ht.corners e he
  have hfinite : ∀ i, i < 8 →
      cubeValues t vol x y z i = FloatValue.finite (cubeValues t vol x y z i).toRat := by
    intro i hi
    have h := hfin i hi
    cases hv : cubeValues t vol x y z i with
    | nan => exact absurd hv h
    | finite q => rfl
  have hsides := crossed_edge_sides t ht (fun i => (cubeValues t vol x y z i).toRat) iso e he
    hflag
  have hne : (cubeValues t vol x y z (t.a2iEdgeConnection e).1).toRat ≠
      (cubeValues t vol x y z (t.a2iEdgeConnection e).2).toRat := by
    intro heq
    rcases hsides with ⟨h1, h2⟩ | ⟨h1, h2⟩
    · have h2a : iso < (cubeValues t vol x y z (t.a2iEdgeConnection e).2).toRat := h2
      have h1a : (cubeValues t vol x y z (t.a2iEdgeConnection e).1).toRat ≤ iso := h1
      rw [heq] at h1a
      exact absurd h2a (not_lt.mpr h1a)
    · have h1a : iso < (cubeValues t vol x y z (t.a2iEdgeConnection e).1).toRat := h1
      have h2a : (cubeValues t vol x y z (t.a2iEdgeConnection e).2).toRat ≤ iso := h2
      rw [heq] at h1a
      exact absurd h1a (not_lt.mpr h2a)
  have hlo : min (cubeValues t vol x y z (t.a2iEdgeConnection e).1).toRat
      (cubeValues t vol x y z (t.a2iEdgeConnection e).2).toRat ≤ iso := by
    rcases hsides with ⟨h1, _⟩ | ⟨_, h2⟩
    · exact le_trans (min_le_left _ _) h1
    · exact le_trans (min_le_right _ _) h2
  have hhi : iso ≤ max (cubeValues t vol x y z (t.a2iEdgeConnection e).1).toRat
      (cubeValues t vol x y z (t.a2iEdgeConnection e).2).toRat := by
    rcases hsides with ⟨_, h2⟩ | ⟨h1, _⟩
    · exact le_trans (le_of_lt h2) (le_max_right _ _)
    · exact le_trans (le_of_lt h1) (le_max_left _ _)
  obtain ⟨s0, s1, sid⟩ := fGetOffset_between _ _ iso hne hlo hhi
  refine ⟨_, _, _, hfinite _ c0, hfinite _ c1, hne, hlo, hhi, rfl, s0, s1, sid, ?_⟩
  unfold asEdgeVertex
  rw [if_pos hflag]
  rfl

/-- C34 on samples: endpoints `-1` and `3` with target 0 give an offset in
`[0, 1]`; and on the cube at the origin of the sample field with target 0, edge 0
(corners 0 and 1, samples `-1/2` and `1/2`) is marked as crossed and its offset
lies in `[0, 1]`. -/
theorem fGetOffset_on_crossed_edge_witness :
    ((-1 : ℚ) ≠ 3 ∧ min (-1 : ℚ) 3 ≤ 0 ∧ (0 : ℚ) ≤ max (-1) 3) ∧
    (0 ≤ fGetOffset (-1) 3 0 ∧ fGetOffset (-1) 3 0 ≤ 1 ∧
      -1 + fGetOffset (-1) 3 0 * (3 - (-1)) = 0) ∧
    (EdgesAsSpecified sampleTables ∧
      (∀ i, i < 8 → cubeValues sampleTables sampleField 0 0 0 i ≠ FloatValue.nan) ∧
      sampleTables.aiCubeEdgeFlags
        (cubeFlagIndex (fun i => (cubeValues sampleTables sampleField 0 0 0 i).toRat) 0)
          &&& (1 <<< 0) ≠ 0) ∧
    (∃ v1 v2 s : ℚ, v1 ≠ v2 ∧ min v1 v2 ≤ 0 ∧ 0 ≤ max v1 v2 ∧
      s = fGetOffset v1 v2 0 ∧ 0 ≤ s ∧ s ≤ 1 ∧ v1 + s * (v2 - v1) = 0) :=
  have hfin : ∀ i, i < 8 → cubeValues sampleTables sampleField 0 0 0 i ≠ FloatValue.nan :=
    fun i hi => (sampleField_corners i hi).1
  have h1 : (cubeValues sampleTables sampleField 0 0 0 0).toRat ≤ 0 := by
    rw [(sampleField_corners 0 (by decide)).2.1 rfl]; norm_num
  have h0 : ∀ j, j < 8 → j ≠ 0 →
      (0 : ℚ) < (cubeValues sampleTables sampleField 0 0 0 j).toRat :=
    fun j hj hne => lt_of_lt_of_le (by norm_num) ((sampleField_corners j hj).2.2.1 hne)
  have hmask : cubeFlagIndex (fun i => (cubeValues sampleTables sampleField 0 0 0 i).toRat) 0
      = 1 <<< 0 := cubeFlagIndex_single_below _ _ 0 (by decide) h1 h0
  have hflag : sampleTables.aiCubeEdgeFlags
      (cubeFlagIndex (fun i => (cubeValues sampleTables sampleField 0 0 0 i).toRat) 0)
        &&& (1 <<< 0) ≠ 0 := by
    rw [hmask]; decide
  have hin : (-1 : ℚ) ≠ 3 ∧ min (-1 : ℚ) 3 ≤ 0 ∧ (0 : ℚ) ≤ max (-1) 3 := by
    refine ⟨by norm_num, ?_, ?_⟩
    · rw [min_eq_left (by norm_num)]; norm_num
    · rw [max_eq_right (by norm_num)]; norm_num
  ⟨hin, fGetOffset_on_crossed_edge.1 (-1) 3 0 hin.1 hin.2.1 hin.2.2,
    ⟨sampleTables_edges, hfin, hflag⟩,
    match fGetOffset_on_crossed_edge.2 sampleTables sampleTables_edges sampleField 0 0 0 0
      hfin 0 (by decide) hflag with
    | ⟨v1, v2, s, _, _, hne, hlo, hhi, hs, s0, s1, sid, _⟩ =>
      ⟨v1, v2, s, hne, hlo, hhi, hs, s0, s1, sid⟩⟩

end roo
